import Mathlib

/-!
# CFR+ on a one-round betting game: a shallow embedding of `src/main.cpp`

The C++ program trains a strategy for a two-player, one-card betting game by
counterfactual regret minimisation.  This file embeds the program in Lean and
proves properties of it.

Conventions of the embedding:

* `double` is read as an exact rational `ℚ`;
* `std::string` is `String`, `std::vector<double>` is `List ℚ`;
* `std::map<string, T>` is an association list with at most one entry per key,
  read with `lookupKey` and written with `assignKey` (the iteration order of the
  C++ map is not modelled);
* a failed `assert` ends the run with an error (`Except Err`); an index outside a
  vector or string is undefined behaviour in C++ and ends the run of the model with
  an error as well, so a run that completes in the model has no such access, while
  a run that the model stops at such an access says nothing about the program;
  the recursion of `cfr` is bounded by a `fuel` argument;
* `int player` takes the values `0` and `1` only and is a `Fin 2`; cards are `Int`;
* `cfrLog` is `cfr` with a ghost log of the visits, payoff evaluations and calls it
  makes; `cfrLog_erase` shows that it computes what `cfr` computes.
-/

namespace Cfr

/-! ## Errors, vectors, strings, maps -/

/-- Ways a run can end without a result: a failed `assert`, an index outside a
vector or a string, or the recursion budget of the model being used up. -/
inductive Err where
  | assertFail
  | outOfRange
  | outOfFuel
  deriving DecidableEq, Repr

/-- Read `v[i]`; an index outside the vector is an error. -/
def vget (v : List ℚ) (i : Nat) : Except Err ℚ :=
  match v[i]? with
  | some x => .ok x
  | none => .error .outOfRange

/-- Write `v[i] = x`; an index outside the vector is an error. -/
def vset (v : List ℚ) (i : Nat) (x : ℚ) : Except Err (List ℚ) :=
  if i < v.length then .ok (v.set i x) else .error .outOfRange

/-- Read `s[i]` of a string; an index outside the string is an error. -/
def charAt (s : String) (i : Nat) : Except Err Char :=
  match s.data[i]? with
  | some c => .ok c
  | none => .error .outOfRange

/-- The call `v.resize(n, x)` of `std::vector`: truncate to `n` entries, or pad
with copies of `x` up to `n` entries. -/
def resize (v : List ℚ) (n : Nat) (x : ℚ) : List ℚ :=
  v.take n ++ List.replicate (n - v.length) x

/-- The loop `for (int i = 0; i < n; ++i) body`, threading the mutable state
through the iterations; an error in an iteration ends the loop. -/
def forIdx {σ : Type} (n : Nat) (body : Nat → σ → Except Err σ) (init : σ) : Except Err σ :=
  (List.range n).foldlM (fun s i => body i s) init

/-- Find the value stored under `key` (`map::find`). -/
def lookupKey {α : Type} : List (String × α) → String → Option α
  | [], _ => none
  | (k, v) :: rest, key => if k = key then some v else lookupKey rest key

/-- Store `v` under `key` (`m[key] = v`): replaces the entry of an existing key,
adds an entry for a new one. -/
def assignKey {α : Type} : List (String × α) → String → α → List (String × α)
  | [], key, v => [(key, v)]
  | (k, w) :: rest, key, v =>
    if k = key then (key, v) :: rest else (k, w) :: assignKey rest key v

/-! ## Strategy nodes (lines 20-85) -/

/-- The `struct StrategyNode`; the default value is the default-constructed node. -/
structure StrategyNode where
  locked : Bool := false
  cards : String := ""
  actionLabels : String := ""
  regrets : List ℚ := []
  strategy : List ℚ := []
  strategySum : List ℚ := []
  avgStrategy : List ℚ := []
  deriving DecidableEq, Repr

/-- The function `initStrategy` (lines 30-41). -/
def initStrategy (node : StrategyNode) (cards actionLabels : String) :
    Except Err StrategyNode :=
  let n := actionLabels.length
  if n > 0 then
    .ok { locked := false
          cards := cards
          actionLabels := actionLabels
          regrets := resize node.regrets n 0
          strategy := resize node.strategy n (1 / (n : ℚ))
          strategySum := resize node.strategySum n 0
          avgStrategy := resize node.avgStrategy n (1 / (n : ℚ)) }
  else .error .assertFail

/-- First loop of `regretMatching` (lines 50-53): one iteration, on the node and
the running `sum`. -/
def regretMatchingStep1 (i : Nat) (s : StrategyNode × ℚ) : Except Err (StrategyNode × ℚ) := do
  let r ← vget s.1.regrets i
  let strategy ← vset s.1.strategy i (if r > 0 then r else 0)
  let x ← vget strategy i
  pure ({ s.1 with strategy := strategy }, s.2 + x)

/-- Second loop of `regretMatching` (lines 54-61): one iteration. -/
def regretMatchingStep2 (sum : ℚ) (i : Nat) (node : StrategyNode) : Except Err StrategyNode := do
  if sum > 0 then
    let x ← vget node.strategy i
    let strategy ← vset node.strategy i (x / sum)
    pure { node with strategy := strategy }
  else
    let strategy ← vset node.strategy i (1 / (node.actionLabels.length : ℚ))
    pure { node with strategy := strategy }

/-- The function `regretMatching` (lines 43-62). -/
def regretMatching (node : StrategyNode) : Except Err StrategyNode :=
  if node.locked then .ok node
  else do
    let s ← forIdx node.regrets.length regretMatchingStep1 (node, 0)
    forIdx s.1.regrets.length (regretMatchingStep2 s.2) s.1

/-- One iteration of the loop of `accumulateAvgStrategy` (line 67). -/
def accumulateAvgStrategyStep (weight : ℚ) (i : Nat) (node : StrategyNode) :
    Except Err StrategyNode := do
  let x ← vget node.strategy i
  let old ← vget node.strategySum i
  let strategySum ← vset node.strategySum i (old + weight * x)
  pure { node with strategySum := strategySum }

/-- The function `accumulateAvgStrategy` (lines 64-69). -/
def accumulateAvgStrategy (node : StrategyNode) (weight : ℚ) : Except Err StrategyNode :=
  forIdx node.regrets.length (accumulateAvgStrategyStep weight) node

/-- First loop of `regretMatchingAvgStrategy` (lines 74-76): one iteration on the
running `sum`; the node is only read. -/
def regretMatchingAvgStrategyStep1 (node : StrategyNode) (i : Nat) (sum : ℚ) : Except Err ℚ := do
  let x ← vget node.strategySum i
  pure (sum + x)

/-- Second loop of `regretMatchingAvgStrategy` (lines 77-84): one iteration. -/
def regretMatchingAvgStrategyStep2 (sum : ℚ) (i : Nat) (node : StrategyNode) :
    Except Err StrategyNode := do
  if sum > 0 then
    let x ← vget node.strategySum i
    let avgStrategy ← vset node.avgStrategy i (x / sum)
    pure { node with avgStrategy := avgStrategy }
  else
    let avgStrategy ← vset node.avgStrategy i (1 / (node.actionLabels.length : ℚ))
    pure { node with avgStrategy := avgStrategy }

/-- The function `regretMatchingAvgStrategy` (lines 71-85). -/
def regretMatchingAvgStrategy (node : StrategyNode) : Except Err StrategyNode := do
  let sum ← forIdx node.regrets.length (regretMatchingAvgStrategyStep1 node) 0
  forIdx node.regrets.length (regretMatchingAvgStrategyStep2 sum) node

/-! ## Game state, keys, payoff (lines 87-159) -/

/-- The `struct CfrState`. -/
structure CfrState where
  cards : Fin 2 → Int
  cardMask : Fin 2 → Nat
  betSize : ℚ
  initialPotSize : ℚ
  strat : List (String × StrategyNode)
  lockedStrat : List (String × List ℚ)

/-- The function `initState` (lines 96-105); `(ull)-1` is `2^64 - 1`.  The
override table `lockedStrat` is not touched. -/
def initState (state : CfrState) : CfrState :=
  { state with
    cards := fun _ => -1
    cardMask := fun _ => 2 ^ 64 - 1
    betSize := 1
    initialPotSize := 1
    strat := [] }

/-- The function `tostring` (lines 107-112): the decimal digits of `num`, as
`sprintf("%d")` prints them. -/
def tostring (num : Int) : String :=
  match num with
  | Int.ofNat n => String.mk (Nat.toDigits 10 n)
  | Int.negSucc n => String.mk ('-' :: Nat.toDigits 10 (n + 1))

/-- The function `constructInfosetKey` (lines 114-117). -/
def constructInfosetKey (hist : String) (card : Int) : String :=
  hist ++ "|" ++ tostring card

/-- The function `getInfosetKey` (lines 119-122). -/
def getInfosetKey (state : CfrState) (player : Fin 2) (hist : String) : String :=
  constructInfosetKey hist (state.cards player)

/-- The function `lockNode` (lines 124-128). -/
def lockNode (state : CfrState) (hist : String) (card : Int) (strategy : List ℚ) : CfrState :=
  let key := constructInfosetKey hist card
  { state with lockedStrat := assignKey state.lockedStrat key strategy }

/-- The other player, `!player`. -/
def opp (player : Fin 2) : Fin 2 := if player = 0 then 1 else 0

/-- The function `showdown` (lines 141-159). -/
def showdown (state : CfrState) (action : Char) (player : Fin 2) : Except Err ℚ :=
  if state.cards player = state.cards (opp player) then .error .assertFail
  else
    let blind := state.initialPotSize * (1 / 2)
    if action = 'f' then .ok (-blind)
    else if ¬(action = 'h' ∨ action = 'c') then .error .assertFail
    else
      let playerWon : Bool := decide (state.cards player > state.cards (opp player))
      if action = 'h' then .ok ((if playerWon then 1 else -1) * blind)
      else .ok ((if playerWon then 1 else -1) * (state.betSize + blind))

/-! ## The traversal `cfr` (lines 161-230) -/

/-- The node `state.strat[key]`: `operator[]` yields the default-constructed node
for a key that is absent. -/
def nodeAt (state : CfrState) (key : String) : StrategyNode :=
  (lookupKey state.strat key).getD {}

/-- Write through the reference `state.strat[key]`. -/
def setNode (state : CfrState) (key : String) (node : StrategyNode) : CfrState :=
  { state with strat := assignKey state.strat key node }

/-- Lines 163-175 of `cfr`: the available actions and terminal flags at a
history; a last symbol other than `b` and `h` fails `assert(0)`. -/
def actionTable (hist : String) : Except Err (String × String) :=
  if hist.data = [] then .ok ("bh", "00")
  else if hist.data.getLast? = some 'b' then .ok ("cf", "11")
  else if hist.data.getLast? = some 'h' then .ok ("h", "1")
  else .error .assertFail

/-- Lines 181-189 of `cfr`: create the node of a key that has none, locked to the
registered override when there is one. -/
def createNode (state : CfrState) (infoSetKey : String) (player : Fin 2)
    (availActions : String) : Except Err CfrState :=
  if lookupKey state.strat infoSetKey = none then do
    let snode ← initStrategy {} (tostring (state.cards player)) availActions
    match lookupKey state.lockedStrat infoSetKey with
    | some s => pure (setNode state infoSetKey { snode with locked := true, strategy := s })
    | none => pure (setNode state infoSetKey snode)
  else pure state

/-- Lines 199-221 of `cfr`: one iteration of the loop over the actions, on the
state, the array `utilArr` and the running `avgUtil`.  The argument `recur` is the
recursive call (line 217). -/
def actionStep (recur : CfrState → String → Fin 2 → ℚ → ℚ → Except Err (ℚ × CfrState))
    (hist : String) (player : Fin 2) (reachProb0 reachProb1 : ℚ)
    (availActions terminal infoSetKey : String) (i : Nat)
    (s : CfrState × List ℚ × ℚ) : Except Err (CfrState × List ℚ × ℚ) := do
  let action ← charAt availActions i
  let t ← charAt terminal i
  let r ←
    if t = '1' then do
      let u ← showdown s.1 action player
      pure (u, s.1)
    else do
      let p ← vget (nodeAt s.1 infoSetKey).strategy i
      let newReachProb0 := if player = 0 then reachProb0 * p else reachProb0
      let newReachProb1 := if player = 0 then reachProb1 else reachProb1 * p
      let c ← recur s.1 (hist.push action) (opp player) newReachProb0 newReachProb1
      pure (-c.1, c.2)
  let utilArr ← vset s.2.1 i r.1
  let p ← vget (nodeAt r.2 infoSetKey).strategy i
  pure (r.2, utilArr, s.2.2 + r.1 * p)

/-- Lines 223-227 of `cfr`: one iteration of the regret update. -/
def regretStep (player : Fin 2) (reachProb0 reachProb1 : ℚ) (utilArr : List ℚ) (avgUtil : ℚ)
    (infoSetKey : String) (i : Nat) (state : CfrState) : Except Err CfrState := do
  let u ← vget utilArr i
  let regret := u - avgUtil
  let strat := nodeAt state infoSetKey
  let old ← vget strat.regrets i
  let regrets ← vset strat.regrets i (old + (if player = 0 then reachProb1 else reachProb0) * regret)
  let cur ← vget regrets i
  let regrets ← vset regrets i (max cur 0)
  pure (setNode state infoSetKey { strat with regrets := regrets })

/-- The body of `cfr` (lines 161-230), with the recursive call as the argument
`recur`. -/
def cfrBody (recur : CfrState → String → Fin 2 → ℚ → ℚ → Except Err (ℚ × CfrState))
    (state : CfrState) (hist : String) (player : Fin 2) (reachProb0 reachProb1 : ℚ) :
    Except Err (ℚ × CfrState) := do
  let tbl ← actionTable hist
  let availActions := tbl.1
  let terminal := tbl.2
  if availActions.length = 0 then .error .assertFail
  else do
    let infoSetKey := getInfosetKey state player hist
    let state ← createNode state infoSetKey player availActions
    let strat ← regretMatching (nodeAt state infoSetKey)
    let strat ← accumulateAvgStrategy strat (if player = 0 then reachProb0 else reachProb1)
    let state := setNode state infoSetKey strat
    let s ← forIdx availActions.length
      (actionStep recur hist player reachProb0 reachProb1 availActions terminal infoSetKey)
      (state, List.replicate availActions.length 0, 0)
    let state ← forIdx availActions.length
      (regretStep player reachProb0 reachProb1 s.2.1 s.2.2 infoSetKey) s.1
    pure (s.2.2, state)

/-- The function `cfr` (lines 161-230); `fuel` bounds the depth of the recursion. -/
def cfr : Nat → CfrState → String → Fin 2 → ℚ → ℚ → Except Err (ℚ × CfrState)
  | 0 => fun _ _ _ _ _ => .error .outOfFuel
  | fuel + 1 => cfrBody (cfr fuel)

/-! ## Closed forms of the loops over a node -/

/-- The vector `old` with its first entries replaced by the entries of `new`. -/
def overwrite (new old : List ℚ) : List ℚ := new ++ old.drop new.length

/-- The positive parts `regrets[i] > 0 ? regrets[i] : 0` of the regrets of a node. -/
def posRegrets (node : StrategyNode) : List ℚ :=
  node.regrets.map (fun r => if r > 0 then r else 0)

/-- The values `regretMatching` writes into `strategy`, one for every regret: the
positive regrets divided by their sum when the sum is positive, the uniform value
`1 / actionLabels.size()` otherwise. -/
def rmTarget (node : StrategyNode) : List ℚ :=
  if (posRegrets node).sum > 0 then (posRegrets node).map (fun x => x / (posRegrets node).sum)
  else List.replicate node.regrets.length (1 / (node.actionLabels.length : ℚ))

/-- The values `accumulateAvgStrategy` writes into `strategySum`, one for every
regret: `strategySum[i] + weight * strategy[i]`. -/
def accTarget (node : StrategyNode) (weight : ℚ) : List ℚ :=
  (List.zipWith (fun old x => old + weight * x) node.strategySum node.strategy).take
    node.regrets.length

/-- The values `regretMatchingAvgStrategy` writes into `avgStrategy`, one for every
regret: `strategySum[i]` divided by the total when the total is positive, the
uniform value `1 / actionLabels.size()` otherwise. -/
def avgTarget (node : StrategyNode) : List ℚ :=
  if (node.strategySum.take node.regrets.length).sum > 0 then
    (node.strategySum.take node.regrets.length).map
      (fun x => x / (node.strategySum.take node.regrets.length).sum)
  else List.replicate node.regrets.length (1 / (node.actionLabels.length : ℚ))

/-! ## Closed forms of the steps of `cfr` -/

/-- The node `createNode` creates for a key that has none: `initStrategy` on the
default node, locked to the registered override when there is one. -/
def freshNode (state : CfrState) (infoSetKey : String) (player : Fin 2)
    (availActions : String) : StrategyNode :=
  let n := availActions.length
  let snode : StrategyNode :=
    { locked := false
      cards := tostring (state.cards player)
      actionLabels := availActions
      regrets := List.replicate n 0
      strategy := List.replicate n (1 / (n : ℚ))
      strategySum := List.replicate n 0
      avgStrategy := List.replicate n (1 / (n : ℚ)) }
  match lookupKey state.lockedStrat infoSetKey with
  | some s => { snode with locked := true, strategy := s }
  | none => snode

/-- The node a visit works on: the stored node of the key, or the freshly created
one. -/
def entryNode (state : CfrState) (infoSetKey : String) (player : Fin 2)
    (availActions : String) : StrategyNode :=
  match lookupKey state.strat infoSetKey with
  | some node => node
  | none => freshNode state infoSetKey player availActions

/-- The node after `regretMatching`. -/
def afterMatching (node : StrategyNode) : StrategyNode :=
  if node.locked then node
  else { node with strategy := overwrite (rmTarget node) node.strategy }

/-- The node after `regretMatching` and `accumulateAvgStrategy` (lines 194-195). -/
def afterVisit (node : StrategyNode) (weight : ℚ) : StrategyNode :=
  { afterMatching node with
    strategySum := overwrite (accTarget (afterMatching node) weight)
      (afterMatching node).strategySum }

/-- The values the regret update (lines 223-227) writes: the old regret plus the
weighted instantaneous regret, clamped at `0`. -/
def regretTarget (regrets utilArr : List ℚ) (weight avgUtil : ℚ) : List ℚ :=
  List.zipWith (fun r u => max (r + weight * (u - avgUtil)) 0) regrets utilArr

/-- The node after the regret update over `n` actions. -/
def afterRegrets (node : StrategyNode) (utilArr : List ℚ) (weight avgUtil : ℚ) (n : Nat) :
    StrategyNode :=
  { node with
    regrets := overwrite ((regretTarget node.regrets utilArr weight avgUtil).take n)
      node.regrets }

/-- The value `showdown` returns when its assertions hold. -/
def payoff (state : CfrState) (action : Char) (player : Fin 2) : ℚ :=
  let blind := state.initialPotSize * (1 / 2)
  let sign : ℚ := if state.cards player > state.cards (opp player) then 1 else -1
  if action = 'f' then -blind
  else if action = 'h' then sign * blind
  else sign * (state.betSize + blind)

/-- The strategy-weighted sum of the per-action utilities (line 220). -/
def weightedSum (utilArr strategy : List ℚ) : ℚ :=
  (List.zipWith (fun u x => u * x) utilArr strategy).sum

/-- The opponent's reach probability, the weight of the regret update (line 225). -/
def oppReach (player : Fin 2) (reachProb0 reachProb1 : ℚ) : ℚ :=
  if player = 0 then reachProb1 else reachProb0

/-- The acting player's own reach probability, the weight of the accumulation
(line 195). -/
def ownReach (player : Fin 2) (reachProb0 reachProb1 : ℚ) : ℚ :=
  if player = 0 then reachProb0 else reachProb1

/-- The result of `cfr` at a history all of whose actions are terminal: the value,
and the state with the visited node updated. -/
def leafVisit (state : CfrState) (hist : String) (player : Fin 2) (reachProb0 reachProb1 : ℚ)
    (availActions : String) : ℚ × CfrState :=
  let key := getInfosetKey state player hist
  let node := afterVisit (entryNode state key player availActions)
    (ownReach player reachProb0 reachProb1)
  let utilArr := availActions.data.map (fun a => payoff state a player)
  let avgUtil := weightedSum utilArr node.strategy
  (avgUtil, setNode state key
    (afterRegrets node utilArr (oppReach player reachProb0 reachProb1) avgUtil
      availActions.length))

/-- The lengths a visit over `n` actions needs of the node it works on: an entry
of `strategy` and of `strategySum` for every regret, and `n` entries of `strategy`
and of `regrets`. -/
def VisitOk (node : StrategyNode) (n : Nat) : Prop :=
  node.regrets.length ≤ node.strategy.length ∧
  node.regrets.length ≤ node.strategySum.length ∧
  n ≤ node.strategy.length ∧ n ≤ node.regrets.length

/-- The reach probabilities of the recursive call for an action that the acting
player takes with probability `q` (lines 208-215). -/
def childReach (player : Fin 2) (reachProb0 reachProb1 q : ℚ) : ℚ × ℚ :=
  (if player = 0 then reachProb0 * q else reachProb0,
   if player = 0 then reachProb1 else reachProb1 * q)

/-- The result of `cfr` at the empty history: the root node is visited, then the
history `b` and then the history `h` with the other player acting, and at last the
regrets of the root node are updated with the negated values of the two calls. -/
def rootVisit (state : CfrState) (player : Fin 2) (reachProb0 reachProb1 : ℚ) : ℚ × CfrState :=
  let key := getInfosetKey state player ""
  let node := afterVisit (entryNode state key player "bh")
    (ownReach player reachProb0 reachProb1)
  let s2 := setNode state key node
  let rb := childReach player reachProb0 reachProb1 (node.strategy[0]?.getD 0)
  let cb := leafVisit s2 "b" (opp player) rb.1 rb.2 "cf"
  let rh := childReach player reachProb0 reachProb1 (node.strategy[1]?.getD 0)
  let ch := leafVisit cb.2 "h" (opp player) rh.1 rh.2 "h"
  let utilArr := [-cb.1, -ch.1]
  let avgUtil := weightedSum utilArr node.strategy
  (avgUtil, setNode ch.2 key
    (afterRegrets node utilArr (oppReach player reachProb0 reachProb1) avgUtil 2))

/-- The lengths a root traversal needs of the three nodes it works on, and the
two private cards being different. -/
def RootOk (state : CfrState) (player : Fin 2) : Prop :=
  state.cards player ≠ state.cards (opp player) ∧
  VisitOk (entryNode state (getInfosetKey state player "") player "bh") 2 ∧
  VisitOk (entryNode state (getInfosetKey state (opp player) "b") (opp player) "cf") 2 ∧
  VisitOk (entryNode state (getInfosetKey state (opp player) "h") (opp player) "h") 1

/-- The regrets a key holds before a visit over `n` actions: those of its node, or
`n` zeros when it has no node yet. -/
def oldRegrets (state : CfrState) (key : String) (n : Nat) : List ℚ :=
  match lookupKey state.strat key with
  | some node => node.regrets
  | none => List.replicate n 0

/-- The accumulated strategy a key holds before a visit over `n` actions: that of
its node, or `n` zeros when it has no node yet. -/
def oldStrategySum (state : CfrState) (key : String) (n : Nat) : List ℚ :=
  match lookupKey state.strat key with
  | some node => node.strategySum
  | none => List.replicate n 0

/-- The value of a visit at a history all of whose actions are terminal: the
payoffs weighted by the strategy after regret matching. -/
def leafValue (state : CfrState) (hist : String) (player : Fin 2) (availActions : String) : ℚ :=
  weightedSum (availActions.data.map (fun a => payoff state a player))
    (afterMatching
      (entryNode state (getInfosetKey state player hist) player availActions)).strategy

/-- The value of the traversal at the empty history: the negated values of the two
histories below, weighted by the strategy of the root node after regret matching. -/
def rootValue (state : CfrState) (player : Fin 2) : ℚ :=
  weightedSum
    [-leafValue state "b" (opp player) "cf", -leafValue state "h" (opp player) "h"]
    (afterMatching (entryNode state (getInfosetKey state player "") player "bh")).strategy

/-- A well-formed store: the node stored under the key of a history and a card
has the number of actions of that history as the length of its action list, of
`regrets`, of `strategy` and of `strategySum`, and every override registered under
such a key has that length as well. -/
def WellFormed (state : CfrState) : Prop :=
  (∀ (hist : String) (card : Int) (acts term : String) (node : StrategyNode),
    actionTable hist = Except.ok (acts, term) →
    lookupKey state.strat (constructInfosetKey hist card) = some node →
    node.actionLabels.length = acts.length ∧ node.regrets.length = acts.length ∧
    node.strategy.length = acts.length ∧ node.strategySum.length = acts.length) ∧
  (∀ (hist : String) (card : Int) (acts term : String) (s : List ℚ),
    actionTable hist = Except.ok (acts, term) →
    lookupKey state.lockedStrat (constructInfosetKey hist card) = some s →
    s.length = acts.length)

/-! ## Reachable states and invariants -/

/-- Every stored node satisfies the property `J`, which may depend on the override
table and on the key of the node. -/
def StoreAll (J : List (String × List ℚ) → String → StrategyNode → Prop) (state : CfrState) :
    Prop :=
  ∀ key node, lookupKey state.strat key = some node → J state.lockedStrat key node

/-- The shape of a stored node: no negative regret, one regret for every action,
at least one action, and, unless the node is locked, one strategy entry for every
action, the entries lying in `[0, 1]` and summing to `1`. -/
def NodeInv (node : StrategyNode) : Prop :=
  (∀ r ∈ node.regrets, 0 ≤ r) ∧
  node.regrets.length = node.actionLabels.length ∧
  0 < node.actionLabels.length ∧
  (node.locked = false → node.strategy.length = node.regrets.length) ∧
  (node.locked = false → node.strategy.sum = 1 ∧ ∀ x ∈ node.strategy, 0 ≤ x ∧ x ≤ 1)

/-- The default-constructed `CfrState` after `initState`, as in `main`: the maps
are empty (the integer fields of a default-constructed state are indeterminate and
are overwritten by `initState`). -/
def freshState : CfrState :=
  initState
    { cards := fun _ => 0
      cardMask := fun _ => 0
      betSize := 0
      initialPotSize := 0
      strat := []
      lockedStrat := [] }

/-- The states a run can be in: `initState` on any state, then any sequence of
`lockNode` calls, of deals and configuration changes by the driver (the cards, the
card masks, the bet size and the pot size are set freely), and of completed calls
of `cfr` with any history, player, reach probabilities and fuel. -/
inductive Reachable : CfrState → Prop where
  | init (s : CfrState) : Reachable (initState s)
  | lock {s : CfrState} (hist : String) (card : Int) (strategy : List ℚ) :
      Reachable s → Reachable (lockNode s hist card strategy)
  | deal {s : CfrState} (cards : Fin 2 → Int) (cardMask : Fin 2 → Nat) (betSize pot : ℚ) :
      Reachable s →
      Reachable { s with cards := cards, cardMask := cardMask, betSize := betSize,
                         initialPotSize := pot }
  | run {s s' : CfrState} (fuel : Nat) (hist : String) (player : Fin 2)
      (reachProb0 reachProb1 v : ℚ) :
      Reachable s → cfr fuel s hist player reachProb0 reachProb1 = Except.ok (v, s') →
      Reachable s'

/-- The states reached from `s` by completed calls of `cfr` only, the driver
dealing cards and changing the configuration in between; no `lockNode`. -/
inductive Traversals (s : CfrState) : CfrState → Prop where
  | refl : Traversals s s
  | deal {t : CfrState} (cards : Fin 2 → Int) (cardMask : Fin 2 → Nat) (betSize pot : ℚ) :
      Traversals s t →
      Traversals s { t with cards := cards, cardMask := cardMask, betSize := betSize,
                            initialPotSize := pot }
  | run {t t' : CfrState} (fuel : Nat) (hist : String) (player : Fin 2)
      (reachProb0 reachProb1 v : ℚ) :
      Traversals s t → cfr fuel t hist player reachProb0 reachProb1 = Except.ok (v, t') →
      Traversals s t'

/-- The four vectors of a node that a visit reads have length `n`. -/
def NodeLengths (node : StrategyNode) (n : Nat) : Prop :=
  node.actionLabels.length = n ∧ node.regrets.length = n ∧
  node.strategy.length = n ∧ node.strategySum.length = n

/-- A store in which the vectors of every node have the length of the action list
of the node, and every override registered under the key of a history has the
number of actions of that history as its length. -/
def WellFormedNodes (state : CfrState) : Prop :=
  (∀ (key : String) (node : StrategyNode), lookupKey state.strat key = some node →
    node.regrets.length = node.actionLabels.length ∧
    node.strategy.length = node.actionLabels.length ∧
    node.strategySum.length = node.actionLabels.length) ∧
  (∀ (hist : String) (card : Int) (acts term : String) (s : List ℚ),
    actionTable hist = Except.ok (acts, term) →
    lookupKey state.lockedStrat (constructInfosetKey hist card) = some s →
    s.length = acts.length)

/-- The nodes stored under the keys of a history all satisfy the property `Q` of
that history. -/
def StoreKeyed (Q : String → StrategyNode → Prop) (state : CfrState) : Prop :=
  ∀ (hist : String) (card : Int) (node : StrategyNode),
    lookupKey state.strat (constructInfosetKey hist card) = some node → Q hist node

/-- Two states with the same nodes, cards, bet size and pot size, whose override
tables agree on every key that has no node. -/
def AgreeOffStore (s t : CfrState) : Prop :=
  s.strat = t.strat ∧ s.cards = t.cards ∧ s.betSize = t.betSize ∧
  s.initialPotSize = t.initialPotSize ∧
  ∀ key, lookupKey s.strat key = none →
    lookupKey s.lockedStrat key = lookupKey t.lockedStrat key

/-! ## Sequences of traversals -/

/-- One step of a driver: deal the cards `cards`, then call
`cfr(state, hist, player, reachProb0, reachProb1)`. -/
structure Call where
  cards : Fin 2 → Int
  fuel : Nat
  hist : String
  player : Fin 2
  reachProb0 : ℚ
  reachProb1 : ℚ

/-- Run a sequence of calls one after the other on the same state, as the loop of
`main` does (lines 261-264); the values of the calls are collected. -/
def runCalls : List Call → CfrState → Except Err (List ℚ × CfrState)
  | [], state => .ok ([], state)
  | c :: rest, state => do
    let r ← cfr c.fuel { state with cards := c.cards } c.hist c.player c.reachProb0 c.reachProb1
    let q ← runCalls rest r.2
    pure (r.1 :: q.1, q.2)

/-- The states of a training run that starts from a well-formed store without
overrides, all of whose nodes are unlocked and which has no node yet for the root
infoset of card `c`: the driver deals and calls `cfr(state, "", 0, r0, r1)` with a
non-negative bet size and `r1`, and whenever player 0 holds `c`, the card of
player 1 is lower. -/
inductive Trained (c : Int) : CfrState → Prop where
  | start (s : CfrState) :
      WellFormed s → s.lockedStrat = [] →
      (∀ key node, lookupKey s.strat key = some node → node.locked = false) →
      lookupKey s.strat (constructInfosetKey "" c) = none → Trained c s
  | deal {s : CfrState} (cards : Fin 2 → Int) (cardMask : Fin 2 → Nat) (betSize pot : ℚ) :
      Trained c s →
      Trained c { s with cards := cards, cardMask := cardMask, betSize := betSize,
                         initialPotSize := pot }
  | run {s s' : CfrState} (fuel : Nat) (reachProb0 reachProb1 v : ℚ) :
      Trained c s → (s.cards 0 = c → s.cards 1 < c) → 0 ≤ s.betSize → 0 ≤ reachProb1 →
      cfr fuel s "" 0 reachProb0 reachProb1 = Except.ok (v, s') → Trained c s'

/-! ## The traversal with a log of what it does -/

/-- What a traversal does, in the order in which it does it: it takes the node of a
key (line 193), it evaluates `showdown` for an action at a history (line 205), it
calls itself for a history and an acting player (line 217). -/
inductive Event where
  | visit (key : String)
  | payoff (hist : String) (action : Char) (player : Fin 2)
  | call (hist : String) (player : Fin 2)
  deriving DecidableEq, Repr

/-- The loop body `actionStep` with the log: the same computation, the log growing
by one `payoff` event for a terminal action, and by one `call` event followed by the
log of the recursive call otherwise. -/
def actionStepLog
    (recur : CfrState → String → Fin 2 → ℚ → ℚ → Except Err ((ℚ × CfrState) × List Event))
    (hist : String) (player : Fin 2) (reachProb0 reachProb1 : ℚ)
    (availActions terminal infoSetKey : String) (i : Nat)
    (s : (CfrState × List ℚ × ℚ) × List Event) :
    Except Err ((CfrState × List ℚ × ℚ) × List Event) := do
  let action ← charAt availActions i
  let t ← charAt terminal i
  let r ←
    if t = '1' then do
      let u ← showdown s.1.1 action player
      pure ((u, s.1.1), s.2 ++ [Event.payoff hist action player])
    else do
      let p ← vget (nodeAt s.1.1 infoSetKey).strategy i
      let newReachProb0 := if player = 0 then reachProb0 * p else reachProb0
      let newReachProb1 := if player = 0 then reachProb1 else reachProb1 * p
      let c ← recur s.1.1 (hist.push action) (opp player) newReachProb0 newReachProb1
      pure ((-c.1.1, c.1.2), s.2 ++ Event.call (hist.push action) (opp player) :: c.2)
  let utilArr ← vset s.1.2.1 i r.1.1
  let p ← vget (nodeAt r.1.2 infoSetKey).strategy i
  pure ((r.1.2, utilArr, s.1.2.2 + r.1.1 * p), r.2)

/-- The body `cfrBody` with the log, which starts with the `visit` event of the
node the call works on. -/
def cfrBodyLog
    (recur : CfrState → String → Fin 2 → ℚ → ℚ → Except Err ((ℚ × CfrState) × List Event))
    (state : CfrState) (hist : String) (player : Fin 2) (reachProb0 reachProb1 : ℚ) :
    Except Err ((ℚ × CfrState) × List Event) := do
  let tbl ← actionTable hist
  let availActions := tbl.1
  let terminal := tbl.2
  if availActions.length = 0 then .error .assertFail
  else do
    let infoSetKey := getInfosetKey state player hist
    let state ← createNode state infoSetKey player availActions
    let strat ← regretMatching (nodeAt state infoSetKey)
    let strat ← accumulateAvgStrategy strat (if player = 0 then reachProb0 else reachProb1)
    let state := setNode state infoSetKey strat
    let s ← forIdx availActions.length
      (actionStepLog recur hist player reachProb0 reachProb1 availActions terminal infoSetKey)
      ((state, List.replicate availActions.length 0, 0), [Event.visit infoSetKey])
    let state ← forIdx availActions.length
      (regretStep player reachProb0 reachProb1 s.1.2.1 s.1.2.2 infoSetKey) s.1.1
    pure ((s.1.2.2, state), s.2)

/-- The function `cfr` with the log of its visits, payoff evaluations and calls. -/
def cfrLog : Nat → CfrState → String → Fin 2 → ℚ → ℚ →
    Except Err ((ℚ × CfrState) × List Event)
  | 0 => fun _ _ _ _ _ => .error .outOfFuel
  | fuel + 1 => cfrBodyLog (cfrLog fuel)

/-- The log of a completed traversal at the empty history with `player` acting, on
a state with the given cards. -/
def rootLog (state : CfrState) (player : Fin 2) : List Event :=
  [ Event.visit (getInfosetKey state player ""),
    Event.call "b" (opp player),
    Event.visit (getInfosetKey state (opp player) "b"),
    Event.payoff "b" 'c' (opp player),
    Event.payoff "b" 'f' (opp player),
    Event.call "h" (opp player),
    Event.visit (getInfosetKey state (opp player) "h"),
    Event.payoff "h" 'h' (opp player) ]

/-! ## Reading a decimal numeral back -/

/-- The value of a decimal digit character. -/
def digitValue (c : Char) : Nat := c.toNat - 48

/-- The number a list of decimal digit characters denotes, most significant digit
first. -/
def digitsValue (l : List Char) : Nat := l.foldl (fun acc c => acc * 10 + digitValue c) 0

/-! ## Example inputs -/

/-- A state of the shipped game, as the driver sets it up after `initState`:
player 0 holds card `0`, player 1 holds card `1`, bet size `1`, pot size `1`, no
nodes and no overrides. -/
def exampleState : CfrState :=
  { freshState with cards := fun p => if p = 0 then 0 else 1 }

/-- The example state after `lockNode(state, "h", 1, {0.5})`: the check node of
player 1 holding card `1` is pinned to the override `[1/2]`. -/
def lockedExample : CfrState :=
  lockNode exampleState "h" 1 [1 / 2]

/-- The example state with an override of three entries registered for the root
infoset of card `0`, which has two actions. -/
def longLockExample : CfrState := lockNode exampleState "" 0 [1 / 3, 1 / 3, 1 / 3]

/-- The example state with a node already stored for the root infoset of card `0`. -/
def seededExample : CfrState :=
  setNode exampleState "|0"
    { locked := false, cards := "0", actionLabels := "bh", regrets := [0, 0],
      strategy := [1 / 2, 1 / 2], strategySum := [0, 0], avgStrategy := [1 / 2, 1 / 2] }

/-- The call of the driver: deal card `0` to player 0 and card `1` to player 1, then
`cfr(state, "", 0, 1.0, 1.0)`. -/
def rootCall : Call :=
  { cards := fun p => if p = 0 then 0 else 1, fuel := 2, hist := "", player := 0,
    reachProb0 := 1, reachProb1 := 1 }

/-- The shipped configuration with the cards dealt so that player 0 wins: player 0
holds card `2`, player 1 holds card `1`. -/
def winningExample : CfrState :=
  { freshState with cards := fun p => if p = 0 then 2 else 1 }


/-- A node with two actions, accumulated strategy `1` and `3`, and an average
strategy that has not been computed yet. -/
def avgExample : StrategyNode :=
  { actionLabels := "bh", regrets := [0, 0], strategy := [1 / 2, 1 / 2],
    strategySum := [1, 3], avgStrategy := [0, 0] }


/-! ## The error monad, loops and maps -/

@[simp] theorem ok_bind {α β : Type} (a : α) (f : α → Except Err β) :
    (Except.ok a >>= f) = f a := rfl

@[simp] theorem error_bind {α β : Type} (e : Err) (f : α → Except Err β) :
    (Except.error e >>= f) = Except.error e := rfl

@[simp] theorem pure_eq_ok {α : Type} (a : α) : (pure a : Except Err α) = Except.ok a := rfl

theorem bind_eq_ok {α β : Type} (x : Except Err α) (f : α → Except Err β) (b : β) :
    (x >>= f) = Except.ok b ↔ ∃ a, x = Except.ok a ∧ f a = Except.ok b := by
  cases x with
  | error e => simp
  | ok a => simp

@[simp] theorem forIdx_zero {σ : Type} (body : Nat → σ → Except Err σ) (init : σ) :
    forIdx 0 body init = Except.ok init := rfl

theorem forIdx_succ {σ : Type} (n : Nat) (body : Nat → σ → Except Err σ) (init : σ) :
    forIdx (n + 1) body init = (forIdx n body init >>= body n) := by
  simp only [forIdx, List.range_succ, List.foldlM_append, List.foldlM_cons, List.foldlM_nil]
  cases List.foldlM (fun s i => body i s) init (List.range n) with
  | error e => rfl
  | ok a => cases h : body n a <;> simp [h]

/-- A loop whose state after `k` iterations is `closed k` as long as the side
condition `cond` holds: it completes exactly when `cond` holds at every index,
and then ends in `closed n`. -/
theorem forIdx_iff {σ : Type} (n : Nat) (body : Nat → σ → Except Err σ) (closed : Nat → σ)
    (cond : Nat → Prop)
    (h : ∀ k, k < n → (∀ j, j < k → cond j) →
      ∀ s, body k (closed k) = Except.ok s ↔ cond k ∧ s = closed (k + 1))
    (s : σ) :
    forIdx n body (closed 0) = Except.ok s ↔ (∀ k, k < n → cond k) ∧ s = closed n := by
  induction n generalizing s with
  | zero => simp; exact eq_comm
  | succ n ih =>
    have ih2 := ih (fun k hk => h k (Nat.lt_succ_of_lt hk))
    rw [forIdx_succ, bind_eq_ok]
    constructor
    · rintro ⟨a, ha, hb⟩
      obtain ⟨hc, rfl⟩ := (ih2 a).1 ha
      obtain ⟨hn, rfl⟩ := (h n (Nat.lt_succ_self n) hc s).1 hb
      refine ⟨fun k hk => ?_, rfl⟩
      rcases Nat.lt_succ_iff_lt_or_eq.1 hk with h1 | h1
      · exact hc k h1
      · exact h1 ▸ hn
    · rintro ⟨hc, rfl⟩
      have hc2 : ∀ k, k < n → cond k := fun k hk => hc k (Nat.lt_succ_of_lt hk)
      exact ⟨closed n, (ih2 _).2 ⟨hc2, rfl⟩,
        (h n (Nat.lt_succ_self n) hc2 _).2 ⟨hc n (Nat.lt_succ_self n), rfl⟩⟩

/-- A loop that preserves an invariant in every completed iteration ends, when
it completes, in a state that satisfies the invariant. -/
theorem forIdx_inv {σ : Type} (P : σ → Prop) (n : Nat) (body : Nat → σ → Except Err σ)
    (h : ∀ k s s', k < n → P s → body k s = Except.ok s' → P s')
    (init s : σ) (h0 : P init) (hs : forIdx n body init = Except.ok s) : P s := by
  induction n generalizing s with
  | zero => simp at hs; exact hs ▸ h0
  | succ n ih =>
    rw [forIdx_succ, bind_eq_ok] at hs
    obtain ⟨a, ha, hb⟩ := hs
    exact h n a s (Nat.lt_succ_self n) (ih (fun k s s' hk => h k s s' (Nat.lt_succ_of_lt hk)) a ha) hb

theorem lookupKey_assignKey {α : Type} (m : List (String × α)) (key key' : String) (v : α) :
    lookupKey (assignKey m key v) key' = if key = key' then some v else lookupKey m key' := by
  induction m with
  | nil => simp [assignKey, lookupKey]
  | cons p rest ih =>
    obtain ⟨k, w⟩ := p
    by_cases h1 : k = key
    · subst h1
      by_cases h2 : k = key' <;> simp [assignKey, lookupKey, h2]
    · by_cases h2 : key = key'
      · subst h2
        simp [assignKey, lookupKey, h1, ih]
      · simp [assignKey, lookupKey, h1, ih, h2]

theorem assignKey_assignKey {α : Type} (m : List (String × α)) (key : String) (v w : α) :
    assignKey (assignKey m key v) key w = assignKey m key w := by
  induction m with
  | nil => simp [assignKey]
  | cons p rest ih =>
    obtain ⟨k, u⟩ := p
    by_cases h1 : k = key
    · simp [assignKey, h1]
    · simp [assignKey, h1, ih]

theorem vget_eq_ok (v : List ℚ) (i : Nat) (x : ℚ) : vget v i = Except.ok x ↔ v[i]? = some x := by
  unfold vget
  cases h : v[i]? <;> simp

theorem vget_of_lt (v : List ℚ) (i : Nat) (h : i < v.length) : vget v i = Except.ok v[i] := by
  simp [vget, List.getElem?_eq_getElem h]

theorem vset_eq_ok (v : List ℚ) (i : Nat) (x : ℚ) (r : List ℚ) :
    vset v i x = Except.ok r ↔ i < v.length ∧ r = v.set i x := by
  unfold vset
  by_cases h : i < v.length <;> simp [h, eq_comm]

@[simp] theorem overwrite_nil (old : List ℚ) : overwrite [] old = old := by
  simp [overwrite]

@[simp] theorem overwrite_length (new old : List ℚ) (h : new.length ≤ old.length) :
    (overwrite new old).length = old.length := by
  simp [overwrite]; omega

theorem overwrite_full (new old : List ℚ) (h : old.length ≤ new.length) :
    overwrite new old = new := by
  simp [overwrite, List.drop_eq_nil_of_le h]

theorem overwrite_overwrite (a b old : List ℚ) (h : a.length = b.length) :
    overwrite a (overwrite b old) = overwrite a old := by
  simp [overwrite, h, List.drop_append_eq_append_drop]

theorem overwrite_getElem?_lt (new old : List ℚ) (i : Nat) (h : i < new.length) :
    (overwrite new old)[i]? = new[i]? := by
  simp [overwrite, List.getElem?_append_left h]

theorem overwrite_getElem?_ge (new old : List ℚ) (i : Nat) (h : new.length ≤ i) :
    (overwrite new old)[i]? = old[i]? := by
  simp [overwrite, List.getElem?_append_right h]
  congr 1; omega

/-- Writing index `k` of a vector whose first `k` entries were already
overwritten extends the overwritten part by one entry. -/
theorem overwrite_set (z old : List ℚ) (k : Nat) (x : ℚ) (hz : k ≤ z.length)
    (ho : k < old.length) :
    (overwrite (z.take k) old).set k x = overwrite (z.take k ++ [x]) old := by
  have hl : (z.take k).length = k := by simp [hz]
  apply List.ext_getElem?
  intro j
  rw [List.getElem?_set]
  by_cases hj : k = j
  · subst hj
    have h1 : k < (overwrite (z.take k) old).length := by
      rw [overwrite_length _ _ (by omega)]; exact ho
    have h2 : (overwrite (z.take k ++ [x]) old)[k]? = some x := by
      rw [overwrite_getElem?_lt _ _ _ (by simp [hl]),
        List.getElem?_append_right (by simp [hl])]
      simp [hl]
    simp [h1, h2]
  · rw [if_neg hj]
    by_cases hlt : j < k
    · rw [overwrite_getElem?_lt _ _ _ (by simp [hl, hlt]),
        overwrite_getElem?_lt _ _ _ (by simp [hl]; omega),
        List.getElem?_append_left (by simp [hl, hlt])]
    · rw [overwrite_getElem?_ge _ _ _ (by simp [hl]; omega),
        overwrite_getElem?_ge _ _ _ (by simp [hl]; omega)]

theorem take_succ_getElem (z : List ℚ) (k : Nat) (h : k < z.length) :
    z.take (k + 1) = z.take k ++ [z[k]] := by
  rw [List.take_succ, List.getElem?_eq_getElem h]; rfl

theorem vset_overwrite_iff (z old : List ℚ) (k : Nat) (x : ℚ) (r : List ℚ) (hz : k ≤ z.length) :
    vset (overwrite (z.take k) old) k x = Except.ok r ↔
      k < old.length ∧ r = overwrite (z.take k ++ [x]) old := by
  rw [vset_eq_ok]
  have hl : (z.take k).length = k := by simp [hz]
  have hlen : (overwrite (z.take k) old).length = max k old.length := by
    simp [overwrite, hl]; omega
  constructor
  · rintro ⟨h1, rfl⟩
    have h2 : k < old.length := by rw [hlen] at h1; omega
    exact ⟨h2, overwrite_set z old k x hz h2⟩
  · rintro ⟨h2, rfl⟩
    exact ⟨by rw [hlen]; omega, (overwrite_set z old k x hz h2).symm⟩

theorem vget_overwrite_snoc (z old : List ℚ) (k : Nat) (x : ℚ) (hz : k ≤ z.length) :
    vget (overwrite (z.take k ++ [x]) old) k = Except.ok x := by
  have hl : (z.take k).length = k := by simp [hz]
  rw [vget_eq_ok, overwrite_getElem?_lt _ _ _ (by simp [hl]),
    List.getElem?_append_right (by simp [hl])]
  simp [hl]

theorem vget_overwrite_take (z old : List ℚ) (k : Nat) (hz : k ≤ z.length) :
    vget (overwrite (z.take k) old) k = vget old k := by
  have hl : (z.take k).length = k := by simp [hz]
  unfold vget
  rw [overwrite_getElem?_ge _ _ _ (by simp [hl])]

theorem sum_take_succ (z : List ℚ) (k : Nat) (h : k < z.length) :
    (z.take (k + 1)).sum = (z.take k).sum + z[k] := by
  rw [take_succ_getElem z k h, List.sum_append, List.sum_cons, List.sum_nil, add_zero]

/-- First loop of `regretMatching`: it completes exactly when `strategy` has an
entry for every regret, and then has written the positive parts of the regrets. -/
theorem regretMatching_loop1 (node : StrategyNode) (s : StrategyNode × ℚ) :
    forIdx node.regrets.length regretMatchingStep1 (node, 0) = Except.ok s ↔
      node.regrets.length ≤ node.strategy.length ∧
      s = ({ node with strategy := overwrite (posRegrets node) node.strategy },
            (posRegrets node).sum) := by
  have hP : (posRegrets node).length = node.regrets.length := by simp [posRegrets]
  have key := forIdx_iff node.regrets.length regretMatchingStep1
    (fun k => ({ node with strategy := overwrite ((posRegrets node).take k) node.strategy },
      ((posRegrets node).take k).sum))
    (fun k => k < node.strategy.length)
    (by
      intro k hk _ s
      have hk2 : k < (posRegrets node).length := by omega
      have hr : vget node.regrets k = Except.ok node.regrets[k] := vget_of_lt _ _ hk
      have hPk : (posRegrets node)[k] = (if node.regrets[k] > 0 then node.regrets[k] else 0) := by
        simp [posRegrets]
      simp only [regretMatchingStep1, hr, ok_bind, bind_eq_ok,
        vset_overwrite_iff _ _ _ _ _ (le_of_lt hk2), pure_eq_ok,
        vget_overwrite_snoc _ _ _ _ (le_of_lt hk2), Except.ok.injEq,
        take_succ_getElem _ _ hk2, List.sum_append, List.sum_cons, List.sum_nil, add_zero, hPk]
      have hv := vget_overwrite_snoc (posRegrets node) node.strategy k
        (if node.regrets[k] > 0 then node.regrets[k] else 0) (le_of_lt hk2)
      constructor
      · rintro ⟨a, ⟨h1, rfl⟩, h2⟩
        rw [hv] at h2
        simp only [Except.ok.injEq] at h2
        obtain ⟨b, rfl, rfl⟩ := h2
        exact ⟨h1, rfl⟩
      · rintro ⟨h1, rfl⟩
        refine ⟨_, ⟨h1, rfl⟩, ?_⟩
        rw [hv]
        simp) s
  simp only [List.take_zero, overwrite_nil, List.sum_nil] at key
  rw [key]
  have e1 : (posRegrets node).take node.regrets.length = posRegrets node := by
    rw [← hP]; exact List.take_length _
  rw [e1]
  constructor
  · rintro ⟨h, rfl⟩
    refine ⟨?_, rfl⟩
    by_contra hc
    exact absurd (h node.strategy.length (by omega)) (lt_irrefl _)
  · rintro ⟨h, rfl⟩
    exact ⟨fun k hk => by omega, rfl⟩

/-- Second loop of `regretMatching` on a node whose `strategy` has an entry for
every regret: it completes, and has written the list `t` whose entries are the
normalised, or the uniform, values. -/
theorem regretMatching_loop2 (node : StrategyNode) (sum : ℚ) (t : List ℚ)
    (ht : t.length = node.regrets.length)
    (hlen : node.regrets.length ≤ node.strategy.length)
    (hstep : ∀ k (hk : k < t.length) (hk2 : k < node.strategy.length),
      (if sum > 0 then node.strategy[k] / sum else 1 / (node.actionLabels.length : ℚ)) = t[k]) :
    forIdx node.regrets.length (regretMatchingStep2 sum) node =
      Except.ok { node with strategy := overwrite t node.strategy } := by
  have key := forIdx_iff node.regrets.length (regretMatchingStep2 sum)
    (fun k => { node with strategy := overwrite (t.take k) node.strategy })
    (fun _ => True)
    (by
      intro k hk _ s
      have hk1 : k < t.length := by omega
      have hk2 : k < node.strategy.length := by omega
      have hg : vget (overwrite (t.take k) node.strategy) k = Except.ok node.strategy[k] := by
        rw [vget_overwrite_take _ _ _ (le_of_lt hk1)]; exact vget_of_lt _ _ hk2
      have hs := hstep k hk1 hk2
      by_cases hsum : sum > 0
      · simp only [regretMatchingStep2, hsum, if_true, hg, ok_bind, bind_eq_ok,
          vset_overwrite_iff _ _ _ _ _ (le_of_lt hk1), pure_eq_ok, take_succ_getElem _ _ hk1, true_and]
        rw [if_pos hsum] at hs
        rw [← hs]
        constructor
        · rintro ⟨a, ⟨_, rfl⟩, h⟩; exact (Except.ok.inj h).symm
        · rintro rfl; exact ⟨_, ⟨hk2, rfl⟩, rfl⟩
      · simp only [regretMatchingStep2, hsum, if_false, bind_eq_ok,
          vset_overwrite_iff _ _ _ _ _ (le_of_lt hk1), pure_eq_ok, take_succ_getElem _ _ hk1, true_and]
        rw [if_neg hsum] at hs
        rw [← hs]
        constructor
        · rintro ⟨a, ⟨_, rfl⟩, h⟩; exact (Except.ok.inj h).symm
        · rintro rfl; exact ⟨_, ⟨hk2, rfl⟩, rfl⟩)
    { node with strategy := overwrite t node.strategy }
  simp only [List.take_zero, overwrite_nil] at key
  rw [key]
  refine ⟨fun _ _ => trivial, ?_⟩
  rw [← ht, List.take_length]

theorem rmTarget_length (node : StrategyNode) : (rmTarget node).length = node.regrets.length := by
  unfold rmTarget
  split <;> simp [posRegrets]

/-- What `regretMatching` does: nothing on a locked node; on an unlocked node it
needs `strategy` to have an entry for every regret, and overwrites these entries
with the normalised positive regrets, or the uniform value. -/
theorem regretMatching_eq_ok (node node' : StrategyNode) :
    regretMatching node = Except.ok node' ↔
      (node.locked = true ∧ node' = node) ∨
      (node.locked = false ∧ node.regrets.length ≤ node.strategy.length ∧
        node' = { node with strategy := overwrite (rmTarget node) node.strategy }) := by
  unfold regretMatching
  by_cases hl : node.locked = true
  · simp [hl, eq_comm]
  · have hl2 : node.locked = false := by simpa using hl
    rw [if_neg hl, bind_eq_ok]
    have hP : (posRegrets node).length = node.regrets.length := by simp [posRegrets]
    have main : node.regrets.length ≤ node.strategy.length →
        forIdx node.regrets.length (regretMatchingStep2 (posRegrets node).sum)
          { node with strategy := overwrite (posRegrets node) node.strategy } =
        Except.ok { node with strategy := overwrite (rmTarget node) node.strategy } := by
      intro hlen
      have h2 := regretMatching_loop2
        { node with strategy := overwrite (posRegrets node) node.strategy }
        (posRegrets node).sum (rmTarget node) (rmTarget_length node)
        (by simp [overwrite_length _ _ (hP ▸ hlen)]; exact hlen)
        (by
          intro k hk hk2
          have hk3 : k < (posRegrets node).length := by rw [hP, ← rmTarget_length]; exact hk
          have e : (overwrite (posRegrets node) node.strategy)[k]? = some (posRegrets node)[k] := by
            rw [overwrite_getElem?_lt _ _ _ hk3, List.getElem?_eq_getElem hk3]
          have e2 : (overwrite (posRegrets node) node.strategy)[k] = (posRegrets node)[k] := by
            rw [List.getElem?_eq_getElem hk2] at e; exact Option.some.inj e
          simp only [e2]
          unfold rmTarget
          split <;> simp)
      simp only [overwrite_overwrite _ _ _ ((rmTarget_length node).trans hP.symm)] at h2
      exact h2
    constructor
    · rintro ⟨a, ha, h⟩
      obtain ⟨hlen, rfl⟩ := (regretMatching_loop1 node a).1 ha
      exact Or.inr ⟨hl2, hlen, (Except.ok.inj ((main hlen).symm.trans h)).symm⟩
    · rintro (⟨h1, _⟩ | ⟨_, hlen, rfl⟩)
      · exact absurd h1 hl
      · exact ⟨_, (regretMatching_loop1 node _).2 ⟨hlen, rfl⟩, main hlen⟩

/-- What `accumulateAvgStrategy` does: it needs `strategy` and `strategySum` to
have an entry for every regret, and adds `weight * strategy[i]` to these entries
of `strategySum`. -/
theorem accumulateAvgStrategy_eq_ok (node node' : StrategyNode) (weight : ℚ) :
    accumulateAvgStrategy node weight = Except.ok node' ↔
      node.regrets.length ≤ node.strategy.length ∧
      node.regrets.length ≤ node.strategySum.length ∧
      node' = { node with strategySum := overwrite (accTarget node weight) node.strategySum } := by
  unfold accumulateAvgStrategy
  let z := List.zipWith (fun old x => old + weight * x) node.strategySum node.strategy
  have hz : z.length = min node.strategySum.length node.strategy.length := by simp [z]
  have key := forIdx_iff node.regrets.length (accumulateAvgStrategyStep weight)
    (fun k => { node with strategySum := overwrite (z.take k) node.strategySum })
    (fun k => k < node.strategy.length ∧ k < node.strategySum.length)
    (by
      intro k hk hprev s
      have hkz : k ≤ z.length := by
        rcases Nat.eq_zero_or_pos k with h0 | h0
        · omega
        · have := hprev (k - 1) (by omega); omega
      constructor
      · intro h
        simp only [accumulateAvgStrategyStep, bind_eq_ok, vget_eq_ok, pure_eq_ok] at h
        obtain ⟨x, hx, old, hold, ss, hss, hs⟩ := h
        rw [← vget_eq_ok, vget_overwrite_take _ _ _ hkz, vget_eq_ok] at hold
        rw [vset_overwrite_iff _ _ _ _ _ hkz] at hss
        have h1 : k < node.strategy.length := (List.getElem?_eq_some.1 hx).1
        have h2 : k < node.strategySum.length := hss.1
        have h3 : k < z.length := by omega
        refine ⟨⟨h1, h2⟩, ?_⟩
        have hzk : z[k] = old + weight * x := by
          have e1 : node.strategy[k] = x := (List.getElem?_eq_some.1 hx).2
          have e2 : node.strategySum[k] = old := (List.getElem?_eq_some.1 hold).2
          simp [z, e1, e2]
        show s = { node with strategySum := overwrite (z.take (k + 1)) node.strategySum }
        rw [take_succ_getElem _ _ h3, hzk, ← hss.2]
        exact (Except.ok.inj hs).symm
      · rintro ⟨⟨h1, h2⟩, rfl⟩
        have h3 : k < z.length := by omega
        have e1 : vget node.strategy k = Except.ok node.strategy[k] := vget_of_lt _ _ h1
        have e2 : vget (overwrite (z.take k) node.strategySum) k = Except.ok node.strategySum[k] := by
          rw [vget_overwrite_take _ _ _ hkz]; exact vget_of_lt _ _ h2
        have e3 := (vset_overwrite_iff z node.strategySum k
          (node.strategySum[k] + weight * node.strategy[k]) _ hkz).2 ⟨h2, rfl⟩
        show accumulateAvgStrategyStep weight k
            { node with strategySum := overwrite (z.take k) node.strategySum } =
          Except.ok { node with strategySum := overwrite (z.take (k + 1)) node.strategySum }
        simp only [accumulateAvgStrategyStep, e1, e2, e3, ok_bind, pure_eq_ok]
        rw [take_succ_getElem _ _ h3]
        simp [z])
    node'
  simp only [List.take_zero, overwrite_nil] at key
  rw [key]
  constructor
  · rintro ⟨h, rfl⟩
    have h1 : node.regrets.length ≤ node.strategy.length := by
      by_contra hc
      exact absurd (h node.strategy.length (by omega)).1 (lt_irrefl _)
    have h2 : node.regrets.length ≤ node.strategySum.length := by
      by_contra hc
      exact absurd (h node.strategySum.length (by omega)).2 (lt_irrefl _)
    exact ⟨h1, h2, rfl⟩
  · rintro ⟨h1, h2, rfl⟩
    exact ⟨fun k hk => ⟨by omega, by omega⟩, rfl⟩

theorem avgTarget_length (node : StrategyNode) (h : node.regrets.length ≤ node.strategySum.length) :
    (avgTarget node).length = node.regrets.length := by
  unfold avgTarget
  split <;> simp [h]

/-- First loop of `regretMatchingAvgStrategy`: the total of the first entries of
`strategySum`, one for every regret. -/
theorem regretMatchingAvgStrategy_loop1 (node : StrategyNode) (sum : ℚ) :
    forIdx node.regrets.length (regretMatchingAvgStrategyStep1 node) 0 = Except.ok sum ↔
      node.regrets.length ≤ node.strategySum.length ∧
      sum = (node.strategySum.take node.regrets.length).sum := by
  have key := forIdx_iff node.regrets.length (regretMatchingAvgStrategyStep1 node)
    (fun k => (node.strategySum.take k).sum)
    (fun k => k < node.strategySum.length)
    (by
      intro k _ _ s
      simp only [regretMatchingAvgStrategyStep1, bind_eq_ok, vget_eq_ok, pure_eq_ok,
        Except.ok.injEq]
      constructor
      · rintro ⟨x, hx, rfl⟩
        obtain ⟨h1, rfl⟩ := List.getElem?_eq_some.1 hx
        exact ⟨h1, (sum_take_succ _ _ h1).symm⟩
      · rintro ⟨h1, rfl⟩
        exact ⟨_, List.getElem?_eq_getElem h1, (sum_take_succ _ _ h1).symm⟩)
    sum
  simp only [List.take_zero, List.sum_nil] at key
  rw [key]
  constructor
  · rintro ⟨h, rfl⟩
    refine ⟨?_, rfl⟩
    by_contra hc
    exact absurd (h node.strategySum.length (by omega)) (lt_irrefl _)
  · rintro ⟨h, rfl⟩
    exact ⟨fun k hk => by omega, rfl⟩

/-- Second loop of `regretMatchingAvgStrategy`, run with the total of
`strategySum`: it needs `avgStrategy` to have an entry for every regret, and
overwrites these entries with the normalised sums, or the uniform value. -/
theorem regretMatchingAvgStrategy_loop2 (node node' : StrategyNode)
    (hlen : node.regrets.length ≤ node.strategySum.length) :
    forIdx node.regrets.length
        (regretMatchingAvgStrategyStep2 (node.strategySum.take node.regrets.length).sum) node =
      Except.ok node' ↔
      node.regrets.length ≤ node.avgStrategy.length ∧
      node' = { node with avgStrategy := overwrite (avgTarget node) node.avgStrategy } := by
  have ht := avgTarget_length node hlen
  have key := forIdx_iff node.regrets.length
    (regretMatchingAvgStrategyStep2 (node.strategySum.take node.regrets.length).sum)
    (fun k => { node with avgStrategy := overwrite ((avgTarget node).take k) node.avgStrategy })
    (fun k => k < node.avgStrategy.length)
    (by
      intro k hk _ s
      have hk1 : k < (avgTarget node).length := by omega
      have hk2 : k < node.strategySum.length := by omega
      have hg : vget node.strategySum k = Except.ok node.strategySum[k] := vget_of_lt _ _ hk2
      show regretMatchingAvgStrategyStep2 (node.strategySum.take node.regrets.length).sum k
          { node with avgStrategy := overwrite ((avgTarget node).take k) node.avgStrategy } =
          Except.ok s ↔ k < node.avgStrategy.length ∧
          s = { node with avgStrategy := overwrite ((avgTarget node).take (k + 1)) node.avgStrategy }
      rw [take_succ_getElem _ _ hk1]
      by_cases hsum : (node.strategySum.take node.regrets.length).sum > 0
      · have ht2 : (avgTarget node)[k] =
            node.strategySum[k] / (node.strategySum.take node.regrets.length).sum := by
          simp [avgTarget, hsum]
        simp only [regretMatchingAvgStrategyStep2, hsum, if_true, hg, ok_bind, bind_eq_ok,
          vset_overwrite_iff _ _ _ _ _ (le_of_lt hk1), pure_eq_ok, ht2]
        constructor
        · rintro ⟨a, ⟨h1, rfl⟩, h⟩; exact ⟨h1, (Except.ok.inj h).symm⟩
        · rintro ⟨h1, rfl⟩; exact ⟨_, ⟨h1, rfl⟩, rfl⟩
      · have ht2 : (avgTarget node)[k] = 1 / (node.actionLabels.length : ℚ) := by
          simp [avgTarget, hsum]
        simp only [regretMatchingAvgStrategyStep2, hsum, if_false, bind_eq_ok,
          vset_overwrite_iff _ _ _ _ _ (le_of_lt hk1), pure_eq_ok, ht2]
        constructor
        · rintro ⟨a, ⟨h1, rfl⟩, h⟩; exact ⟨h1, (Except.ok.inj h).symm⟩
        · rintro ⟨h1, rfl⟩; exact ⟨_, ⟨h1, rfl⟩, rfl⟩)
    node'
  simp only [List.take_zero, overwrite_nil] at key
  rw [key]
  have e1 : (avgTarget node).take node.regrets.length = avgTarget node := by
    rw [← ht]; exact List.take_length _
  rw [e1]
  constructor
  · rintro ⟨h, rfl⟩
    refine ⟨?_, rfl⟩
    by_contra hc
    exact absurd (h node.avgStrategy.length (by omega)) (lt_irrefl _)
  · rintro ⟨h, rfl⟩
    exact ⟨fun k hk => by omega, rfl⟩

/-- What `regretMatchingAvgStrategy` does: it needs `strategySum` and
`avgStrategy` to have an entry for every regret, and overwrites these entries of
`avgStrategy` with `strategySum` divided by its total when the total is positive,
and with the uniform value otherwise. -/
theorem regretMatchingAvgStrategy_eq_ok (node node' : StrategyNode) :
    regretMatchingAvgStrategy node = Except.ok node' ↔
      node.regrets.length ≤ node.strategySum.length ∧
      node.regrets.length ≤ node.avgStrategy.length ∧
      node' = { node with avgStrategy := overwrite (avgTarget node) node.avgStrategy } := by
  unfold regretMatchingAvgStrategy
  rw [bind_eq_ok]
  constructor
  · rintro ⟨sum, h1, h2⟩
    obtain ⟨hl, rfl⟩ := (regretMatchingAvgStrategy_loop1 node sum).1 h1
    obtain ⟨hl2, rfl⟩ := (regretMatchingAvgStrategy_loop2 node node' hl).1 h2
    exact ⟨hl, hl2, rfl⟩
  · rintro ⟨hl, hl2, rfl⟩
    exact ⟨_, (regretMatchingAvgStrategy_loop1 node _).2 ⟨hl, rfl⟩,
      (regretMatchingAvgStrategy_loop2 node _ hl).2 ⟨hl2, rfl⟩⟩

/-! ## Regret matching and the payoff table -/

theorem posRegrets_eq_max (node : StrategyNode) :
    posRegrets node = node.regrets.map (fun r => max r 0) := by
  unfold posRegrets
  apply List.map_congr_left
  intro r _
  by_cases h : r > 0
  · simp [h, le_of_lt h]
  · simp [h, not_lt.1 h]

theorem posRegrets_sum_nonneg (node : StrategyNode) : 0 ≤ (posRegrets node).sum := by
  apply List.sum_nonneg
  intro x hx
  simp only [posRegrets, List.mem_map] at hx
  obtain ⟨r, _, rfl⟩ := hx
  split
  · exact le_of_lt (by assumption)
  · exact le_refl 0

/-- C1: on an unlocked node whose regrets, strategy and action list all have
length `n ≥ 1`, `regretMatching` completes and changes only `strategy`: with `S`
the sum of `max(regrets[i], 0)`, which is never negative, the new strategy is
`max(regrets[i], 0) / S` when `S > 0` and `1 / n` everywhere when `S = 0`. -/
theorem regretMatching_spec (node : StrategyNode) (n : Nat) (_hn : 1 ≤ n)
    (hlock : node.locked = false) (hr : node.regrets.length = n)
    (hs : node.strategy.length = n) (ha : node.actionLabels.length = n) :
    ∃ node', regretMatching node = Except.ok node' ∧
      node' = { node with strategy := node'.strategy } ∧
      node'.regrets = node.regrets ∧ node'.strategySum = node.strategySum ∧
      node'.locked = node.locked ∧
      0 ≤ (node.regrets.map (fun r => max r 0)).sum ∧
      (0 < (node.regrets.map (fun r => max r 0)).sum →
        node'.strategy = node.regrets.map
          (fun r => max r 0 / (node.regrets.map (fun r => max r 0)).sum)) ∧
      ((node.regrets.map (fun r => max r 0)).sum = 0 →
        node'.strategy = List.replicate n (1 / (n : ℚ))) := by
  have hfull : overwrite (rmTarget node) node.strategy = rmTarget node :=
    overwrite_full _ _ (by rw [rmTarget_length]; omega)
  refine ⟨{ node with strategy := rmTarget node }, ?_, rfl, rfl, rfl, rfl, ?_, ?_, ?_⟩
  · rw [regretMatching_eq_ok]
    exact Or.inr ⟨hlock, by omega, by rw [hfull]⟩
  · rw [← posRegrets_eq_max]; exact posRegrets_sum_nonneg node
  · intro hpos
    rw [← posRegrets_eq_max] at hpos
    show rmTarget node = _
    unfold rmTarget
    rw [if_pos hpos, posRegrets_eq_max, List.map_map]
    rfl
  · intro hzero
    rw [← posRegrets_eq_max] at hzero
    show rmTarget node = _
    unfold rmTarget
    rw [if_neg (by rw [hzero]; exact lt_irrefl 0), hr, ha]

/-- A node with two actions and regrets `3` and `-1`. -/
theorem regretMatching_spec_witness :
    ∃ node', regretMatching
        { actionLabels := "bh", regrets := [3, -1], strategy := [1 / 2, 1 / 2],
          strategySum := [0, 0], avgStrategy := [1 / 2, 1 / 2] } = Except.ok node' ∧
      node'.strategy = [1, 0] := by
  obtain ⟨node', h1, _, _, _, _, _, h2, _⟩ := regretMatching_spec
    { actionLabels := "bh", regrets := [3, -1], strategy := [1 / 2, 1 / 2],
      strategySum := [0, 0], avgStrategy := [1 / 2, 1 / 2] } 2 (by decide) rfl rfl rfl rfl
  refine ⟨node', h1, ?_⟩
  rw [h2 (by norm_num)]
  norm_num

theorem opp_zero : opp 0 = 1 := rfl

theorem opp_one : opp 1 = 0 := rfl

theorem cards_opp_ne (state : CfrState) (h : state.cards 0 ≠ state.cards 1) (player : Fin 2) :
    state.cards player ≠ state.cards (opp player) := by
  fin_cases player
  · exact h
  · exact fun e => h e.symm

/-- C5: when the two private cards differ, `showdown` is the payoff table: a fold
loses half the pot whatever the cards; a check showdown wins or loses half the pot;
a call wins or loses the bet plus half the pot. -/
theorem showdown_table (state : CfrState) (player : Fin 2)
    (h : state.cards 0 ≠ state.cards 1) :
    showdown state 'f' player = Except.ok (-(state.initialPotSize / 2)) ∧
    showdown state 'h' player = Except.ok
      (if state.cards player > state.cards (opp player) then state.initialPotSize / 2
       else -(state.initialPotSize / 2)) ∧
    showdown state 'c' player = Except.ok
      (if state.cards player > state.cards (opp player)
       then state.betSize + state.initialPotSize / 2
       else -(state.betSize + state.initialPotSize / 2)) := by
  have hne := cards_opp_ne state h player
  refine ⟨?_, ?_, ?_⟩
  · simp [showdown, hne]; ring
  · by_cases hw : state.cards player > state.cards (opp player)
    · simp [showdown, hne, hw]; ring
    · simp [showdown, hne, hw]; ring
  · by_cases hw : state.cards player > state.cards (opp player)
    · simp [showdown, hne, hw]; ring
    · simp [showdown, hne, hw]; ring

/-- The state used in the examples: player 0 holds card `0`, player 1 holds card
`1`, bet size `1`, pot size `1`, no nodes and no overrides. -/
theorem showdown_table_witness :
    showdown exampleState 'f' 1 = Except.ok (-(1 / 2)) ∧
    showdown exampleState 'h' 1 = Except.ok (1 / 2) ∧
    showdown exampleState 'c' 1 = Except.ok (1 + 1 / 2) := by
  have h := showdown_table exampleState 1 (by decide)
  simpa [exampleState, freshState, initState, opp] using h

/-! ## The average strategy -/

theorem sum_map_div (l : List ℚ) (c : ℚ) : (l.map (fun x => x / c)).sum = l.sum / c := by
  induction l with
  | nil => simp
  | cons a l ih => simp only [List.map_cons, List.sum_cons, ih]; ring

theorem sum_replicate_uniform (n : Nat) (hn : 1 ≤ n) :
    (List.replicate n (1 / (n : ℚ))).sum = 1 := by
  have h : (n : ℚ) ≠ 0 := by
    have : (0 : ℚ) < n := by exact_mod_cast hn
    exact ne_of_gt this
  rw [List.sum_replicate, nsmul_eq_mul]
  field_simp

/-- C10, as stated, fails when the total of `strategySum` is negative: the uniform
fallback is taken although the total is not `0`.  Here the total is `-4`, the
quotients `strategySum[i] / T` are `1/4` and `3/4`, and the code writes `1/2`
twice. -/
theorem regretMatchingAvgStrategy_negative_total :
    ∃ node', regretMatchingAvgStrategy
        { actionLabels := "bh", regrets := [0, 0], strategy := [1 / 2, 1 / 2],
          strategySum := [-1, -3], avgStrategy := [1 / 2, 1 / 2] } = Except.ok node' ∧
      ([-1, -3] : List ℚ).sum = -4 ∧
      node'.avgStrategy = [1 / 2, 1 / 2] ∧
      node'.avgStrategy ≠ ([-1, -3] : List ℚ).map (fun x => x / ([-1, -3] : List ℚ).sum) := by
  have hlen : "bh".length = 2 := by decide
  refine ⟨_, (regretMatchingAvgStrategy_eq_ok _ _).2 ⟨by simp, by simp, rfl⟩, by norm_num, ?_, ?_⟩
  · norm_num [avgTarget, overwrite, hlen, List.replicate]
  · norm_num [avgTarget, overwrite, hlen, List.replicate]

/-- C10, amended: on a node whose vectors all have length `n ≥ 1`,
`regretMatchingAvgStrategy` completes and changes only `avgStrategy`: with `T` the
total of `strategySum`, the new `avgStrategy` is `strategySum[i] / T` when `T > 0`
and `1 / n` everywhere when `T ≤ 0`; in both cases it sums to `1`. -/
theorem regretMatchingAvgStrategy_spec (node : StrategyNode) (n : Nat) (hn : 1 ≤ n)
    (hr : node.regrets.length = n) (hss : node.strategySum.length = n)
    (hav : node.avgStrategy.length = n) (ha : node.actionLabels.length = n) :
    ∃ node', regretMatchingAvgStrategy node = Except.ok node' ∧
      node' = { node with avgStrategy := node'.avgStrategy } ∧
      (0 < node.strategySum.sum →
        node'.avgStrategy = node.strategySum.map (fun x => x / node.strategySum.sum)) ∧
      (node.strategySum.sum ≤ 0 → node'.avgStrategy = List.replicate n (1 / (n : ℚ))) ∧
      node'.avgStrategy.sum = 1 := by
  have htake : node.strategySum.take node.regrets.length = node.strategySum := by
    rw [hr, ← hss]; exact List.take_length _
  have hfull : overwrite (avgTarget node) node.avgStrategy = avgTarget node :=
    overwrite_full _ _ (by rw [avgTarget_length _ (by omega)]; omega)
  have hpos : 0 < node.strategySum.sum →
      avgTarget node = node.strategySum.map (fun x => x / node.strategySum.sum) := by
    intro h
    unfold avgTarget
    rw [htake, if_pos h]
  have hneg : node.strategySum.sum ≤ 0 → avgTarget node = List.replicate n (1 / (n : ℚ)) := by
    intro h
    unfold avgTarget
    rw [htake, if_neg (not_lt.2 h), hr, ha]
  refine ⟨{ node with avgStrategy := avgTarget node }, ?_, rfl, hpos, hneg, ?_⟩
  · rw [regretMatchingAvgStrategy_eq_ok]
    exact ⟨by omega, by omega, by rw [hfull]⟩
  · show (avgTarget node).sum = 1
    rcases lt_or_le 0 node.strategySum.sum with h | h
    · rw [hpos h, sum_map_div]
      exact div_self (ne_of_gt h)
    · rw [hneg h]
      exact sum_replicate_uniform n hn

/-- A node with two actions and accumulated strategy `1` and `3`. -/
theorem regretMatchingAvgStrategy_spec_witness :
    ∃ node', regretMatchingAvgStrategy
        { actionLabels := "bh", regrets := [0, 0], strategy := [1 / 2, 1 / 2],
          strategySum := [1, 3], avgStrategy := [1 / 2, 1 / 2] } = Except.ok node' ∧
      node'.avgStrategy = [1 / 4, 3 / 4] := by
  obtain ⟨node', h1, _, h2, _, _⟩ := regretMatchingAvgStrategy_spec
    { actionLabels := "bh", regrets := [0, 0], strategy := [1 / 2, 1 / 2],
      strategySum := [1, 3], avgStrategy := [1 / 2, 1 / 2] } 2 (by decide) rfl rfl rfl rfl
  refine ⟨node', h1, ?_⟩
  rw [h2 (by norm_num)]
  norm_num

/-! ## Reading and writing the store -/

theorem assignKey_of_lookup {α : Type} (m : List (String × α)) (key : String) (v : α)
    (h : lookupKey m key = some v) : assignKey m key v = m := by
  induction m with
  | nil => simp [lookupKey] at h
  | cons p rest ih =>
    obtain ⟨k, u⟩ := p
    by_cases h1 : k = key
    · simp only [lookupKey, h1, if_true, Option.some.injEq] at h
      simp [assignKey, h1, h]
    · simp only [lookupKey, h1, if_false] at h
      simp [assignKey, h1, ih h]

@[simp] theorem nodeAt_setNode (state : CfrState) (key : String) (node : StrategyNode) :
    nodeAt (setNode state key node) key = node := by
  simp [nodeAt, setNode, lookupKey_assignKey]

theorem nodeAt_setNode_ne (state : CfrState) (key key' : String) (node : StrategyNode)
    (h : key ≠ key') : nodeAt (setNode state key node) key' = nodeAt state key' := by
  simp [nodeAt, setNode, lookupKey_assignKey, h]

@[simp] theorem lookupKey_setNode (state : CfrState) (key : String) (node : StrategyNode) :
    lookupKey (setNode state key node).strat key = some node := by
  simp [setNode, lookupKey_assignKey]

theorem lookupKey_setNode_ne (state : CfrState) (key key' : String) (node : StrategyNode)
    (h : key ≠ key') :
    lookupKey (setNode state key node).strat key' = lookupKey state.strat key' := by
  simp [setNode, lookupKey_assignKey, h]

@[simp] theorem setNode_setNode (state : CfrState) (key : String) (a b : StrategyNode) :
    setNode (setNode state key a) key b = setNode state key b := by
  simp [setNode, assignKey_assignKey]

theorem setNode_of_lookup (state : CfrState) (key : String) (node : StrategyNode)
    (h : lookupKey state.strat key = some node) : setNode state key node = state := by
  simp [setNode, assignKey_of_lookup _ _ _ h]

theorem nodeAt_of_lookup (state : CfrState) (key : String) (node : StrategyNode)
    (h : lookupKey state.strat key = some node) : nodeAt state key = node := by
  simp [nodeAt, h]

@[simp] theorem setNode_cards (state : CfrState) (key : String) (node : StrategyNode) :
    (setNode state key node).cards = state.cards := rfl

@[simp] theorem setNode_lockedStrat (state : CfrState) (key : String) (node : StrategyNode) :
    (setNode state key node).lockedStrat = state.lockedStrat := rfl

@[simp] theorem setNode_betSize (state : CfrState) (key : String) (node : StrategyNode) :
    (setNode state key node).betSize = state.betSize := rfl

@[simp] theorem setNode_initialPotSize (state : CfrState) (key : String) (node : StrategyNode) :
    (setNode state key node).initialPotSize = state.initialPotSize := rfl

@[simp] theorem showdown_setNode (state : CfrState) (key : String) (node : StrategyNode)
    (action : Char) (player : Fin 2) :
    showdown (setNode state key node) action player = showdown state action player := rfl

@[simp] theorem getInfosetKey_setNode (state : CfrState) (key : String) (node : StrategyNode)
    (player : Fin 2) (hist : String) :
    getInfosetKey (setNode state key node) player hist = getInfosetKey state player hist := rfl

theorem resize_nil (n : Nat) (x : ℚ) : resize [] n x = List.replicate n x := by
  simp [resize]

/-- Lines 181-189: with a non-empty action list the creation step completes; a
key that has a node keeps it, a key that has none gets the fresh node. -/
theorem createNode_eq (state : CfrState) (key : String) (player : Fin 2) (acts : String)
    (h : 0 < acts.length) :
    createNode state key player acts =
      Except.ok (if lookupKey state.strat key = none
        then setNode state key (freshNode state key player acts) else state) := by
  unfold createNode
  by_cases hk : lookupKey state.strat key = none
  · simp only [hk, if_true, initStrategy, h, gt_iff_lt, resize_nil, ok_bind]
    unfold freshNode
    cases lookupKey state.lockedStrat key <;> rfl
  · simp [hk]

theorem nodeAt_created (state : CfrState) (key : String) (player : Fin 2) (acts : String) :
    nodeAt (if lookupKey state.strat key = none
      then setNode state key (freshNode state key player acts) else state) key =
      entryNode state key player acts := by
  unfold entryNode
  cases h : lookupKey state.strat key with
  | none => simp
  | some node => simp [nodeAt, h]

theorem setNode_created (state : CfrState) (key : String) (player : Fin 2) (acts : String)
    (node : StrategyNode) :
    setNode (if lookupKey state.strat key = none
      then setNode state key (freshNode state key player acts) else state) key node =
      setNode state key node := by
  by_cases h : lookupKey state.strat key = none <;> simp [h]

/-- Lines 194-195: `regretMatching` followed by `accumulateAvgStrategy` completes
exactly when `strategy` and `strategySum` have an entry for every regret. -/
theorem visit_eq_ok (node node' : StrategyNode) (weight : ℚ) :
    (regretMatching node >>= fun n1 => accumulateAvgStrategy n1 weight) = Except.ok node' ↔
      node.regrets.length ≤ node.strategy.length ∧
      node.regrets.length ≤ node.strategySum.length ∧
      node' = afterVisit node weight := by
  rw [bind_eq_ok]
  have hlen : node.regrets.length ≤ node.strategy.length →
      (afterMatching node).strategy.length = node.strategy.length := by
    intro h
    unfold afterMatching
    split
    · rfl
    · exact overwrite_length _ _ (by rw [rmTarget_length]; exact h)
  have hreg : (afterMatching node).regrets = node.regrets := by
    unfold afterMatching; split <;> rfl
  have hsum : (afterMatching node).strategySum = node.strategySum := by
    unfold afterMatching; split <;> rfl
  constructor
  · rintro ⟨n1, h1, h2⟩
    have e : n1 = afterMatching node ∧ (node.locked = false →
        node.regrets.length ≤ node.strategy.length) := by
      rcases (regretMatching_eq_ok node n1).1 h1 with ⟨hl, rfl⟩ | ⟨hl, hlen', rfl⟩
      · exact ⟨by simp [afterMatching, hl], fun h => by simp [hl] at h⟩
      · exact ⟨by simp [afterMatching, hl], fun _ => hlen'⟩
    obtain ⟨rfl, hl⟩ := e
    obtain ⟨a1, a2, rfl⟩ := (accumulateAvgStrategy_eq_ok _ _ _).1 h2
    rw [hreg] at a1 a2
    rw [hsum] at a2
    have h3 : node.regrets.length ≤ node.strategy.length := by
      cases hlk : node.locked with
      | false => exact hl hlk
      | true =>
        have : (afterMatching node).strategy = node.strategy := by simp [afterMatching, hlk]
        rw [this] at a1; exact a1
    exact ⟨h3, a2, rfl⟩
  · rintro ⟨h1, h2, rfl⟩
    refine ⟨afterMatching node, ?_, ?_⟩
    · rw [regretMatching_eq_ok]
      cases hlk : node.locked with
      | false => exact Or.inr ⟨rfl, h1, by simp [afterMatching, hlk]⟩
      | true => exact Or.inl ⟨rfl, by simp [afterMatching, hlk]⟩
    · rw [accumulateAvgStrategy_eq_ok]
      exact ⟨by rw [hreg, hlen h1]; exact h1, by rw [hreg, hsum]; exact h2, rfl⟩

theorem overwrite_snoc_set (z old : List ℚ) (k : Nat) (x y : ℚ) (hz : k ≤ z.length)
    (ho : k < old.length) :
    (overwrite (z.take k ++ [x]) old).set k y = overwrite (z.take k ++ [y]) old := by
  rw [← overwrite_set z old k x hz ho, ← overwrite_set z old k y hz ho, List.set_set]

theorem overwrite_snoc_length (z old : List ℚ) (k : Nat) (x : ℚ) (hz : k ≤ z.length)
    (ho : k < old.length) : (overwrite (z.take k ++ [x]) old).length = old.length := by
  rw [← overwrite_set z old k x hz ho, List.length_set]
  exact overwrite_length _ _ (by simp; omega)

/-- Lines 223-227: the regret update over `n` actions on the node stored under
the key completes exactly when `utilArr` and `regrets` have `n` entries, and then
has written the clamped sums into the first `n` regrets. -/
theorem regretLoop_eq_ok (player : Fin 2) (reachProb0 reachProb1 : ℚ) (utilArr : List ℚ)
    (avgUtil : ℚ) (key : String) (n : Nat) (state state' : CfrState) (node : StrategyNode)
    (hnode : lookupKey state.strat key = some node) :
    forIdx n (regretStep player reachProb0 reachProb1 utilArr avgUtil key) state =
        Except.ok state' ↔
      n ≤ utilArr.length ∧ n ≤ node.regrets.length ∧
      state' = setNode state key
        (afterRegrets node utilArr (if player = 0 then reachProb1 else reachProb0) avgUtil n) := by
  let w := if player = 0 then reachProb1 else reachProb0
  let z := regretTarget node.regrets utilArr w avgUtil
  have hz : z.length = min node.regrets.length utilArr.length := by simp [z, regretTarget]
  have key0 := forIdx_iff n (regretStep player reachProb0 reachProb1 utilArr avgUtil key)
    (fun k => setNode state key { node with regrets := overwrite (z.take k) node.regrets })
    (fun k => k < utilArr.length ∧ k < node.regrets.length)
    (by
      intro k _ hprev s
      have hkz : k ≤ z.length := by
        rcases Nat.eq_zero_or_pos k with h0 | h0
        · omega
        · have := hprev (k - 1) (by omega); omega
      show regretStep player reachProb0 reachProb1 utilArr avgUtil key k
          (setNode state key { node with regrets := overwrite (z.take k) node.regrets }) =
          Except.ok s ↔ _ ∧
          s = setNode state key { node with regrets := overwrite (z.take (k + 1)) node.regrets }
      simp only [regretStep, nodeAt_setNode, setNode_setNode]
      constructor
      · intro h
        simp only [bind_eq_ok, vget_eq_ok, pure_eq_ok] at h
        obtain ⟨u, hu, old, hold, regs, hregs, cur, hcur, regs2, hregs2, hs⟩ := h
        rw [← vget_eq_ok, vget_overwrite_take _ _ _ hkz, vget_eq_ok] at hold
        rw [vset_overwrite_iff _ _ _ _ _ hkz] at hregs
        obtain ⟨h2, rfl⟩ := hregs
        rw [← vget_eq_ok, vget_overwrite_snoc _ _ _ _ hkz] at hcur
        have hcur' := Except.ok.inj hcur
        rw [vset_eq_ok, overwrite_snoc_set _ _ _ _ _ hkz h2] at hregs2
        obtain ⟨_, rfl⟩ := hregs2
        have h1 : k < utilArr.length := (List.getElem?_eq_some.1 hu).1
        have h3 : k < z.length := by omega
        have hzk : z[k] = max (old + w * (u - avgUtil)) 0 := by
          have e1 : utilArr[k] = u := (List.getElem?_eq_some.1 hu).2
          have e2 : node.regrets[k] = old := (List.getElem?_eq_some.1 hold).2
          simp [z, regretTarget, e1, e2]
        refine ⟨⟨h1, h2⟩, ?_⟩
        rw [take_succ_getElem _ _ h3, hzk]
        subst hcur'
        exact (Except.ok.inj hs).symm
      · rintro ⟨⟨h1, h2⟩, rfl⟩
        have h3 : k < z.length := by omega
        have e1 : vget utilArr k = Except.ok utilArr[k] := vget_of_lt _ _ h1
        have e2 : vget (overwrite (z.take k) node.regrets) k = Except.ok node.regrets[k] := by
          rw [vget_overwrite_take _ _ _ hkz]; exact vget_of_lt _ _ h2
        have e3 := (vset_overwrite_iff z node.regrets k
          (node.regrets[k] + w * (utilArr[k] - avgUtil)) _ hkz).2 ⟨h2, rfl⟩
        have e4 := vget_overwrite_snoc z node.regrets k
          (node.regrets[k] + w * (utilArr[k] - avgUtil)) hkz
        have e5 : vset (overwrite (z.take k ++ [node.regrets[k] + w * (utilArr[k] - avgUtil)])
            node.regrets) k (max (node.regrets[k] + w * (utilArr[k] - avgUtil)) 0) =
            Except.ok (overwrite (z.take k ++
              [max (node.regrets[k] + w * (utilArr[k] - avgUtil)) 0]) node.regrets) := by
          rw [vset_eq_ok, overwrite_snoc_set _ _ _ _ _ hkz h2, overwrite_snoc_length _ _ _ _ hkz h2]
          exact ⟨h2, rfl⟩
        simp only [e1, e2, e3, e4, e5, ok_bind, pure_eq_ok]
        rw [take_succ_getElem _ _ h3]
        simp [z, regretTarget])
    state'
  simp only [List.take_zero, overwrite_nil] at key0
  rw [setNode_of_lookup state key node hnode] at key0
  rw [key0]
  constructor
  · rintro ⟨h, rfl⟩
    have h1 : n ≤ utilArr.length := by
      by_contra hc
      exact absurd (h utilArr.length (by omega)).1 (lt_irrefl _)
    have h2 : n ≤ node.regrets.length := by
      by_contra hc
      exact absurd (h node.regrets.length (by omega)).2 (lt_irrefl _)
    exact ⟨h1, h2, rfl⟩
  · rintro ⟨h1, h2, rfl⟩
    exact ⟨fun k hk => ⟨by omega, by omega⟩, rfl⟩

/-! ## One visit of `cfr` -/

theorem showdown_eq_ok (state : CfrState) (action : Char) (player : Fin 2) (u : ℚ) :
    showdown state action player = Except.ok u ↔
      state.cards player ≠ state.cards (opp player) ∧
      (action = 'f' ∨ action = 'h' ∨ action = 'c') ∧ u = payoff state action player := by
  unfold showdown payoff
  by_cases hc : state.cards player = state.cards (opp player)
  · simp [hc]
  · by_cases hf : action = 'f'
    · simp [hc, hf, eq_comm]
    · by_cases hh : action = 'h'
      · simp [hc, hh, eq_comm]
      · by_cases hcc : action = 'c'
        · simp [hc, hcc, eq_comm]
        · simp [hc, hf, hh, hcc]

theorem forIdx_one {σ : Type} (body : Nat → σ → Except Err σ) (init : σ) :
    forIdx 1 body init = body 0 init := by
  rw [forIdx_succ, forIdx_zero, ok_bind]

theorem forIdx_two {σ : Type} (body : Nat → σ → Except Err σ) (init : σ) :
    forIdx 2 body init = (body 0 init >>= body 1) := by
  rw [forIdx_succ, forIdx_one]

/-- Lines 194-195 followed by the rest of the visit. -/
theorem visit_bind {α : Type} (node : StrategyNode) (weight : ℚ)
    (f : StrategyNode → Except Err α) (r : α) :
    (regretMatching node >>= fun n1 => accumulateAvgStrategy n1 weight >>= f) = Except.ok r ↔
      node.regrets.length ≤ node.strategy.length ∧
      node.regrets.length ≤ node.strategySum.length ∧
      f (afterVisit node weight) = Except.ok r := by
  constructor
  · intro h
    obtain ⟨n1, h1, h2⟩ := (bind_eq_ok _ _ _).1 h
    obtain ⟨n2, h3, h4⟩ := (bind_eq_ok _ _ _).1 h2
    obtain ⟨a, b, rfl⟩ := (visit_eq_ok node n2 weight).1 ((bind_eq_ok _ _ _).2 ⟨n1, h1, h3⟩)
    exact ⟨a, b, h4⟩
  · rintro ⟨a, b, h4⟩
    obtain ⟨n1, h1, h3⟩ := (bind_eq_ok _ _ _).1 ((visit_eq_ok node _ weight).2 ⟨a, b, rfl⟩)
    exact (bind_eq_ok _ _ _).2 ⟨n1, h1, (bind_eq_ok _ _ _).2 ⟨_, h3, h4⟩⟩

/-- Lines 199-221 for a terminal action: the utility is the payoff. -/
theorem actionStep_terminal
    (recur : CfrState → String → Fin 2 → ℚ → ℚ → Except Err (ℚ × CfrState))
    (hist : String) (player : Fin 2) (reachProb0 reachProb1 : ℚ)
    (acts term key : String) (i : Nat) (a : Char)
    (hact : charAt acts i = Except.ok a) (hterm : charAt term i = Except.ok '1')
    (s : CfrState) (utilArr : List ℚ) (avgUtil : ℚ) (r : CfrState × List ℚ × ℚ) :
    actionStep recur hist player reachProb0 reachProb1 acts term key i (s, utilArr, avgUtil) =
        Except.ok r ↔
      ∃ x, s.cards player ≠ s.cards (opp player) ∧ (a = 'f' ∨ a = 'h' ∨ a = 'c') ∧
        i < utilArr.length ∧ (nodeAt s key).strategy[i]? = some x ∧
        r = (s, utilArr.set i (payoff s a player), avgUtil + payoff s a player * x) := by
  simp only [actionStep, hact, hterm, ok_bind, if_true, bind_eq_ok, showdown_eq_ok, pure_eq_ok,
    vset_eq_ok, vget_eq_ok, Except.ok.injEq]
  constructor
  · rintro ⟨u, ⟨h1, h2, rfl⟩, U, ⟨h4, rfl⟩, x, h5, rfl⟩
    exact ⟨x, h1, h2, h4, h5, rfl⟩
  · rintro ⟨x, h1, h2, h4, h5, rfl⟩
    exact ⟨_, ⟨h1, h2, rfl⟩, _, ⟨h4, rfl⟩, x, h5, rfl⟩

/-- Lines 199-221 for a non-terminal action: the utility is the negated value of
the recursive call, which runs with the acting player's reach multiplied by the
probability of the action. -/
theorem actionStep_recur
    (recur : CfrState → String → Fin 2 → ℚ → ℚ → Except Err (ℚ × CfrState))
    (hist : String) (player : Fin 2) (reachProb0 reachProb1 : ℚ)
    (acts term key : String) (i : Nat) (a : Char)
    (hact : charAt acts i = Except.ok a) (hterm : charAt term i = Except.ok '0')
    (s : CfrState) (utilArr : List ℚ) (avgUtil : ℚ) (r : CfrState × List ℚ × ℚ) :
    actionStep recur hist player reachProb0 reachProb1 acts term key i (s, utilArr, avgUtil) =
        Except.ok r ↔
      ∃ q c x, (nodeAt s key).strategy[i]? = some q ∧
        recur s (hist.push a) (opp player)
          (if player = 0 then reachProb0 * q else reachProb0)
          (if player = 0 then reachProb1 else reachProb1 * q) = Except.ok c ∧
        i < utilArr.length ∧ (nodeAt c.2 key).strategy[i]? = some x ∧
        r = (c.2, utilArr.set i (-c.1), avgUtil + -c.1 * x) := by
  have hne : ¬ ('0' = '1') := by decide
  simp only [actionStep, hact, hterm, ok_bind, hne, if_false, bind_eq_ok, pure_eq_ok,
    vset_eq_ok, vget_eq_ok, Except.ok.injEq]
  constructor
  · rintro ⟨q, h1, c, h2, U, ⟨h4, rfl⟩, x, h5, rfl⟩
    exact ⟨q, c, x, h1, h2, h4, h5, rfl⟩
  · rintro ⟨q, c, x, h1, h2, h4, h5, rfl⟩
    exact ⟨q, h1, c, h2, _, ⟨h4, rfl⟩, x, h5, rfl⟩

/-- The three rows of the action table. -/
theorem actionTable_eq_ok (hist : String) (tbl : String × String) :
    actionTable hist = Except.ok tbl ↔
      (hist.data = [] ∧ tbl = ("bh", "00")) ∨
      (hist.data ≠ [] ∧ hist.data.getLast? = some 'b' ∧ tbl = ("cf", "11")) ∨
      (hist.data ≠ [] ∧ hist.data.getLast? = some 'h' ∧ tbl = ("h", "1")) := by
  unfold actionTable
  by_cases h0 : hist.data = []
  · simp [h0, eq_comm]
  · by_cases hb : hist.data.getLast? = some 'b'
    · simp [h0, hb, eq_comm]
    · by_cases hh : hist.data.getLast? = some 'h'
      · simp [h0, hb, hh, eq_comm]
      · simp [h0, hb, hh]

theorem afterMatching_regrets (node : StrategyNode) :
    (afterMatching node).regrets = node.regrets := by
  unfold afterMatching; split <;> rfl

theorem afterMatching_strategySum (node : StrategyNode) :
    (afterMatching node).strategySum = node.strategySum := by
  unfold afterMatching; split <;> rfl

theorem afterMatching_locked (node : StrategyNode) :
    (afterMatching node).locked = node.locked := by
  unfold afterMatching; split <;> rfl

theorem afterMatching_strategy_length (node : StrategyNode)
    (h : node.regrets.length ≤ node.strategy.length) :
    (afterMatching node).strategy.length = node.strategy.length := by
  unfold afterMatching
  split
  · rfl
  · exact overwrite_length _ _ (by rw [rmTarget_length]; exact h)

@[simp] theorem afterVisit_regrets (node : StrategyNode) (weight : ℚ) :
    (afterVisit node weight).regrets = node.regrets := afterMatching_regrets node

@[simp] theorem afterVisit_strategy (node : StrategyNode) (weight : ℚ) :
    (afterVisit node weight).strategy = (afterMatching node).strategy := rfl

@[simp] theorem afterVisit_locked (node : StrategyNode) (weight : ℚ) :
    (afterVisit node weight).locked = node.locked := afterMatching_locked node

theorem weightedSum_one (u x : ℚ) (strategy : List ℚ) (h : strategy[0]? = some x) :
    weightedSum [u] strategy = 0 + u * x := by
  cases strategy with
  | nil => simp at h
  | cons a rest =>
    simp only [List.getElem?_cons_zero, Option.some.injEq] at h
    subst h
    simp [weightedSum]

theorem weightedSum_two (u0 u1 x0 x1 : ℚ) (strategy : List ℚ) (h0 : strategy[0]? = some x0)
    (h1 : strategy[1]? = some x1) : weightedSum [u0, u1] strategy = 0 + u0 * x0 + u1 * x1 := by
  cases strategy with
  | nil => simp at h0
  | cons a rest =>
    cases rest with
    | nil => simp at h1
    | cons b rest =>
      simp only [List.getElem?_cons_zero, Option.some.injEq] at h0
      simp only [List.getElem?_cons_succ, List.getElem?_cons_zero, Option.some.injEq] at h1
      subst h0 h1
      simp [weightedSum]

/-- The loop over the actions at a history that ends in a check. -/
theorem actionLoop_h
    (recur : CfrState → String → Fin 2 → ℚ → ℚ → Except Err (ℚ × CfrState))
    (hist : String) (player : Fin 2) (reachProb0 reachProb1 : ℚ) (key : String)
    (s : CfrState) (r : CfrState × List ℚ × ℚ) :
    forIdx 1 (actionStep recur hist player reachProb0 reachProb1 "h" "1" key)
        (s, List.replicate 1 0, 0) = Except.ok r ↔
      s.cards player ≠ s.cards (opp player) ∧ 1 ≤ (nodeAt s key).strategy.length ∧
      r = (s, [payoff s 'h' player],
        weightedSum [payoff s 'h' player] (nodeAt s key).strategy) := by
  rw [forIdx_one, actionStep_terminal recur hist player reachProb0 reachProb1 "h" "1" key 0 'h'
    rfl rfl]
  constructor
  · rintro ⟨x, h1, _, _, h2, rfl⟩
    refine ⟨h1, (List.getElem?_eq_some.1 h2).1, ?_⟩
    rw [weightedSum_one _ _ _ h2]
    rfl
  · rintro ⟨h1, h2, rfl⟩
    refine ⟨_, h1, by decide, by simp, List.getElem?_eq_getElem h2, ?_⟩
    rw [weightedSum_one _ _ _ (List.getElem?_eq_getElem h2)]
    rfl

/-- The loop over the actions at a history that ends in a bet. -/
theorem actionLoop_cf
    (recur : CfrState → String → Fin 2 → ℚ → ℚ → Except Err (ℚ × CfrState))
    (hist : String) (player : Fin 2) (reachProb0 reachProb1 : ℚ) (key : String)
    (s : CfrState) (r : CfrState × List ℚ × ℚ) :
    forIdx 2 (actionStep recur hist player reachProb0 reachProb1 "cf" "11" key)
        (s, List.replicate 2 0, 0) = Except.ok r ↔
      s.cards player ≠ s.cards (opp player) ∧ 2 ≤ (nodeAt s key).strategy.length ∧
      r = (s, [payoff s 'c' player, payoff s 'f' player],
        weightedSum [payoff s 'c' player, payoff s 'f' player] (nodeAt s key).strategy) := by
  rw [forIdx_two, bind_eq_ok]
  constructor
  · rintro ⟨a, ha, hb⟩
    rw [actionStep_terminal recur hist player reachProb0 reachProb1 "cf" "11" key 0 'c'
      rfl rfl] at ha
    obtain ⟨x0, h1, _, _, h2, rfl⟩ := ha
    rw [actionStep_terminal recur hist player reachProb0 reachProb1 "cf" "11" key 1 'f'
      rfl rfl] at hb
    obtain ⟨x1, _, _, _, h3, rfl⟩ := hb
    refine ⟨h1, (List.getElem?_eq_some.1 h3).1, ?_⟩
    rw [weightedSum_two _ _ _ _ _ h2 h3]
    rfl
  · rintro ⟨h1, h2, rfl⟩
    have e0 := List.getElem?_eq_getElem (show 0 < (nodeAt s key).strategy.length by omega)
    have e1 := List.getElem?_eq_getElem (show 1 < (nodeAt s key).strategy.length by omega)
    refine ⟨(s, [payoff s 'c' player, 0], 0 + payoff s 'c' player * (nodeAt s key).strategy[0]),
      ?_, ?_⟩
    · rw [actionStep_terminal recur hist player reachProb0 reachProb1 "cf" "11" key 0 'c'
        rfl rfl]
      exact ⟨_, h1, by decide, by simp, e0, rfl⟩
    · rw [actionStep_terminal recur hist player reachProb0 reachProb1 "cf" "11" key 1 'f'
        rfl rfl]
      refine ⟨_, h1, by decide, by simp, e1, ?_⟩
      rw [weightedSum_two _ _ _ _ _ e0 e1]
      rfl

theorem cfrBody_leaf_aux
    (recur : CfrState → String → Fin 2 → ℚ → ℚ → Except Err (ℚ × CfrState))
    (state : CfrState) (hist : String) (player : Fin 2) (reachProb0 reachProb1 : ℚ)
    (acts term : String) (hlen : 0 < acts.length)
    (htbl : actionTable hist = Except.ok (acts, term))
    (hloop : ∀ key s r,
      forIdx acts.length (actionStep recur hist player reachProb0 reachProb1 acts term key)
        (s, List.replicate acts.length 0, 0) = Except.ok r ↔
      s.cards player ≠ s.cards (opp player) ∧ acts.length ≤ (nodeAt s key).strategy.length ∧
      r = (s, acts.data.map (fun a => payoff s a player),
        weightedSum (acts.data.map (fun a => payoff s a player)) (nodeAt s key).strategy))
    (r : ℚ × CfrState) :
    cfrBody recur state hist player reachProb0 reachProb1 = Except.ok r ↔
      state.cards player ≠ state.cards (opp player) ∧
      VisitOk (entryNode state (getInfosetKey state player hist) player acts) acts.length ∧
      r = leafVisit state hist player reachProb0 reachProb1 acts := by
  unfold cfrBody
  simp only [htbl, ok_bind, Nat.ne_of_gt hlen, if_false, createNode_eq _ _ _ _ hlen,
    nodeAt_created, setNode_created, visit_bind]
  have hpay : ∀ k n a, payoff (setNode state k n) a player = payoff state a player :=
    fun _ _ _ => rfl
  constructor
  · rintro ⟨a, b, h⟩
    obtain ⟨s, hs, h2⟩ := (bind_eq_ok _ _ _).1 h
    obtain ⟨hc, hl, rfl⟩ := (hloop _ _ _).1 hs
    obtain ⟨s', hs', h3⟩ := (bind_eq_ok _ _ _).1 h2
    rw [regretLoop_eq_ok _ _ _ _ _ _ _ _ _ _ (lookupKey_setNode _ _ _)] at hs'
    obtain ⟨_, hr, rfl⟩ := hs'
    simp only [nodeAt_setNode, afterVisit_regrets, afterVisit_strategy, setNode_cards] at hc hl hr
    rw [afterMatching_strategy_length _ a] at hl
    refine ⟨hc, ⟨a, b, hl, hr⟩, ?_⟩
    simp only [pure_eq_ok, Except.ok.injEq, nodeAt_setNode, setNode_setNode, hpay] at h3
    rw [← h3]
    rfl
  · rintro ⟨hc, ⟨a, b, hl, hr⟩, rfl⟩
    refine ⟨a, b, (bind_eq_ok _ _ _).2 ⟨_, (hloop _ _ _).2 ⟨hc, ?_, rfl⟩, ?_⟩⟩
    · simp only [nodeAt_setNode, afterVisit_strategy]
      rw [afterMatching_strategy_length _ a]; exact hl
    · refine (bind_eq_ok _ _ _).2 ⟨_, (regretLoop_eq_ok _ _ _ _ _ _ _ _ _ _
        (lookupKey_setNode _ _ _)).2 ⟨by simp, by simpa using hr, rfl⟩, ?_⟩
      simp only [pure_eq_ok, nodeAt_setNode, setNode_setNode, hpay]
      rfl

/-- One visit of `cfr` at a history that is not empty (all actions terminal): it
completes exactly when the cards differ and the visited node has the lengths the
visit needs, and the result is `leafVisit`; the recursive call is not used. -/
theorem cfrBody_leaf
    (recur : CfrState → String → Fin 2 → ℚ → ℚ → Except Err (ℚ × CfrState))
    (state : CfrState) (hist : String) (player : Fin 2) (reachProb0 reachProb1 : ℚ)
    (acts term : String) (htbl : actionTable hist = Except.ok (acts, term))
    (hne : hist.data ≠ []) (r : ℚ × CfrState) :
    cfrBody recur state hist player reachProb0 reachProb1 = Except.ok r ↔
      state.cards player ≠ state.cards (opp player) ∧
      VisitOk (entryNode state (getInfosetKey state player hist) player acts) acts.length ∧
      r = leafVisit state hist player reachProb0 reachProb1 acts := by
  rcases (actionTable_eq_ok hist (acts, term)).1 htbl with ⟨h, _⟩ | ⟨_, _, h⟩ | ⟨_, _, h⟩
  · exact absurd h hne
  · obtain ⟨rfl, rfl⟩ := Prod.mk.inj h
    exact cfrBody_leaf_aux recur state hist player reachProb0 reachProb1 "cf" "11" (by decide)
      htbl (fun key s r => actionLoop_cf recur hist player reachProb0 reachProb1 key s r) r
  · obtain ⟨rfl, rfl⟩ := Prod.mk.inj h
    exact cfrBody_leaf_aux recur state hist player reachProb0 reachProb1 "h" "1" (by decide)
      htbl (fun key s r => actionLoop_h recur hist player reachProb0 reachProb1 key s r) r

/-! ## Keys of the three histories -/

theorem key_data (hist : String) (card : Int) :
    (constructInfosetKey hist card).data = hist.data ++ '|' :: (tostring card).data := by
  simp [constructInfosetKey, String.data_append]

theorem key_root_ne_b (c c' : Int) : constructInfosetKey "" c ≠ constructInfosetKey "b" c' := by
  intro h
  have := congrArg String.data h
  simp [key_data] at this

theorem key_root_ne_h (c c' : Int) : constructInfosetKey "" c ≠ constructInfosetKey "h" c' := by
  intro h
  have := congrArg String.data h
  simp [key_data] at this

theorem key_b_ne_h (c c' : Int) : constructInfosetKey "b" c ≠ constructInfosetKey "h" c' := by
  intro h
  have := congrArg String.data h
  simp [key_data] at this

theorem opp_opp (player : Fin 2) : opp (opp player) = player := by
  fin_cases player <;> rfl

theorem entryNode_setNode_ne (state : CfrState) (key key' : String) (node : StrategyNode)
    (player : Fin 2) (acts : String) (h : key ≠ key') :
    entryNode (setNode state key node) key' player acts = entryNode state key' player acts := by
  unfold entryNode freshNode
  rw [lookupKey_setNode_ne _ _ _ _ h]
  rfl

theorem leafVisit_snd (state : CfrState) (hist : String) (player : Fin 2)
    (reachProb0 reachProb1 : ℚ) (acts : String) :
    ∃ node, (leafVisit state hist player reachProb0 reachProb1 acts).2 =
      setNode state (getInfosetKey state player hist) node := ⟨_, rfl⟩

/-- The traversal at a history that is not empty: with fuel for one visit it is
`leafVisit`. -/
theorem cfr_leaf (fuel : Nat) (state : CfrState) (hist : String) (player : Fin 2)
    (reachProb0 reachProb1 : ℚ) (acts term : String)
    (htbl : actionTable hist = Except.ok (acts, term)) (hne : hist.data ≠ [])
    (r : ℚ × CfrState) :
    cfr (fuel + 1) state hist player reachProb0 reachProb1 = Except.ok r ↔
      state.cards player ≠ state.cards (opp player) ∧
      VisitOk (entryNode state (getInfosetKey state player hist) player acts) acts.length ∧
      r = leafVisit state hist player reachProb0 reachProb1 acts :=
  cfrBody_leaf (cfr fuel) state hist player reachProb0 reachProb1 acts term htbl hne r

theorem leafVisit_cards (state : CfrState) (hist : String) (player : Fin 2)
    (reachProb0 reachProb1 : ℚ) (acts : String) :
    (leafVisit state hist player reachProb0 reachProb1 acts).2.cards = state.cards := rfl

theorem nodeAt_leafVisit_ne (state : CfrState) (hist : String) (player : Fin 2)
    (reachProb0 reachProb1 : ℚ) (acts : String) (key : String)
    (h : getInfosetKey state player hist ≠ key) :
    nodeAt (leafVisit state hist player reachProb0 reachProb1 acts).2 key = nodeAt state key :=
  nodeAt_setNode_ne _ _ _ _ h

theorem entryNode_leafVisit_ne (state : CfrState) (hist : String) (player : Fin 2)
    (reachProb0 reachProb1 : ℚ) (acts : String) (key : String) (p : Fin 2) (a : String)
    (h : getInfosetKey state player hist ≠ key) :
    entryNode (leafVisit state hist player reachProb0 reachProb1 acts).2 key p a =
      entryNode state key p a :=
  entryNode_setNode_ne _ _ _ _ _ _ h

/-- The loop over the actions at the empty history: the two recursive calls. -/
theorem actionLoop_bh (fuel : Nat) (player : Fin 2) (reachProb0 reachProb1 : ℚ)
    (s : CfrState) (R : CfrState × List ℚ × ℚ) :
    forIdx 2 (actionStep (cfr (fuel + 1)) "" player reachProb0 reachProb1 "bh" "00"
        (getInfosetKey s player "")) (s, List.replicate 2 0, 0) = Except.ok R ↔
      2 ≤ (nodeAt s (getInfosetKey s player "")).strategy.length ∧
      s.cards player ≠ s.cards (opp player) ∧
      VisitOk (entryNode s (getInfosetKey s (opp player) "b") (opp player) "cf") 2 ∧
      VisitOk (entryNode s (getInfosetKey s (opp player) "h") (opp player) "h") 1 ∧
      R = (let node := nodeAt s (getInfosetKey s player "")
           let rb := childReach player reachProb0 reachProb1 (node.strategy[0]?.getD 0)
           let cb := leafVisit s "b" (opp player) rb.1 rb.2 "cf"
           let rh := childReach player reachProb0 reachProb1 (node.strategy[1]?.getD 0)
           let ch := leafVisit cb.2 "h" (opp player) rh.1 rh.2 "h"
           (ch.2, [-cb.1, -ch.1], weightedSum [-cb.1, -ch.1] node.strategy)) := by
  have hb : actionTable "b" = Except.ok ("cf", "11") := rfl
  have hh : actionTable "h" = Except.ok ("h", "1") := rfl
  have hpb : "".push 'b' = "b" := rfl
  have hph : "".push 'h' = "h" := rfl
  have gk : ∀ (t : CfrState) (h : String) (p : Fin 2) (a b : ℚ) (acts : String) (p' : Fin 2)
      (h' : String), getInfosetKey (leafVisit t h p a b acts).2 p' h' = getInfosetKey t p' h' :=
    fun _ _ _ _ _ _ _ _ => rfl
  have f1 : ∀ (t : CfrState) (a b : ℚ),
      nodeAt (leafVisit t "b" (opp player) a b "cf").2 (getInfosetKey s player "") =
        nodeAt t (getInfosetKey s player "") :=
    fun t a b => nodeAt_leafVisit_ne _ _ _ _ _ _ _ (key_root_ne_b _ _).symm
  have f2 : ∀ (t : CfrState) (a b : ℚ),
      nodeAt (leafVisit t "h" (opp player) a b "h").2 (getInfosetKey s player "") =
        nodeAt t (getInfosetKey s player "") :=
    fun t a b => nodeAt_leafVisit_ne _ _ _ _ _ _ _ (key_root_ne_h _ _).symm
  have f3 : ∀ (a b : ℚ),
      entryNode (leafVisit s "b" (opp player) a b "cf").2 (getInfosetKey s (opp player) "h")
        (opp player) "h" = entryNode s (getInfosetKey s (opp player) "h") (opp player) "h" :=
    fun a b => entryNode_leafVisit_ne _ _ _ _ _ _ _ _ _ (key_b_ne_h _ _)
  rw [forIdx_two, bind_eq_ok]
  constructor
  · rintro ⟨a, ha, hb2⟩
    rw [actionStep_recur (cfr (fuel + 1)) "" player reachProb0 reachProb1 "bh" "00" _ 0 'b'
      rfl rfl] at ha
    obtain ⟨q0, cb, x0, h1, h2, _, h3, rfl⟩ := ha
    rw [hpb, cfr_leaf fuel _ _ _ _ _ _ _ hb (by decide)] at h2
    obtain ⟨hc, hv, rfl⟩ := h2
    rw [actionStep_recur (cfr (fuel + 1)) "" player reachProb0 reachProb1 "bh" "00" _ 1 'h'
      rfl rfl] at hb2
    obtain ⟨q1, ch, x1, h4, h5, _, h6, rfl⟩ := hb2
    rw [hph, cfr_leaf fuel _ _ _ _ _ _ _ hh (by decide)] at h5
    obtain ⟨_, hv2, rfl⟩ := h5
    simp only [f1, f2] at h3 h4 h6
    simp only [gk, f3] at hv2
    rw [opp_opp] at hc
    have e0 : q0 = x0 := Option.some.inj (h1.symm.trans h3)
    have e1 : q1 = x1 := Option.some.inj (h4.symm.trans h6)
    subst e0 e1
    refine ⟨(List.getElem?_eq_some.1 h4).1, fun e => hc e.symm, hv, hv2, ?_⟩
    simp only [h1, h4, Option.getD_some, childReach]
    rw [weightedSum_two _ _ _ _ _ h1 h4]
    rfl
  · rintro ⟨hl, hc, hv, hv2, rfl⟩
    obtain ⟨q0, e0⟩ : ∃ q0, (nodeAt s (getInfosetKey s player "")).strategy[0]? = some q0 :=
      ⟨_, List.getElem?_eq_getElem (by omega)⟩
    obtain ⟨q1, e1⟩ : ∃ q1, (nodeAt s (getInfosetKey s player "")).strategy[1]? = some q1 :=
      ⟨_, List.getElem?_eq_getElem (by omega)⟩
    have hc' : s.cards (opp player) ≠ s.cards (opp (opp player)) := by
      rw [opp_opp]; exact fun e => hc e.symm
    simp only [e0, e1, Option.getD_some, childReach]
    obtain ⟨cb, hcb⟩ : ∃ cb, cb = leafVisit s "b" (opp player)
        (if player = 0 then reachProb0 * q0 else reachProb0)
        (if player = 0 then reachProb1 else reachProb1 * q0) "cf" := ⟨_, rfl⟩
    have hcb2 : cfr (fuel + 1) s ("".push 'b') (opp player)
        (if player = 0 then reachProb0 * q0 else reachProb0)
        (if player = 0 then reachProb1 else reachProb1 * q0) = Except.ok cb := by
      rw [hpb, cfr_leaf fuel _ _ _ _ _ _ _ hb (by decide)]
      exact ⟨hc', hv, hcb⟩
    have hkey : nodeAt cb.2 (getInfosetKey s player "") = nodeAt s (getInfosetKey s player "") := by
      rw [hcb, f1]
    have hv3 : VisitOk (entryNode cb.2 (getInfosetKey cb.2 (opp player) "h") (opp player) "h")
        "h".length := by
      rw [hcb]; simp only [gk, f3]; exact hv2
    have hcc : cb.2.cards = s.cards := by rw [hcb]; rfl
    rw [← hcb]
    obtain ⟨ch, hch⟩ : ∃ ch, ch = leafVisit cb.2 "h" (opp player)
        (if player = 0 then reachProb0 * q1 else reachProb0)
        (if player = 0 then reachProb1 else reachProb1 * q1) "h" := ⟨_, rfl⟩
    have hch2 : cfr (fuel + 1) cb.2 ("".push 'h') (opp player)
        (if player = 0 then reachProb0 * q1 else reachProb0)
        (if player = 0 then reachProb1 else reachProb1 * q1) = Except.ok ch := by
      rw [hph, cfr_leaf fuel _ _ _ _ _ _ _ hh (by decide)]
      exact ⟨by rw [hcc]; exact hc', hv3, hch⟩
    have hkey2 : nodeAt ch.2 (getInfosetKey s player "") =
        nodeAt s (getInfosetKey s player "") := by
      rw [hch, f2, hkey]
    rw [← hch]
    refine ⟨(cb.2, [-cb.1, 0], 0 + -cb.1 * q0), ?_, ?_⟩
    · rw [actionStep_recur (cfr (fuel + 1)) "" player reachProb0 reachProb1 "bh" "00" _ 0 'b'
        rfl rfl]
      exact ⟨q0, cb, q0, e0, hcb2, by simp, by rw [hkey]; exact e0, rfl⟩
    · rw [actionStep_recur (cfr (fuel + 1)) "" player reachProb0 reachProb1 "bh" "00" _ 1 'h'
        rfl rfl]
      refine ⟨q1, ch, q1, by rw [hkey]; exact e1, hch2, by simp, by rw [hkey2]; exact e1, ?_⟩
      rw [weightedSum_two _ _ _ _ _ e0 e1]
      rfl

/-- The root traversal: with fuel for two visits it completes exactly when the
cards differ and the three nodes have the lengths the visits need, and the result
is `rootVisit`. -/
theorem cfr_root (fuel : Nat) (state : CfrState) (player : Fin 2)
    (reachProb0 reachProb1 : ℚ) (r : ℚ × CfrState) :
    cfr (fuel + 2) state "" player reachProb0 reachProb1 = Except.ok r ↔
      RootOk state player ∧ r = rootVisit state player reachProb0 reachProb1 := by
  show cfrBody (cfr (fuel + 1)) state "" player reachProb0 reachProb1 = Except.ok r ↔ _
  unfold cfrBody
  have htbl : actionTable "" = Except.ok ("bh", "00") := rfl
  have hlen : "bh".length = 2 := by decide
  simp only [htbl, ok_bind, hlen, OfNat.ofNat_ne_zero, if_false,
    createNode_eq _ _ _ "bh" (by decide), nodeAt_created, setNode_created, visit_bind]
  have hkb : getInfosetKey state player "" ≠ getInfosetKey state (opp player) "b" :=
    key_root_ne_b _ _
  have hkh : getInfosetKey state player "" ≠ getInfosetKey state (opp player) "h" :=
    key_root_ne_h _ _
  have hloop := fun R => actionLoop_bh fuel player reachProb0 reachProb1
    (setNode state (getInfosetKey state player "")
      (afterVisit (entryNode state (getInfosetKey state player "") player "bh")
        (if player = 0 then reachProb0 else reachProb1))) R
  simp only [getInfosetKey_setNode, nodeAt_setNode, setNode_cards, afterVisit_strategy,
    entryNode_setNode_ne _ _ _ _ _ _ hkb, entryNode_setNode_ne _ _ _ _ _ _ hkh] at hloop
  have hnode : ∀ (t : CfrState) (a b c d : ℚ),
      lookupKey (leafVisit (leafVisit t "b" (opp player) a b "cf").2 "h" (opp player) c d "h").2.strat
        (getInfosetKey state player "") = lookupKey t.strat (getInfosetKey state player "") := by
    intro t a b c d
    have k1 : ∀ t1 t2 : CfrState,
        getInfosetKey t1 (opp player) "h" ≠ getInfosetKey t2 player "" :=
      fun _ _ => (key_root_ne_h _ _).symm
    have k2 : ∀ t1 t2 : CfrState,
        getInfosetKey t1 (opp player) "b" ≠ getInfosetKey t2 player "" :=
      fun _ _ => (key_root_ne_b _ _).symm
    show lookupKey (setNode (setNode t _ _) _ _).strat _ = _
    rw [lookupKey_setNode_ne _ _ _ _ (k1 _ _), lookupKey_setNode_ne _ _ _ _ (k2 _ _)]
  constructor
  · rintro ⟨a, b, h⟩
    obtain ⟨R, hR, h2⟩ := (bind_eq_ok _ _ _).1 h
    obtain ⟨hl, hc, hv, hv2, rfl⟩ := (hloop R).1 hR
    obtain ⟨s', hs', h3⟩ := (bind_eq_ok _ _ _).1 h2
    rw [regretLoop_eq_ok _ _ _ _ _ _ _ _ _ _
      ((hnode _ _ _ _ _).trans (lookupKey_setNode _ _ _))] at hs'
    obtain ⟨_, hr, rfl⟩ := hs'
    rw [afterVisit_regrets] at hr
    rw [afterMatching_strategy_length _ a] at hl
    refine ⟨⟨hc, ⟨a, b, hl, hr⟩, hv, hv2⟩, ?_⟩
    simp only [pure_eq_ok, Except.ok.injEq] at h3
    rw [← h3]
    rfl
  · rintro ⟨⟨hc, ⟨a, b, hl, hr⟩, hv, hv2⟩, rfl⟩
    refine ⟨a, b, (bind_eq_ok _ _ _).2 ⟨_, (hloop _).2 ⟨?_, hc, hv, hv2, rfl⟩, ?_⟩⟩
    · rw [afterMatching_strategy_length _ a]; exact hl
    · refine (bind_eq_ok _ _ _).2 ⟨_, (regretLoop_eq_ok _ _ _ _ _ _ _ _ _ _
        ((hnode _ _ _ _ _).trans (lookupKey_setNode _ _ _))).2 ⟨by simp, ?_, rfl⟩, ?_⟩
      · rw [afterVisit_regrets]; exact hr
      · rfl

theorem data_eq_nil (hist : String) (h : hist.data = []) : hist = "" := by
  cases hist
  simp at h
  subst h
  rfl

/-- With fuel for one visit only, the traversal at the empty history does not
complete: its first recursive call has no fuel. -/
theorem cfr_one_root (state : CfrState) (player : Fin 2) (reachProb0 reachProb1 : ℚ)
    (r : ℚ × CfrState) : cfr 1 state "" player reachProb0 reachProb1 ≠ Except.ok r := by
  show cfrBody (cfr 0) state "" player reachProb0 reachProb1 ≠ Except.ok r
  unfold cfrBody
  have htbl : actionTable "" = Except.ok ("bh", "00") := rfl
  have hlen : "bh".length = 2 := by decide
  simp only [htbl, ok_bind, hlen, OfNat.ofNat_ne_zero, if_false,
    createNode_eq _ _ _ "bh" (by decide), nodeAt_created, setNode_created]
  intro h
  rw [visit_bind] at h
  obtain ⟨_, _, h⟩ := h
  obtain ⟨R, hR, _⟩ := (bind_eq_ok _ _ _).1 h
  rw [forIdx_two] at hR
  obtain ⟨a, ha, _⟩ := (bind_eq_ok _ _ _).1 hR
  rw [actionStep_recur (cfr 0) "" player reachProb0 reachProb1 "bh" "00" _ 0 'b' rfl rfl] at ha
  obtain ⟨q, c, x, _, h2, _⟩ := ha
  exact absurd h2 (by simp [cfr])

/-- When the traversal completes: at a history that is not empty with fuel for one
visit, as `leafVisit`; at the empty history with fuel for two visits, as
`rootVisit`. -/
theorem cfr_eq_ok (fuel : Nat) (state : CfrState) (hist : String) (player : Fin 2)
    (reachProb0 reachProb1 : ℚ) (r : ℚ × CfrState) :
    cfr fuel state hist player reachProb0 reachProb1 = Except.ok r ↔
      (∃ acts term, 1 ≤ fuel ∧ hist.data ≠ [] ∧ actionTable hist = Except.ok (acts, term) ∧
        state.cards player ≠ state.cards (opp player) ∧
        VisitOk (entryNode state (getInfosetKey state player hist) player acts) acts.length ∧
        r = leafVisit state hist player reachProb0 reachProb1 acts) ∨
      (2 ≤ fuel ∧ hist = "" ∧ RootOk state player ∧
        r = rootVisit state player reachProb0 reachProb1) := by
  cases fuel with
  | zero =>
    simp only [cfr]
    constructor
    · intro h; exact absurd h (by simp)
    · rintro (⟨_, _, h, _⟩ | ⟨h, _⟩) <;> omega
  | succ f =>
    by_cases hne : hist.data = []
    · have hh := data_eq_nil hist hne
      subst hh
      cases f with
      | zero =>
        constructor
        · intro h; exact absurd h (cfr_one_root _ _ _ _ _)
        · rintro (⟨_, _, _, h, _⟩ | ⟨h, _⟩)
          · exact absurd rfl h
          · omega
      | succ g =>
        rw [cfr_root]
        constructor
        · rintro ⟨h1, h2⟩; exact Or.inr ⟨by omega, rfl, h1, h2⟩
        · rintro (⟨_, _, _, h, _⟩ | ⟨_, _, h1, h2⟩)
          · exact absurd rfl h
          · exact ⟨h1, h2⟩
    · constructor
      · intro h
        have ht : ∃ tbl, actionTable hist = Except.ok tbl := by
          have h' : cfrBody (cfr f) state hist player reachProb0 reachProb1 = Except.ok r := h
          unfold cfrBody at h'
          obtain ⟨tbl, h1, _⟩ := (bind_eq_ok _ _ _).1 h'
          exact ⟨tbl, h1⟩
        obtain ⟨⟨acts, term⟩, ht⟩ := ht
        obtain ⟨h1, h2, h3⟩ := (cfr_leaf f state hist player reachProb0 reachProb1 acts term ht hne r).1 h
        exact Or.inl ⟨acts, term, by omega, hne, ht, h1, h2, h3⟩
      · rintro (⟨acts, term, _, _, ht, h1, h2, h3⟩ | ⟨_, h, _⟩)
        · exact (cfr_leaf f state hist player reachProb0 reachProb1 acts term ht hne r).2 ⟨h1, h2, h3⟩
        · subst h; exact absurd rfl hne

/-! ## Properties of the stored nodes that every traversal preserves -/

theorem storeAll_setNode (J : List (String × List ℚ) → String → StrategyNode → Prop)
    (state : CfrState) (key : String) (node : StrategyNode)
    (h : StoreAll J state) (hn : J state.lockedStrat key node) :
    StoreAll J (setNode state key node) := by
  intro key' node' hl
  by_cases hk : key = key'
  · subst hk
    rw [lookupKey_setNode] at hl
    exact Option.some.inj hl ▸ hn
  · rw [lookupKey_setNode_ne _ _ _ _ hk] at hl
    exact h key' node' hl

theorem storeAll_entryNode (J : List (String × List ℚ) → String → StrategyNode → Prop)
    (hfresh : ∀ (st : CfrState) (key : String) (p : Fin 2) (acts : String),
      0 < acts.length → J st.lockedStrat key (freshNode st key p acts))
    (state : CfrState) (key : String) (player : Fin 2) (acts : String)
    (h : StoreAll J state) (hlen : 0 < acts.length) :
    J state.lockedStrat key (entryNode state key player acts) := by
  unfold entryNode
  cases hl : lookupKey state.strat key with
  | none => exact hfresh state key player acts hlen
  | some node => exact h key node hl

theorem storeAll_leafVisit (J : List (String × List ℚ) → String → StrategyNode → Prop)
    (hfresh : ∀ (st : CfrState) (key : String) (p : Fin 2) (acts : String),
      0 < acts.length → J st.lockedStrat key (freshNode st key p acts))
    (hvisit : ∀ t key (node : StrategyNode) w, J t key node →
      node.regrets.length ≤ node.strategy.length → J t key (afterVisit node w))
    (hreg : ∀ t key node u w v n, J t key node → J t key (afterRegrets node u w v n))
    (state : CfrState) (hist : String) (player : Fin 2) (reachProb0 reachProb1 : ℚ)
    (acts : String) (h : StoreAll J state) (hlen : 0 < acts.length)
    (hok : VisitOk (entryNode state (getInfosetKey state player hist) player acts) acts.length) :
    StoreAll J (leafVisit state hist player reachProb0 reachProb1 acts).2 :=
  storeAll_setNode J _ _ _ h
    (hreg _ _ _ _ _ _ _ (hvisit _ _ _ _ (storeAll_entryNode J hfresh _ _ _ _ h hlen) hok.1))

/-- A property of the stored nodes that holds of a fresh node and is kept by the
visit and by the regret update is kept by every completed traversal; the override
table and the game parameters are not changed. -/
theorem cfr_preserves (J : List (String × List ℚ) → String → StrategyNode → Prop)
    (hfresh : ∀ (st : CfrState) (key : String) (p : Fin 2) (acts : String),
      0 < acts.length → J st.lockedStrat key (freshNode st key p acts))
    (hvisit : ∀ t key (node : StrategyNode) w, J t key node →
      node.regrets.length ≤ node.strategy.length → J t key (afterVisit node w))
    (hreg : ∀ t key node u w v n, J t key node → J t key (afterRegrets node u w v n))
    (fuel : Nat) (state : CfrState) (hist : String) (player : Fin 2)
    (reachProb0 reachProb1 : ℚ) (r : ℚ × CfrState)
    (hrun : cfr fuel state hist player reachProb0 reachProb1 = Except.ok r)
    (h : StoreAll J state) :
    StoreAll J r.2 ∧ r.2.lockedStrat = state.lockedStrat ∧ r.2.cards = state.cards ∧
      r.2.betSize = state.betSize ∧ r.2.initialPotSize = state.initialPotSize := by
  rcases (cfr_eq_ok _ _ _ _ _ _ _).1 hrun with
    ⟨acts, term, _, hne, htbl, _, hok, rfl⟩ | ⟨_, rfl, ⟨_, hokR, hokB, hokH⟩, rfl⟩
  · have hlen : 0 < acts.length := by
      rcases (actionTable_eq_ok hist (acts, term)).1 htbl with ⟨_, e⟩ | ⟨_, _, e⟩ | ⟨_, _, e⟩ <;>
        · obtain ⟨rfl, rfl⟩ := Prod.mk.inj e
          decide
    exact ⟨storeAll_leafVisit J hfresh hvisit hreg _ _ _ _ _ _ h hlen hok, rfl, rfl, rfl, rfl⟩
  · have hkb : getInfosetKey state player "" ≠ getInfosetKey state (opp player) "b" :=
      key_root_ne_b _ _
    have hkh : getInfosetKey state player "" ≠ getInfosetKey state (opp player) "h" :=
      key_root_ne_h _ _
    have hJR := hvisit _ _ _ (ownReach player reachProb0 reachProb1)
      (storeAll_entryNode J hfresh state (getInfosetKey state player "") player "bh" h
        (by decide)) hokR.1
    have h2 := storeAll_setNode J _ _ _ h hJR
    refine ⟨?_, rfl, rfl, rfl, rfl⟩
    unfold rootVisit
    refine storeAll_setNode J _ _ _ ?_ (hreg _ _ _ _ _ _ _ hJR)
    refine storeAll_leafVisit J hfresh hvisit hreg _ _ _ _ _ _ ?_ (by decide) ?_
    · refine storeAll_leafVisit J hfresh hvisit hreg _ _ _ _ _ _ h2 (by decide) ?_
      rw [getInfosetKey_setNode, entryNode_setNode_ne _ _ _ _ _ _ hkb]
      exact hokB
    · have e : ∀ (t : CfrState) (a b : ℚ),
          entryNode (leafVisit t "b" (opp player) a b "cf").2
            (getInfosetKey (leafVisit t "b" (opp player) a b "cf").2 (opp player) "h")
            (opp player) "h" = entryNode t (getInfosetKey t (opp player) "h") (opp player) "h" :=
        fun t a b => entryNode_leafVisit_ne _ _ _ _ _ _ _ _ _ (key_b_ne_h _ _)
      rw [e, getInfosetKey_setNode, entryNode_setNode_ne _ _ _ _ _ _ hkh]
      exact hokH

theorem posRegrets_nonneg (node : StrategyNode) (x : ℚ) (h : x ∈ posRegrets node) : 0 ≤ x := by
  simp only [posRegrets, List.mem_map] at h
  obtain ⟨r, _, rfl⟩ := h
  split
  · exact le_of_lt (by assumption)
  · exact le_refl 0

theorem rmTarget_sum (node : StrategyNode) (hlen : node.regrets.length = node.actionLabels.length)
    (hpos : 0 < node.actionLabels.length) : (rmTarget node).sum = 1 := by
  unfold rmTarget
  split
  · rename_i h
    rw [sum_map_div]
    exact div_self (ne_of_gt h)
  · rw [hlen]
    exact sum_replicate_uniform _ hpos

theorem rmTarget_mem (node : StrategyNode) (hpos : 0 < node.actionLabels.length) (x : ℚ)
    (h : x ∈ rmTarget node) : 0 ≤ x ∧ x ≤ 1 := by
  unfold rmTarget at h
  split at h
  · rename_i hs
    simp only [List.mem_map] at h
    obtain ⟨p, hp, rfl⟩ := h
    have h0 : 0 ≤ p := posRegrets_nonneg node p hp
    have h1 : p ≤ (posRegrets node).sum :=
      List.single_le_sum (fun y hy => posRegrets_nonneg node y hy) p hp
    exact ⟨div_nonneg h0 (le_of_lt hs), (div_le_one hs).2 h1⟩
  · simp only [List.mem_replicate] at h
    obtain ⟨_, rfl⟩ := h
    have hL : (1 : ℚ) ≤ node.actionLabels.length := by exact_mod_cast hpos
    have hL0 : (0 : ℚ) < node.actionLabels.length := lt_of_lt_of_le one_pos hL
    exact ⟨le_of_lt (div_pos one_pos hL0), (div_le_one hL0).2 hL⟩

theorem uniform_mem (n : Nat) (hn : 0 < n) (x : ℚ)
    (h : x ∈ List.replicate n (1 / (n : ℚ))) : 0 ≤ x ∧ x ≤ 1 := by
  simp only [List.mem_replicate] at h
  obtain ⟨_, rfl⟩ := h
  have hL : (1 : ℚ) ≤ n := by exact_mod_cast hn
  have hL0 : (0 : ℚ) < n := lt_of_lt_of_le one_pos hL
  exact ⟨le_of_lt (div_pos one_pos hL0), (div_le_one hL0).2 hL⟩

theorem nodeInv_freshNode (state : CfrState) (key : String) (player : Fin 2) (acts : String)
    (hlen : 0 < acts.length) : NodeInv (freshNode state key player acts) := by
  unfold freshNode
  cases lookupKey state.lockedStrat key with
  | none =>
    refine ⟨?_, by simp, hlen, fun _ => by simp, fun _ => ⟨?_, ?_⟩⟩
    · intro r hr
      simp only [List.mem_replicate] at hr
      exact le_of_eq hr.2.symm
    · exact sum_replicate_uniform _ hlen
    · exact fun x hx => uniform_mem _ hlen x hx
  | some s =>
    refine ⟨?_, by simp, hlen, fun h => by simp at h, fun h => by simp at h⟩
    intro r hr
    simp only [List.mem_replicate] at hr
    exact le_of_eq hr.2.symm

theorem afterMatching_actionLabels (node : StrategyNode) :
    (afterMatching node).actionLabels = node.actionLabels := by
  unfold afterMatching; split <;> rfl

theorem nodeInv_afterVisit (node : StrategyNode) (weight : ℚ) (h : NodeInv node)
    (hlen : node.regrets.length ≤ node.strategy.length) : NodeInv (afterVisit node weight) := by
  obtain ⟨h1, h2, h3, h4, _⟩ := h
  refine ⟨?_, ?_, ?_, ?_, ?_⟩
  · rw [afterVisit_regrets]; exact h1
  · rw [afterVisit_regrets]
    show _ = (afterMatching node).actionLabels.length
    rw [afterMatching_actionLabels]; exact h2
  · show 0 < (afterMatching node).actionLabels.length
    rw [afterMatching_actionLabels]; exact h3
  · intro hl
    rw [afterVisit_locked] at hl
    rw [afterVisit_strategy, afterVisit_regrets, afterMatching_strategy_length _ hlen]
    exact h4 hl
  · intro hl
    rw [afterVisit_locked] at hl
    have hfull : (afterMatching node).strategy = rmTarget node := by
      simp only [afterMatching, hl, Bool.false_eq_true, if_false]
      exact overwrite_full _ _ (by rw [rmTarget_length, h4 hl])
    rw [afterVisit_strategy, hfull]
    exact ⟨rmTarget_sum node h2 h3, fun x hx => rmTarget_mem node h3 x hx⟩

theorem mem_overwrite (new old : List ℚ) (x : ℚ) (h : x ∈ overwrite new old) :
    x ∈ new ∨ x ∈ old := by
  unfold overwrite at h
  rcases List.mem_append.1 h with h1 | h1
  · exact Or.inl h1
  · exact Or.inr (List.mem_of_mem_drop h1)

theorem regretTarget_nonneg (regrets utilArr : List ℚ) (weight avgUtil x : ℚ)
    (h : x ∈ regretTarget regrets utilArr weight avgUtil) : 0 ≤ x := by
  unfold regretTarget at h
  induction regrets generalizing utilArr with
  | nil => simp at h
  | cons a rest ih =>
    cases utilArr with
    | nil => simp at h
    | cons u us =>
      simp only [List.zipWith_cons_cons, List.mem_cons] at h
      rcases h with h | h
      · rw [h]; exact le_max_right _ _
      · exact ih us h

theorem nodeInv_afterRegrets (node : StrategyNode) (utilArr : List ℚ) (weight avgUtil : ℚ)
    (n : Nat) (h : NodeInv node) : NodeInv (afterRegrets node utilArr weight avgUtil n) := by
  obtain ⟨h1, h2, h3, h4, h5⟩ := h
  have hlen : (afterRegrets node utilArr weight avgUtil n).regrets.length =
      node.regrets.length := by
    show (overwrite _ node.regrets).length = _
    apply overwrite_length
    simp only [regretTarget, List.length_take, List.length_zipWith]
    omega
  refine ⟨?_, by rw [hlen]; exact h2, h3, fun hl => by rw [hlen]; exact h4 hl, h5⟩
  intro r hr
  rcases mem_overwrite _ _ _ hr with h6 | h6
  · exact regretTarget_nonneg _ _ _ _ _ (List.mem_of_mem_take h6)
  · exact h1 r h6

/-- Every node of a reachable state has the shape `NodeInv`. -/
theorem reachable_nodeInv (s : CfrState) (h : Reachable s) :
    StoreAll (fun _ _ node => NodeInv node) s := by
  induction h with
  | init s => intro key node hl; simp [initState, lookupKey] at hl
  | lock hist card strategy _ ih => exact ih
  | deal cards cardMask betSize pot _ ih => exact ih
  | run fuel hist player reachProb0 reachProb1 v _ hrun ih =>
    exact (cfr_preserves (fun _ _ node => NodeInv node)
      (fun st key p acts hlen => nodeInv_freshNode st key p acts hlen)
      (fun _ _ node w hn hlen => nodeInv_afterVisit node w hn hlen)
      (fun _ _ node u w v n hn => nodeInv_afterRegrets node u w v n hn)
      fuel _ hist player reachProb0 reachProb1 _ hrun ih).1

/-- C7: in every state reachable from `initState` by `lockNode` calls, deals and
completed traversals (any history, cards, reach probabilities), every regret of
every stored node is at least `0`. -/
theorem regrets_nonneg (s : CfrState) (h : Reachable s) (key : String) (node : StrategyNode)
    (hnode : lookupKey s.strat key = some node) : ∀ r ∈ node.regrets, 0 ≤ r :=
  (reachable_nodeInv s h key node hnode).1

/-! ## Normalisation of the matched strategy -/

/-- On a node of the shape `NodeInv`, `regretMatching` completes; an unlocked node
gets a strategy that sums to `1` with entries in `[0, 1]`, a locked node is left as
it is. -/
theorem regretMatching_nodeInv (node : StrategyNode) (h : NodeInv node) :
    ∃ node', regretMatching node = Except.ok node' ∧
      (node.locked = false →
        node'.strategy.sum = 1 ∧ ∀ x ∈ node'.strategy, 0 ≤ x ∧ x ≤ 1) ∧
      (node.locked = true → node' = node) := by
  obtain ⟨_, h2, h3, h4, _⟩ := h
  cases hl : node.locked with
  | true =>
    exact ⟨node, (regretMatching_eq_ok _ _).2 (Or.inl ⟨hl, rfl⟩), fun h => by simp at h,
      fun _ => rfl⟩
  | false =>
    have hs := h4 hl
    have hfull : overwrite (rmTarget node) node.strategy = rmTarget node :=
      overwrite_full _ _ (by rw [rmTarget_length]; omega)
    refine ⟨{ node with strategy := rmTarget node },
      (regretMatching_eq_ok _ _).2 (Or.inr ⟨hl, by omega, by rw [hfull]⟩), fun _ => ?_,
      fun h => by simp at h⟩
    exact ⟨rmTarget_sum node h2 h3, fun x hx => rmTarget_mem node h3 x hx⟩

/-- C8, amended: in every reachable state the strategy of every stored node that
is not locked sums to `1` and has all entries in `[0, 1]`, and `regretMatching`
completes on every stored node; run on an unlocked node it yields again a strategy
that sums to `1` with entries in `[0, 1]`; a locked node is returned unchanged, so
its strategy stays the registered override whether or not that is normalised. -/
theorem strategy_normalized (s : CfrState) (h : Reachable s) (key : String)
    (node : StrategyNode) (hnode : lookupKey s.strat key = some node) :
    (node.locked = false → node.strategy.sum = 1 ∧ ∀ x ∈ node.strategy, 0 ≤ x ∧ x ≤ 1) ∧
    ∃ node', regretMatching node = Except.ok node' ∧
      (node.locked = false →
        node'.strategy.sum = 1 ∧ ∀ x ∈ node'.strategy, 0 ≤ x ∧ x ≤ 1) ∧
      (node.locked = true → node' = node) :=
  ⟨(reachable_nodeInv s h key node hnode).2.2.2.2,
    regretMatching_nodeInv node (reachable_nodeInv s h key node hnode)⟩

/-! ## Locked nodes -/

/-- The traversal creates the node of the key it visits, and at the empty history
also the nodes of the two histories it recurses into. -/
theorem cfr_creates (fuel : Nat) (state : CfrState) (hist : String) (player : Fin 2)
    (reachProb0 reachProb1 : ℚ) (r : ℚ × CfrState)
    (hrun : cfr fuel state hist player reachProb0 reachProb1 = Except.ok r) :
    (lookupKey r.2.strat (getInfosetKey state player hist)).isSome = true ∧
    (hist = "" →
      (lookupKey r.2.strat (getInfosetKey state (opp player) "b")).isSome = true ∧
      (lookupKey r.2.strat (getInfosetKey state (opp player) "h")).isSome = true) := by
  rcases (cfr_eq_ok _ _ _ _ _ _ _).1 hrun with
    ⟨acts, term, _, hne, _, _, _, rfl⟩ | ⟨_, rfl, _, rfl⟩
  · refine ⟨?_, fun h => ?_⟩
    · show (lookupKey (setNode _ _ _).strat _).isSome = true
      rw [lookupKey_setNode]; rfl
    · subst h; exact absurd rfl hne
  · have k1 : ∀ t1 t2 : CfrState,
        getInfosetKey t1 player "" ≠ getInfosetKey t2 (opp player) "b" :=
      fun _ _ => key_root_ne_b _ _
    have k2 : ∀ t1 t2 : CfrState,
        getInfosetKey t1 player "" ≠ getInfosetKey t2 (opp player) "h" :=
      fun _ _ => key_root_ne_h _ _
    have k3 : ∀ t1 t2 : CfrState,
        getInfosetKey t1 (opp player) "h" ≠ getInfosetKey t2 (opp player) "b" :=
      fun _ _ => (key_b_ne_h _ _).symm
    refine ⟨?_, fun _ => ⟨?_, ?_⟩⟩
    · show (lookupKey (setNode _ _ _).strat _).isSome = true
      rw [lookupKey_setNode]; rfl
    · show (lookupKey (setNode (setNode (setNode _ _ _) _ _) _ _).strat _).isSome = true
      rw [lookupKey_setNode_ne _ _ _ _ (k1 _ _), lookupKey_setNode_ne _ _ _ _ (k3 _ _)]
      exact (congrArg Option.isSome (lookupKey_setNode _ _ _)).trans rfl
    · show (lookupKey (setNode (setNode _ _ _) _ _).strat _).isSome = true
      rw [lookupKey_setNode_ne _ _ _ _ (k2 _ _)]
      exact (congrArg Option.isSome (lookupKey_setNode _ _ _)).trans rfl

theorem afterMatching_of_locked (node : StrategyNode) (h : node.locked = true) :
    afterMatching node = node := by
  simp [afterMatching, h]

/-- While the override table maps `key` to `sv`, every traversal keeps the node of
`key`, once it exists, locked with strategy `sv`. -/
theorem traversals_locked (key : String) (sv : List ℚ) (s t : CfrState)
    (ht : Traversals s t) (hs : lookupKey s.lockedStrat key = some sv)
    (hnone : lookupKey s.strat key = none) :
    lookupKey t.lockedStrat key = some sv ∧
    StoreAll (fun tbl k node => k = key → lookupKey tbl key = some sv →
      node.locked = true ∧ node.strategy = sv) t := by
  induction ht with
  | refl =>
    refine ⟨hs, ?_⟩
    intro k node hl hk
    subst hk
    rw [hnone] at hl
    exact absurd hl (by simp)
  | deal cards cardMask betSize pot _ ih => exact ih
  | run fuel hist player reachProb0 reachProb1 v _ hrun ih =>
    obtain ⟨h1, h2, _⟩ := cfr_preserves
      (fun tbl k node => k = key → lookupKey tbl key = some sv →
        node.locked = true ∧ node.strategy = sv)
      (fun st k p acts _ hk hsv => by
        subst hk
        unfold freshNode
        rw [hsv]
        exact ⟨rfl, rfl⟩)
      (fun tbl k node w hn _ hk hsv => by
        obtain ⟨hl, hst⟩ := hn hk hsv
        rw [afterVisit_locked, afterVisit_strategy, afterMatching_of_locked node hl]
        exact ⟨hl, hst⟩)
      (fun tbl k node u w v n hn hk hsv => hn hk hsv)
      fuel _ hist player reachProb0 reachProb1 _ hrun ih.2
    exact ⟨by rw [h2]; exact ih.1, h1⟩

/-- C9: after `lockNode(state, hist, card, s)` on a key that has no node, and any
number of completed traversals and deals, the node of the key, once it exists, is
locked and its strategy is `s`; a traversal that visits the key, directly or as
one of the two histories below the empty one, completes with the node in the
store; and `regretMatching` returns a locked node unchanged. -/
theorem locked_invariance (state : CfrState) (hist : String) (card : Int) (s : List ℚ)
    (hnone : lookupKey state.strat (constructInfosetKey hist card) = none)
    (t : CfrState) (ht : Traversals (lockNode state hist card s) t) :
    (∀ node, lookupKey t.strat (constructInfosetKey hist card) = some node →
      node.locked = true ∧ node.strategy = s) ∧
    (∀ fuel h player reachProb0 reachProb1 v t',
      cfr fuel t h player reachProb0 reachProb1 = Except.ok (v, t') →
      (h = hist ∧ t.cards player = card) ∨
        (h = "" ∧ (hist = "b" ∨ hist = "h") ∧ t.cards (opp player) = card) →
      ∃ node, lookupKey t'.strat (constructInfosetKey hist card) = some node ∧
        node.locked = true ∧ node.strategy = s) ∧
    (∀ node : StrategyNode, node.locked = true → regretMatching node = Except.ok node) := by
  have hs : lookupKey (lockNode state hist card s).lockedStrat (constructInfosetKey hist card) =
      some s := by
    simp [lockNode, lookupKey_assignKey]
  have main : ∀ t, Traversals (lockNode state hist card s) t →
      ∀ node, lookupKey t.strat (constructInfosetKey hist card) = some node →
      node.locked = true ∧ node.strategy = s := by
    intro t ht node hl
    obtain ⟨h1, h2⟩ := traversals_locked _ s _ t ht hs hnone
    exact h2 _ node hl rfl h1
  refine ⟨main t ht, ?_, fun node hl => (regretMatching_eq_ok _ _).2 (Or.inl ⟨hl, rfl⟩)⟩
  intro fuel h player reachProb0 reachProb1 v t' hrun hvis
  have hc := cfr_creates fuel t h player reachProb0 reachProb1 _ hrun
  have hex : (lookupKey t'.strat (constructInfosetKey hist card)).isSome = true := by
    rcases hvis with ⟨rfl, rfl⟩ | ⟨rfl, hh | hh, rfl⟩
    · exact hc.1
    · subst hh; exact (hc.2 rfl).1
    · subst hh; exact (hc.2 rfl).2
  obtain ⟨node, hnode⟩ := Option.isSome_iff_exists.1 hex
  exact ⟨node, hnode, main t' (Traversals.run fuel h player reachProb0 reachProb1 v ht hrun)
    node hnode⟩

/-! ## The nodes after a traversal -/

theorem entryNode_regrets (state : CfrState) (key : String) (player : Fin 2) (acts : String) :
    (entryNode state key player acts).regrets = oldRegrets state key acts.length := by
  unfold entryNode oldRegrets freshNode
  cases lookupKey state.strat key with
  | some node => rfl
  | none => cases lookupKey state.lockedStrat key <;> rfl

theorem entryNode_strategySum (state : CfrState) (key : String) (player : Fin 2)
    (acts : String) :
    (entryNode state key player acts).strategySum = oldStrategySum state key acts.length := by
  unfold entryNode oldStrategySum freshNode
  cases lookupKey state.strat key with
  | some node => rfl
  | none => cases lookupKey state.lockedStrat key <;> rfl

theorem afterRegrets_getElem? (node : StrategyNode) (utilArr : List ℚ) (weight avgUtil : ℚ)
    (n i : Nat) (hi : i < n) (h1 : n ≤ node.regrets.length) (h2 : n ≤ utilArr.length) :
    (afterRegrets node utilArr weight avgUtil n).regrets[i]? =
      some (max (node.regrets[i]?.getD 0 + weight * (utilArr[i]?.getD 0 - avgUtil)) 0) := by
  have hr : i < node.regrets.length := by omega
  have hu : i < utilArr.length := by omega
  show (overwrite ((regretTarget node.regrets utilArr weight avgUtil).take n) node.regrets)[i]? = _
  rw [overwrite_getElem?_lt _ _ _ (by simp [regretTarget]; omega), List.getElem?_take_of_lt hi]
  simp [regretTarget, List.getElem?_zipWith, List.getElem?_eq_getElem hr,
    List.getElem?_eq_getElem hu]

@[simp] theorem afterRegrets_strategy (node : StrategyNode) (utilArr : List ℚ)
    (weight avgUtil : ℚ) (n : Nat) :
    (afterRegrets node utilArr weight avgUtil n).strategy = node.strategy := rfl

@[simp] theorem afterRegrets_strategySum (node : StrategyNode) (utilArr : List ℚ)
    (weight avgUtil : ℚ) (n : Nat) :
    (afterRegrets node utilArr weight avgUtil n).strategySum = node.strategySum := rfl

@[simp] theorem afterRegrets_locked (node : StrategyNode) (utilArr : List ℚ)
    (weight avgUtil : ℚ) (n : Nat) :
    (afterRegrets node utilArr weight avgUtil n).locked = node.locked := rfl

theorem leafVisit_fst (state : CfrState) (hist : String) (player : Fin 2)
    (reachProb0 reachProb1 : ℚ) (acts : String) :
    (leafVisit state hist player reachProb0 reachProb1 acts).1 =
      leafValue state hist player acts := rfl

theorem nodeAt_leafVisit (state : CfrState) (hist : String) (player : Fin 2)
    (reachProb0 reachProb1 : ℚ) (acts : String) :
    nodeAt (leafVisit state hist player reachProb0 reachProb1 acts).2
        (getInfosetKey state player hist) =
      afterRegrets
        (afterVisit (entryNode state (getInfosetKey state player hist) player acts)
          (ownReach player reachProb0 reachProb1))
        (acts.data.map (fun a => payoff state a player))
        (oppReach player reachProb0 reachProb1) (leafValue state hist player acts)
        acts.length := by
  show nodeAt (setNode _ _ _) _ = _
  rw [nodeAt_setNode]
  rfl

theorem leafValue_setNode_ne (state : CfrState) (key : String) (node : StrategyNode)
    (hist : String) (player : Fin 2) (acts : String)
    (h : key ≠ getInfosetKey state player hist) :
    leafValue (setNode state key node) hist player acts = leafValue state hist player acts := by
  unfold leafValue
  rw [getInfosetKey_setNode, entryNode_setNode_ne _ _ _ _ _ _ h]
  rfl

/-- The result of the traversal at the empty history, node by node: the value, and
the three nodes it leaves under the keys of the histories ``, `b` and `h`. -/
theorem rootVisit_nodes (state : CfrState) (player : Fin 2) (reachProb0 reachProb1 : ℚ) :
    (rootVisit state player reachProb0 reachProb1).1 = rootValue state player ∧
    nodeAt (rootVisit state player reachProb0 reachProb1).2 (getInfosetKey state player "") =
      afterRegrets
        (afterVisit (entryNode state (getInfosetKey state player "") player "bh")
          (ownReach player reachProb0 reachProb1))
        [-leafValue state "b" (opp player) "cf", -leafValue state "h" (opp player) "h"]
        (oppReach player reachProb0 reachProb1) (rootValue state player) 2 ∧
    (∀ rb, rb = childReach player reachProb0 reachProb1
        ((afterMatching (entryNode state (getInfosetKey state player "") player
          "bh")).strategy[0]?.getD 0) →
      nodeAt (rootVisit state player reachProb0 reachProb1).2
          (getInfosetKey state (opp player) "b") =
        afterRegrets
          (afterVisit (entryNode state (getInfosetKey state (opp player) "b") (opp player) "cf")
            (ownReach (opp player) rb.1 rb.2))
          ("cf".data.map (fun a => payoff state a (opp player)))
          (oppReach (opp player) rb.1 rb.2) (leafValue state "b" (opp player) "cf") 2) ∧
    (∀ rh, rh = childReach player reachProb0 reachProb1
        ((afterMatching (entryNode state (getInfosetKey state player "") player
          "bh")).strategy[1]?.getD 0) →
      nodeAt (rootVisit state player reachProb0 reachProb1).2
          (getInfosetKey state (opp player) "h") =
        afterRegrets
          (afterVisit (entryNode state (getInfosetKey state (opp player) "h") (opp player) "h")
            (ownReach (opp player) rh.1 rh.2))
          ("h".data.map (fun a => payoff state a (opp player)))
          (oppReach (opp player) rh.1 rh.2) (leafValue state "h" (opp player) "h") 1) := by
  have k1 : ∀ t1 t2 : CfrState,
      getInfosetKey t1 player "" ≠ getInfosetKey t2 (opp player) "b" :=
    fun _ _ => key_root_ne_b _ _
  have k2 : ∀ t1 t2 : CfrState,
      getInfosetKey t1 player "" ≠ getInfosetKey t2 (opp player) "h" :=
    fun _ _ => key_root_ne_h _ _
  have k3 : ∀ t1 t2 : CfrState,
      getInfosetKey t1 (opp player) "h" ≠ getInfosetKey t2 (opp player) "b" :=
    fun _ _ => (key_b_ne_h _ _).symm
  have k4 : ∀ t1 t2 : CfrState,
      getInfosetKey t1 (opp player) "b" ≠ getInfosetKey t2 (opp player) "h" :=
    fun _ _ => key_b_ne_h _ _
  have vb : ∀ (node : StrategyNode) (a b : ℚ),
      (leafVisit (setNode state (getInfosetKey state player "") node) "b" (opp player) a b
        "cf").1 = leafValue state "b" (opp player) "cf" :=
    fun node a b => leafValue_setNode_ne _ _ _ _ _ _ (k1 _ _)
  have vh' : ∀ (node : StrategyNode) (a b : ℚ),
      leafValue (leafVisit (setNode state (getInfosetKey state player "") node) "b"
        (opp player) a b "cf").2 "h" (opp player) "h" =
        leafValue state "h" (opp player) "h" := by
    intro node a b
    show leafValue (setNode _ _ _) _ _ _ = _
    rw [leafValue_setNode_ne _ _ _ _ _ _ (k4 _ _), leafValue_setNode_ne _ _ _ _ _ _ (k2 _ _)]
  have vh : ∀ (node : StrategyNode) (a b c d : ℚ),
      (leafVisit (leafVisit (setNode state (getInfosetKey state player "") node) "b"
        (opp player) a b "cf").2 "h" (opp player) c d "h").1 =
        leafValue state "h" (opp player) "h" :=
    fun node a b c d => vh' node a b
  have hval : (rootVisit state player reachProb0 reachProb1).1 = rootValue state player := by
    unfold rootVisit rootValue
    simp only [vb, vh, afterVisit_strategy]
  refine ⟨hval, ?_, ?_, ?_⟩
  · unfold rootVisit at hval ⊢
    simp only [nodeAt_setNode] at hval ⊢
    simp only [vb, vh, afterVisit_strategy] at hval ⊢
    rw [hval]
  · rintro rb rfl
    unfold rootVisit
    simp only []
    rw [nodeAt_setNode_ne _ _ _ _ (k1 _ _), nodeAt_leafVisit_ne _ _ _ _ _ _ _ (k3 _ _)]
    refine (nodeAt_leafVisit _ "b" (opp player) _ _ "cf").trans ?_
    rw [leafValue_setNode_ne _ _ _ _ _ _ (k1 _ _), getInfosetKey_setNode,
      entryNode_setNode_ne _ _ _ _ _ _ (k1 _ _)]
    rfl
  · rintro rh rfl
    unfold rootVisit
    simp only []
    rw [nodeAt_setNode_ne _ _ _ _ (k2 _ _)]
    refine (nodeAt_leafVisit _ "h" (opp player) _ _ "h").trans ?_
    rw [vh']
    have e : ∀ (node : StrategyNode) (a b : ℚ),
        entryNode (leafVisit (setNode state (getInfosetKey state player "") node) "b"
          (opp player) a b "cf").2
          (getInfosetKey (leafVisit (setNode state (getInfosetKey state player "") node) "b"
            (opp player) a b "cf").2 (opp player) "h") (opp player) "h" =
          entryNode state (getInfosetKey state (opp player) "h") (opp player) "h" := by
      intro node a b
      rw [entryNode_leafVisit_ne _ _ _ _ _ _ _ _ _ (k4 _ _)]
      show entryNode (setNode _ _ _) (getInfosetKey state (opp player) "h") _ _ = _
      rw [entryNode_setNode_ne _ _ _ _ _ _ (k2 _ _)]
    rw [e]
    rfl

/-- The two recursive calls of a root traversal that completes: the call at `b`
runs on the state with the root node visited, the call at `h` on the state the
first call leaves; their values are `leafValue` on the original state. -/
theorem rootVisit_children (fuel : Nat) (state : CfrState) (player : Fin 2)
    (reachProb0 reachProb1 : ℚ) (hok : RootOk state player) :
    ∃ sa sb sc,
      cfr (fuel + 1) sa "b" (opp player)
        (childReach player reachProb0 reachProb1
          ((afterMatching (entryNode state (getInfosetKey state player "") player
            "bh")).strategy[0]?.getD 0)).1
        (childReach player reachProb0 reachProb1
          ((afterMatching (entryNode state (getInfosetKey state player "") player
            "bh")).strategy[0]?.getD 0)).2 =
        Except.ok (leafValue state "b" (opp player) "cf", sb) ∧
      cfr (fuel + 1) sb "h" (opp player)
        (childReach player reachProb0 reachProb1
          ((afterMatching (entryNode state (getInfosetKey state player "") player
            "bh")).strategy[1]?.getD 0)).1
        (childReach player reachProb0 reachProb1
          ((afterMatching (entryNode state (getInfosetKey state player "") player
            "bh")).strategy[1]?.getD 0)).2 =
        Except.ok (leafValue state "h" (opp player) "h", sc) ∧
      sa = setNode state (getInfosetKey state player "")
        (afterVisit (entryNode state (getInfosetKey state player "") player "bh")
          (ownReach player reachProb0 reachProb1)) ∧
      ∀ key, getInfosetKey state player "" ≠ key →
        lookupKey (rootVisit state player reachProb0 reachProb1).2.strat key =
          lookupKey sc.strat key := by
  obtain ⟨hc, _, hB, hH⟩ := hok
  have k1 : ∀ t1 t2 : CfrState,
      getInfosetKey t1 player "" ≠ getInfosetKey t2 (opp player) "b" :=
    fun _ _ => key_root_ne_b _ _
  have k2 : ∀ t1 t2 : CfrState,
      getInfosetKey t1 player "" ≠ getInfosetKey t2 (opp player) "h" :=
    fun _ _ => key_root_ne_h _ _
  have k4 : ∀ t1 t2 : CfrState,
      getInfosetKey t1 (opp player) "b" ≠ getInfosetKey t2 (opp player) "h" :=
    fun _ _ => key_b_ne_h _ _
  have hc' : state.cards (opp player) ≠ state.cards (opp (opp player)) := by
    rw [opp_opp]; exact fun e => hc e.symm
  obtain ⟨sa, hsa⟩ : ∃ sa, sa = setNode state (getInfosetKey state player "")
      (afterVisit (entryNode state (getInfosetKey state player "") player "bh")
        (ownReach player reachProb0 reachProb1)) := ⟨_, rfl⟩
  obtain ⟨rb, hrb⟩ : ∃ rb, rb = childReach player reachProb0 reachProb1
      ((afterMatching (entryNode state (getInfosetKey state player "") player
        "bh")).strategy[0]?.getD 0) := ⟨_, rfl⟩
  obtain ⟨rh, hrh⟩ : ∃ rh, rh = childReach player reachProb0 reachProb1
      ((afterMatching (entryNode state (getInfosetKey state player "") player
        "bh")).strategy[1]?.getD 0) := ⟨_, rfl⟩
  rw [← hrb, ← hrh]
  have e1 : entryNode sa (getInfosetKey sa (opp player) "b") (opp player) "cf" =
      entryNode state (getInfosetKey state (opp player) "b") (opp player) "cf" := by
    rw [hsa, getInfosetKey_setNode, entryNode_setNode_ne _ _ _ _ _ _ (k1 _ _)]
  have v1 : leafValue sa "b" (opp player) "cf" = leafValue state "b" (opp player) "cf" := by
    rw [hsa, leafValue_setNode_ne _ _ _ _ _ _ (k1 _ _)]
  have c1 : cfr (fuel + 1) sa "b" (opp player) rb.1 rb.2 =
      Except.ok (leafVisit sa "b" (opp player) rb.1 rb.2 "cf") := by
    rw [cfr_leaf fuel sa "b" (opp player) rb.1 rb.2 "cf" "11" rfl (by decide)]
    exact ⟨by rw [hsa]; exact hc', by rw [e1]; exact hB, rfl⟩
  obtain ⟨sb, hsb⟩ : ∃ sb, sb = (leafVisit sa "b" (opp player) rb.1 rb.2 "cf").2 := ⟨_, rfl⟩
  have e2 : entryNode sb (getInfosetKey sb (opp player) "h") (opp player) "h" =
      entryNode state (getInfosetKey state (opp player) "h") (opp player) "h" := by
    rw [hsb, entryNode_leafVisit_ne _ _ _ _ _ _ _ _ _ (k4 _ _)]
    show entryNode sa (getInfosetKey sa (opp player) "h") _ _ = _
    rw [hsa, getInfosetKey_setNode, entryNode_setNode_ne _ _ _ _ _ _ (k2 _ _)]
  have v2 : leafValue sb "h" (opp player) "h" = leafValue state "h" (opp player) "h" := by
    rw [hsb]
    show leafValue (setNode sa _ _) _ _ _ = _
    rw [leafValue_setNode_ne _ _ _ _ _ _ (k4 _ _), hsa,
      leafValue_setNode_ne _ _ _ _ _ _ (k2 _ _)]
  have c2 : cfr (fuel + 1) sb "h" (opp player) rh.1 rh.2 =
      Except.ok (leafVisit sb "h" (opp player) rh.1 rh.2 "h") := by
    rw [cfr_leaf fuel sb "h" (opp player) rh.1 rh.2 "h" "1" rfl (by decide)]
    refine ⟨?_, by rw [e2]; exact hH, rfl⟩
    rw [hsb, hsa]; exact hc'
  refine ⟨sa, sb, (leafVisit sb "h" (opp player) rh.1 rh.2 "h").2, ?_, ?_, hsa, ?_⟩
  · rw [c1, hsb, ← v1]; rfl
  · rw [c2, ← v2]; rfl
  · intro key hk
    rw [hsb, hsa, hrh, hrb]
    exact lookupKey_setNode_ne _ _ _ _ hk

/-! ## The regret update, the value and the accumulation of one traversal -/

theorem showdown_of_mem (state : CfrState) (player : Fin 2) (a : Char)
    (hc : state.cards player ≠ state.cards (opp player))
    (ha : a = 'f' ∨ a = 'h' ∨ a = 'c') :
    showdown state a player = Except.ok (payoff state a player) :=
  (showdown_eq_ok state a player _).2 ⟨hc, ha, rfl⟩

theorem getD_map_payoff (state : CfrState) (player : Fin 2) (l : List Char) (i : Nat) (a : Char)
    (h : l[i]? = some a) :
    (l.map (fun a => payoff state a player))[i]?.getD 0 = payoff state a player := by
  simp [List.getElem?_map, h]

/-- C2: a call of `cfr` that completes leaves the regrets of the visited node at
`max(old + w * (utility[i] - EU), 0)` for every action `i`, with `old` the regrets
held before the call (zeros for a new node), `EU` the returned value and `w` the
opponent's reach probability.  At a history that is not empty the utilities are
the payoffs; at the empty history they are the negated values of the two
recursive calls: the first runs on the state `sa` in which the root node has been
created, matched and accumulated (lines 181-195), the second on the state the
first returns, and the final state differs from the state the second returns at
the root key only.  The calls run with the acting player's reach multiplied by the
probability of the action, so that for player 0 at the root the node after a bet
is updated with weight `r0 * sigma_bet` and the root node with weight `r1`. -/
theorem cfr_regret_update (fuel : Nat) (state : CfrState) (hist : String) (player : Fin 2)
    (reachProb0 reachProb1 v : ℚ) (state' : CfrState)
    (h : cfr fuel state hist player reachProb0 reachProb1 = Except.ok (v, state')) :
    ∃ acts term utils,
      actionTable hist = Except.ok (acts, term) ∧ utils.length = acts.length ∧
      (∀ i : Nat, i < acts.length →
        (nodeAt state' (getInfosetKey state player hist)).regrets[i]? =
          some (max ((oldRegrets state (getInfosetKey state player hist) acts.length)[i]?.getD 0 +
            (if player = 0 then reachProb1 else reachProb0) * (utils[i]?.getD 0 - v)) 0)) ∧
      (hist ≠ "" → ∀ (i : Nat) (a : Char), acts.data[i]? = some a →
        showdown state a player = Except.ok (utils[i]?.getD 0)) ∧
      (hist = "" → ∃ s1 n1 n2 σ0 σ1 sa vb sb vh sc,
        createNode state (getInfosetKey state player "") player "bh" = Except.ok s1 ∧
        regretMatching (nodeAt s1 (getInfosetKey state player "")) = Except.ok n1 ∧
        accumulateAvgStrategy n1 (if player = 0 then reachProb0 else reachProb1) =
          Except.ok n2 ∧
        sa = setNode s1 (getInfosetKey state player "") n2 ∧
        n2.strategy[0]? = some σ0 ∧ n2.strategy[1]? = some σ1 ∧
        (nodeAt state' (getInfosetKey state player "")).strategy[0]? = some σ0 ∧
        (nodeAt state' (getInfosetKey state player "")).strategy[1]? = some σ1 ∧
        cfr (fuel - 1) sa "b" (opp player) (childReach player reachProb0 reachProb1 σ0).1
          (childReach player reachProb0 reachProb1 σ0).2 = Except.ok (vb, sb) ∧
        cfr (fuel - 1) sb "h" (opp player) (childReach player reachProb0 reachProb1 σ1).1
          (childReach player reachProb0 reachProb1 σ1).2 = Except.ok (vh, sc) ∧
        utils = [-vb, -vh] ∧
        (∀ key, key ≠ getInfosetKey state player "" →
          lookupKey state'.strat key = lookupKey sc.strat key) ∧
        (∀ (i : Nat) (a : Char), "cf".data[i]? = some a →
          ∃ u, showdown sa a (opp player) = Except.ok u ∧
          (nodeAt state' (getInfosetKey state (opp player) "b")).regrets[i]? =
            some (max ((oldRegrets state (getInfosetKey state (opp player) "b") 2)[i]?.getD 0 +
              oppReach (opp player) (childReach player reachProb0 reachProb1 σ0).1
                (childReach player reachProb0 reachProb1 σ0).2 * (u - vb)) 0)) ∧
        (player = 0 →
          oppReach (opp player) (childReach player reachProb0 reachProb1 σ0).1
            (childReach player reachProb0 reachProb1 σ0).2 = reachProb0 * σ0)) := by
  rcases (cfr_eq_ok _ _ _ _ _ _ _).1 h with
    ⟨acts, term, _, hne, htbl, hc, hok, hr⟩ | ⟨hfuel, rfl, hok, hr⟩
  · have hv : v = (leafVisit state hist player reachProb0 reachProb1 acts).1 :=
      congrArg Prod.fst hr
    have hs : state' = (leafVisit state hist player reachProb0 reachProb1 acts).2 :=
      congrArg Prod.snd hr
    subst hv hs
    have hmem : ∀ a ∈ acts.data, a = 'f' ∨ a = 'h' ∨ a = 'c' := by
      rcases (actionTable_eq_ok hist (acts, term)).1 htbl with ⟨e, _⟩ | ⟨_, _, e⟩ | ⟨_, _, e⟩
      · exact absurd e hne
      · obtain ⟨rfl, rfl⟩ := Prod.mk.inj e
        intro a ha
        have : a = 'c' ∨ a = 'f' := by simpa using ha
        rcases this with rfl | rfl <;> simp
      · obtain ⟨rfl, rfl⟩ := Prod.mk.inj e
        intro a ha
        have : a = 'h' := by simpa using ha
        subst this; simp
    refine ⟨acts, term, acts.data.map (fun a => payoff state a player), htbl,
      by rw [List.length_map]; rfl, ?_, ?_, fun h0 => absurd (by rw [h0]) hne⟩
    · intro i hi
      rw [nodeAt_leafVisit, afterRegrets_getElem? _ _ _ _ _ i hi
        (by rw [afterVisit_regrets]; exact hok.2.2.2)
        (by rw [List.length_map]; exact le_refl _),
        afterVisit_regrets, entryNode_regrets, leafVisit_fst]
      rfl
    · intro _ i a hia
      rw [getD_map_payoff state player _ i a hia]
      exact showdown_of_mem state player a hc (hmem a (List.getElem?_mem hia))
  · have hv' : v = (rootVisit state player reachProb0 reachProb1).1 := congrArg Prod.fst hr
    have hs : state' = (rootVisit state player reachProb0 reachProb1).2 := congrArg Prod.snd hr
    subst hv' hs
    obtain ⟨hv, hR, hB, hH⟩ := rootVisit_nodes state player reachProb0 reachProb1
    obtain ⟨hc, hokR, hokB, hokH⟩ := hok
    have hc' : state.cards (opp player) ≠ state.cards (opp (opp player)) := by
      rw [opp_opp]; exact fun e => hc e.symm
    obtain ⟨g, hg⟩ : ∃ g, fuel = g + 2 := ⟨fuel - 2, by omega⟩
    subst hg
    obtain ⟨sa, sb, sc, hca, hcb, hsa, hframe⟩ := rootVisit_children g state player
      reachProb0 reachProb1 ⟨hc, hokR, hokB, hokH⟩
    have hvis := (visit_eq_ok (entryNode state (getInfosetKey state player "") player "bh")
      _ (if player = 0 then reachProb0 else reachProb1)).2 ⟨hokR.1, hokR.2.1, rfl⟩
    obtain ⟨n1, hn1, hn2⟩ := (bind_eq_ok _ _ _).1 hvis
    have hstrat : (nodeAt (rootVisit state player reachProb0 reachProb1).2
        (getInfosetKey state player "")).strategy =
        (afterMatching (entryNode state (getInfosetKey state player "") player "bh")).strategy := by
      rw [hR]; rfl
    have hlen : 2 ≤ (afterMatching (entryNode state (getInfosetKey state player "") player
        "bh")).strategy.length := by
      rw [afterMatching_strategy_length _ hokR.1]; exact hokR.2.2.1
    have e0 := List.getElem?_eq_getElem (show 0 < (afterMatching (entryNode state
      (getInfosetKey state player "") player "bh")).strategy.length by omega)
    have e1 := List.getElem?_eq_getElem (show 1 < (afterMatching (entryNode state
      (getInfosetKey state player "") player "bh")).strategy.length by omega)
    rw [e0, Option.getD_some] at hca
    rw [e1, Option.getD_some] at hcb
    refine ⟨"bh", "00", [-leafValue state "b" (opp player) "cf",
      -leafValue state "h" (opp player) "h"], rfl, rfl, ?_, fun h0 => absurd rfl h0, fun _ => ?_⟩
    · intro i hi
      have hi2 : i < 2 := hi
      rw [hR, hv, afterRegrets_getElem? _ _ _ _ _ i hi2
        (by rw [afterVisit_regrets]; exact hokR.2.2.2) (by simp),
        afterVisit_regrets, entryNode_regrets]
      rfl
    · refine ⟨_, n1, _, _, _, sa, _, sb, _, sc, createNode_eq _ _ _ _ (by decide),
        by rw [nodeAt_created]; exact hn1, hn2, by rw [setNode_created]; exact hsa,
        by rw [afterVisit_strategy]; exact e0, by rw [afterVisit_strategy]; exact e1,
        by rw [hstrat]; exact e0, by rw [hstrat]; exact e1,
        hca, hcb, rfl, fun key hk => hframe key (Ne.symm hk), ?_, ?_⟩
      · intro i a hia
        have ha : a = 'f' ∨ a = 'h' ∨ a = 'c' := by
          have : a ∈ "cf".data := List.getElem?_mem hia
          have : a = 'c' ∨ a = 'f' := by simpa using this
          rcases this with rfl | rfl <;> simp
        have hi : i < 2 := (List.getElem?_eq_some.1 hia).1
        have hsd : showdown sa a (opp player) = Except.ok (payoff state a (opp player)) := by
          rw [hsa, showdown_setNode]
          exact showdown_of_mem state (opp player) a hc' ha
        refine ⟨_, hsd, ?_⟩
        rw [hB _ rfl, afterRegrets_getElem? _ _ _ _ _ i hi
          (by rw [afterVisit_regrets]; exact hokB.2.2.2) (by simp),
          afterVisit_regrets, entryNode_regrets, getD_map_payoff state (opp player) _ i a hia,
          e0, Option.getD_some]
        rfl
      · intro hp
        subst hp
        simp [oppReach, childReach, opp]

theorem wellFormed_entryNode (state : CfrState) (h : WellFormed state) (hist : String)
    (card : Int) (player : Fin 2) (acts term : String)
    (htbl : actionTable hist = Except.ok (acts, term)) :
    (entryNode state (constructInfosetKey hist card) player acts).actionLabels.length =
        acts.length ∧
    (entryNode state (constructInfosetKey hist card) player acts).regrets.length =
        acts.length ∧
    (entryNode state (constructInfosetKey hist card) player acts).strategy.length =
        acts.length ∧
    (entryNode state (constructInfosetKey hist card) player acts).strategySum.length =
        acts.length := by
  unfold entryNode
  cases hl : lookupKey state.strat (constructInfosetKey hist card) with
  | some node => exact h.1 hist card acts term node htbl hl
  | none =>
    unfold freshNode
    cases hs : lookupKey state.lockedStrat (constructInfosetKey hist card) with
    | none => simp
    | some s => simpa using h.2 hist card acts term s htbl hs

/-- A well-formed store with two different cards has everything a root traversal
needs. -/
theorem rootOk_of_wellFormed (state : CfrState) (player : Fin 2) (h : WellFormed state)
    (hc : state.cards 0 ≠ state.cards 1) : RootOk state player := by
  obtain ⟨_, r1, s1, t1⟩ := wellFormed_entryNode state h "" (state.cards player) player
    "bh" "00" rfl
  obtain ⟨_, r2, s2, t2⟩ := wellFormed_entryNode state h "b" (state.cards (opp player))
    (opp player) "cf" "11" rfl
  obtain ⟨_, r3, s3, t3⟩ := wellFormed_entryNode state h "h" (state.cards (opp player))
    (opp player) "h" "1" rfl
  have l2 : "bh".length = 2 := by decide
  have l3 : "cf".length = 2 := by decide
  have l4 : "h".length = 1 := by decide
  rw [l2] at r1 s1 t1
  rw [l3] at r2 s2 t2
  rw [l4] at r3 s3 t3
  refine ⟨cards_opp_ne state hc player, ?_, ?_, ?_⟩ <;>
    · unfold VisitOk getInfosetKey
      omega

theorem length_eq_two_cases (l : List ℚ) (h : l.length = 2) : ∃ a b, l = [a, b] := by
  match l, h with
  | [a, b], _ => exact ⟨a, b, rfl⟩

theorem length_eq_one_cases (l : List ℚ) (h : l.length = 1) : ∃ a, l = [a] := by
  match l, h with
  | [a], _ => exact ⟨a, rfl⟩

/-- The matched strategy of a node whose vectors have the length of its action
list: unchanged when locked, the normalised positive regrets (or the uniform
value) when not. -/
theorem afterMatching_strategy_full (node : StrategyNode) (n : Nat)
    (hr : node.regrets.length = n) (hs : node.strategy.length = n) :
    (afterMatching node).strategy.length = n ∧
    (node.locked = false → (afterMatching node).strategy = rmTarget node) := by
  refine ⟨by rw [afterMatching_strategy_length _ (by omega)]; exact hs, fun hl => ?_⟩
  simp only [afterMatching, hl, Bool.false_eq_true, if_false]
  exact overwrite_full _ _ (by rw [rmTarget_length]; omega)

/-- The accumulated strategy after a visit of a node whose vectors have the length
of its action list: every entry grows by `weight` times the matched strategy. -/
theorem afterVisit_strategySum_full (node : StrategyNode) (weight : ℚ) (n : Nat)
    (hr : node.regrets.length = n) (hs : node.strategy.length = n)
    (ht : node.strategySum.length = n) :
    (afterVisit node weight).strategySum =
      List.zipWith (fun old x => old + weight * x) node.strategySum
        (afterMatching node).strategy := by
  have hs' := (afterMatching_strategy_full node n hr hs).1
  show overwrite (accTarget (afterMatching node) weight) (afterMatching node).strategySum = _
  rw [afterMatching_strategySum]
  unfold accTarget
  rw [afterMatching_strategySum, afterMatching_regrets, List.take_of_length_le (by simp; omega)]
  exact overwrite_full _ _ (by simp; omega)

theorem rmTarget_single (node : StrategyNode) (hr : node.regrets.length = 1)
    (ha : node.actionLabels.length = 1) : rmTarget node = [1] := by
  obtain ⟨x, hx⟩ := length_eq_one_cases (rmTarget node) (by rw [rmTarget_length]; exact hr)
  have hsum := rmTarget_sum node (by rw [hr, ha]) (by omega)
  rw [hx] at hsum ⊢
  simp at hsum
  rw [hsum]

theorem regretMatching_afterMatching (node : StrategyNode)
    (h : node.regrets.length ≤ node.strategy.length) :
    regretMatching node = Except.ok (afterMatching node) := by
  rw [regretMatching_eq_ok]
  cases hl : node.locked with
  | true => exact Or.inl ⟨rfl, by simp [afterMatching, hl]⟩
  | false => exact Or.inr ⟨rfl, h, by simp [afterMatching, hl]⟩

/-- A root traversal for player 0 with two different cards, the three nodes it
works on having vectors of the right lengths, in full: it completes with the value `rootValue`; each of the three nodes
ends with the strategy `regretMatching` computes on the node as it was before the
visit; the value is the strategy-weighted, sign-flipped sum of the payoffs; and
each `strategySum` has grown by the acting player's reach times that strategy. -/
theorem root_run_lengths (fuel : Nat) (state : CfrState) (reachProb0 reachProb1 : ℚ)
    (hR : NodeLengths (entryNode state (constructInfosetKey "" (state.cards 0)) 0 "bh") 2)
    (hB : NodeLengths (entryNode state (constructInfosetKey "b" (state.cards 1)) 1 "cf") 2)
    (hH : NodeLengths (entryNode state (constructInfosetKey "h" (state.cards 1)) 1 "h") 1)
    (hc : state.cards 0 ≠ state.cards 1) :
    ∃ state' nR nB nH σb σh τc τf ρ,
      cfr (fuel + 2) state "" 0 reachProb0 reachProb1 =
        Except.ok (rootValue state 0, state') ∧
      regretMatching (entryNode state (constructInfosetKey "" (state.cards 0)) 0 "bh") =
        Except.ok nR ∧
      regretMatching (entryNode state (constructInfosetKey "b" (state.cards 1)) 1 "cf") =
        Except.ok nB ∧
      regretMatching (entryNode state (constructInfosetKey "h" (state.cards 1)) 1 "h") =
        Except.ok nH ∧
      nR.strategy = [σb, σh] ∧ nB.strategy = [τc, τf] ∧ nH.strategy = [ρ] ∧
      (nodeAt state' (constructInfosetKey "" (state.cards 0))).strategy = [σb, σh] ∧
      (nodeAt state' (constructInfosetKey "b" (state.cards 1))).strategy = [τc, τf] ∧
      (nodeAt state' (constructInfosetKey "h" (state.cards 1))).strategy = [ρ] ∧
      rootValue state 0 =
        σb * (-(τc * payoff state 'c' 1 + τf * payoff state 'f' 1)) +
          σh * (-(ρ * payoff state 'h' 1)) ∧
      ((nodeAt state' (constructInfosetKey "h" (state.cards 1))).locked = false → ρ = 1) ∧
      (nodeAt state' (constructInfosetKey "" (state.cards 0))).strategySum =
        List.zipWith (fun old x => old + reachProb0 * x)
          (oldStrategySum state (constructInfosetKey "" (state.cards 0)) 2) [σb, σh] ∧
      (nodeAt state' (constructInfosetKey "b" (state.cards 1))).strategySum =
        List.zipWith (fun old x => old + reachProb1 * x)
          (oldStrategySum state (constructInfosetKey "b" (state.cards 1)) 2) [τc, τf] ∧
      (nodeAt state' (constructInfosetKey "h" (state.cards 1))).strategySum =
        List.zipWith (fun old x => old + reachProb1 * x)
          (oldStrategySum state (constructInfosetKey "h" (state.cards 1)) 1) [ρ] := by
  obtain ⟨a1, r1, s1, t1⟩ := hR
  obtain ⟨a2, r2, s2, t2⟩ := hB
  obtain ⟨a3, r3, s3, t3⟩ := hH
  have hok : RootOk state 0 := by
    refine ⟨cards_opp_ne state hc 0, ?_, ?_, ?_⟩
    · show VisitOk (entryNode state (constructInfosetKey "" (state.cards 0)) 0 "bh") 2
      exact ⟨by omega, by omega, by omega, by omega⟩
    · show VisitOk (entryNode state (constructInfosetKey "b" (state.cards 1)) 1 "cf") 2
      exact ⟨by omega, by omega, by omega, by omega⟩
    · show VisitOk (entryNode state (constructInfosetKey "h" (state.cards 1)) 1 "h") 1
      exact ⟨by omega, by omega, by omega, by omega⟩
  obtain ⟨hv, hR, hB, hH⟩ := rootVisit_nodes state 0 reachProb0 reachProb1
  have hB' := hB _ rfl
  have hH' := hH _ rfl
  have k0 : getInfosetKey state 0 "" = constructInfosetKey "" (state.cards 0) := rfl
  have kb : getInfosetKey state 1 "b" = constructInfosetKey "b" (state.cards 1) := rfl
  have kh : getInfosetKey state 1 "h" = constructInfosetKey "h" (state.cards 1) := rfl
  rw [opp_zero] at hB' hH'
  rw [k0] at hR
  rw [k0, kb] at hB'
  rw [k0, kh] at hH'
  obtain ⟨m1, u1⟩ := afterMatching_strategy_full _ 2 r1 s1
  obtain ⟨m2, u2⟩ := afterMatching_strategy_full _ 2 r2 s2
  obtain ⟨m3, u3⟩ := afterMatching_strategy_full _ 1 r3 s3
  obtain ⟨σb, σh, hσ⟩ := length_eq_two_cases _ m1
  obtain ⟨τc, τf, hτ⟩ := length_eq_two_cases _ m2
  obtain ⟨ρ, hρ⟩ := length_eq_one_cases _ m3
  have hrun : cfr (fuel + 2) state "" 0 reachProb0 reachProb1 =
      Except.ok (rootValue state 0, (rootVisit state 0 reachProb0 reachProb1).2) := by
    rw [cfr_root]
    exact ⟨hok, by rw [← hv]⟩
  refine ⟨_, _, _, _, σb, σh, τc, τf, ρ, hrun,
    regretMatching_afterMatching _ (by omega), regretMatching_afterMatching _ (by omega),
    regretMatching_afterMatching _ (by omega), hσ, hτ, hρ, ?_, ?_, ?_, ?_, ?_, ?_, ?_, ?_⟩
  · rw [hR]; exact hσ
  · rw [hB']; exact hτ
  · rw [hH']; exact hρ
  · unfold rootValue leafValue
    rw [opp_zero, k0, kb, kh, hσ, hτ, hρ]
    simp [weightedSum]
    ring
  · intro hl
    rw [hH', afterRegrets_locked, afterVisit_locked] at hl
    have := u3 hl
    rw [hρ, rmTarget_single _ r3 a3] at this
    exact (List.cons.inj this).1
  · rw [hR, afterRegrets_strategySum, afterVisit_strategySum_full _ _ 2 r1 s1 t1,
      entryNode_strategySum, hσ]
    rfl
  · rw [hB', afterRegrets_strategySum, afterVisit_strategySum_full _ _ 2 r2 s2 t2,
      entryNode_strategySum, hτ]
    rfl
  · rw [hH', afterRegrets_strategySum, afterVisit_strategySum_full _ _ 1 r3 s3 t3,
      entryNode_strategySum, hρ]
    rfl

/-- A root traversal for player 0 on a well-formed store with two different
cards, in full: it completes with the value `rootValue`; each of the three nodes
ends with the strategy `regretMatching` computes on the node as it was before the
visit; the value is the strategy-weighted, sign-flipped sum of the payoffs; and
each `strategySum` has grown by the acting player's reach times that strategy. -/
theorem root_run (fuel : Nat) (state : CfrState) (reachProb0 reachProb1 : ℚ)
    (hwf : WellFormed state) (hc : state.cards 0 ≠ state.cards 1) :
    ∃ state' nR nB nH σb σh τc τf ρ,
      cfr (fuel + 2) state "" 0 reachProb0 reachProb1 =
        Except.ok (rootValue state 0, state') ∧
      regretMatching (entryNode state (constructInfosetKey "" (state.cards 0)) 0 "bh") =
        Except.ok nR ∧
      regretMatching (entryNode state (constructInfosetKey "b" (state.cards 1)) 1 "cf") =
        Except.ok nB ∧
      regretMatching (entryNode state (constructInfosetKey "h" (state.cards 1)) 1 "h") =
        Except.ok nH ∧
      nR.strategy = [σb, σh] ∧ nB.strategy = [τc, τf] ∧ nH.strategy = [ρ] ∧
      (nodeAt state' (constructInfosetKey "" (state.cards 0))).strategy = [σb, σh] ∧
      (nodeAt state' (constructInfosetKey "b" (state.cards 1))).strategy = [τc, τf] ∧
      (nodeAt state' (constructInfosetKey "h" (state.cards 1))).strategy = [ρ] ∧
      rootValue state 0 =
        σb * (-(τc * payoff state 'c' 1 + τf * payoff state 'f' 1)) +
          σh * (-(ρ * payoff state 'h' 1)) ∧
      ((nodeAt state' (constructInfosetKey "h" (state.cards 1))).locked = false → ρ = 1) ∧
      (nodeAt state' (constructInfosetKey "" (state.cards 0))).strategySum =
        List.zipWith (fun old x => old + reachProb0 * x)
          (oldStrategySum state (constructInfosetKey "" (state.cards 0)) 2) [σb, σh] ∧
      (nodeAt state' (constructInfosetKey "b" (state.cards 1))).strategySum =
        List.zipWith (fun old x => old + reachProb1 * x)
          (oldStrategySum state (constructInfosetKey "b" (state.cards 1)) 2) [τc, τf] ∧
      (nodeAt state' (constructInfosetKey "h" (state.cards 1))).strategySum =
        List.zipWith (fun old x => old + reachProb1 * x)
          (oldStrategySum state (constructInfosetKey "h" (state.cards 1)) 1) [ρ] := by
  have l2 : "bh".length = 2 := by decide
  have l3 : "cf".length = 2 := by decide
  have l4 : "h".length = 1 := by decide
  have hR := wellFormed_entryNode state hwf "" (state.cards 0) 0 "bh" "00" rfl
  have hB := wellFormed_entryNode state hwf "b" (state.cards 1) 1 "cf" "11" rfl
  have hH := wellFormed_entryNode state hwf "h" (state.cards 1) 1 "h" "1" rfl
  rw [l2] at hR
  rw [l3] at hB
  rw [l4] at hH
  exact root_run_lengths fuel state reachProb0 reachProb1 hR hB hH hc

/-! ## Two concrete runs -/

theorem afterMatching_freshNode_unlocked (state : CfrState) (key : String) (player : Fin 2)
    (acts : String) (h : lookupKey state.lockedStrat key = none) :
    (afterMatching (freshNode state key player acts)).strategy =
      List.replicate acts.length (1 / (acts.length : ℚ)) := by
  have hz : ∀ n : Nat, (List.replicate n (0 : ℚ)).sum = 0 := by
    intro n; simp
  simp only [freshNode, h, afterMatching, Bool.false_eq_true, if_false, rmTarget, posRegrets,
    List.map_replicate, lt_irrefl, if_false, hz, gt_iff_lt, List.length_replicate]
  exact overwrite_full _ _ (by simp)

theorem afterMatching_freshNode_locked (state : CfrState) (key : String) (player : Fin 2)
    (acts : String) (s : List ℚ) (h : lookupKey state.lockedStrat key = some s) :
    afterMatching (freshNode state key player acts) = freshNode state key player acts ∧
    (freshNode state key player acts).strategy = s ∧
    (freshNode state key player acts).locked = true := by
  simp [freshNode, h, afterMatching]

theorem entryNode_of_none (state : CfrState) (key : String) (player : Fin 2) (acts : String)
    (h : lookupKey state.strat key = none) :
    entryNode state key player acts = freshNode state key player acts := by
  simp [entryNode, h]

theorem wellFormed_exampleState : WellFormed exampleState := by
  constructor
  · intro hist card acts term node _ hl
    simp [exampleState, freshState, initState, lookupKey] at hl
  · intro hist card acts term s _ hl
    simp [exampleState, freshState, initState, lookupKey] at hl

theorem key_eq_h_one (hist : String) (card : Int)
    (h : constructInfosetKey hist card = "h|1") : hist.data = ['h'] := by
  have hd := congrArg String.data h
  rw [key_data] at hd
  have hd' : hist.data ++ '|' :: (tostring card).data = ['h', '|', '1'] := hd
  match hh : hist.data with
  | [] => rw [hh] at hd'; simp at hd'
  | [c] => rw [hh] at hd'; simp at hd'; rw [hd'.1]
  | [c, d] => rw [hh] at hd'; simp at hd'
  | c :: d :: e :: rest => rw [hh] at hd'; simp at hd'

theorem wellFormed_lockedExample : WellFormed lockedExample := by
  constructor
  · intro hist card acts term node _ hl
    simp [lockedExample, lockNode, exampleState, freshState, initState, lookupKey] at hl
  · intro hist card acts term s htbl hl
    have hk : constructInfosetKey "h" 1 = "h|1" := by decide
    simp only [lockedExample, lockNode, exampleState, freshState, initState, assignKey,
      lookupKey, hk] at hl
    split at hl
    · rename_i heq
      simp only [Option.some.injEq] at hl
      have hd := key_eq_h_one hist card heq.symm
      rcases (actionTable_eq_ok hist (acts, term)).1 htbl with ⟨e, _⟩ | ⟨_, e, _⟩ | ⟨_, _, e⟩
      · rw [hd] at e; simp at e
      · rw [hd] at e; simp at e
      · obtain ⟨rfl, rfl⟩ := Prod.mk.inj e
        rw [← hl]; rfl
    · simp at hl

/-- The root traversal on `lockedExample` with both reach probabilities `1`: it
returns `-3/8`; the root node and the node after the bet play `[1/2, 1/2]`, the
locked check node keeps the override `[1/2]` and its `strategySum` becomes
`[1/2]`. -/
theorem lockedExample_run :
    ∃ state' node,
      cfr 2 lockedExample "" 0 1 1 = Except.ok (-3 / 8, state') ∧
      (nodeAt state' "|0").strategy = [1 / 2, 1 / 2] ∧
      (nodeAt state' "b|1").strategy = [1 / 2, 1 / 2] ∧
      lookupKey state'.strat "h|1" = some node ∧
      node.locked = true ∧ node.strategy = [1 / 2] ∧ node.strategySum = [1 / 2] := by
  have hc : lockedExample.cards 0 ≠ lockedExample.cards 1 := by decide
  obtain ⟨state', nR, nB, nH, σb, σh, τc, τf, ρ, hrun, hnR, hnB, hnH, eR, eB, eH, sR, sB, sH,
    hval, _, _, _, accH⟩ := root_run 0 lockedExample 1 1 wellFormed_lockedExample hc
  have k0 : constructInfosetKey "" (lockedExample.cards 0) = "|0" := by decide
  have kb : constructInfosetKey "b" (lockedExample.cards 1) = "b|1" := by decide
  have kh : constructInfosetKey "h" (lockedExample.cards 1) = "h|1" := by decide
  rw [k0] at hnR sR
  rw [kb] at hnB sB
  rw [kh] at hnH sH accH
  have n0 : lookupKey lockedExample.strat "|0" = none := rfl
  have nb : lookupKey lockedExample.strat "b|1" = none := rfl
  have nh : lookupKey lockedExample.strat "h|1" = none := rfl
  have l0 : lookupKey lockedExample.lockedStrat "|0" = none := by decide
  have lb : lookupKey lockedExample.lockedStrat "b|1" = none := by decide
  have lh : lookupKey lockedExample.lockedStrat "h|1" = some [1 / 2] := by
    simp [lockedExample, lockNode, exampleState, freshState, initState, assignKey, lookupKey]
    decide
  have l2 : "bh".length = 2 := by decide
  have l3 : "cf".length = 2 := by decide
  -- the three matched strategies
  rw [entryNode_of_none _ _ _ _ n0, regretMatching_afterMatching _ (by simp [freshNode, l0])]
    at hnR
  rw [entryNode_of_none _ _ _ _ nb, regretMatching_afterMatching _ (by simp [freshNode, lb])]
    at hnB
  rw [entryNode_of_none _ _ _ _ nh, regretMatching_afterMatching _
    (by simp [freshNode, lh]; decide)] at hnH
  have hR := congrArg StrategyNode.strategy (Except.ok.inj hnR)
  have hB := congrArg StrategyNode.strategy (Except.ok.inj hnB)
  have hH := congrArg StrategyNode.strategy (Except.ok.inj hnH)
  rw [afterMatching_freshNode_unlocked _ _ _ _ l0, eR, l2] at hR
  rw [afterMatching_freshNode_unlocked _ _ _ _ lb, eB, l3] at hB
  rw [(afterMatching_freshNode_locked _ _ _ _ _ lh).1,
    (afterMatching_freshNode_locked _ _ _ _ _ lh).2.1, eH] at hH
  have h1 : σb = 1 / 2 ∧ σh = 1 / 2 := by
    have := hR.symm
    simp [List.replicate] at this
    exact ⟨by rw [this.1]; norm_num, by rw [this.2]; norm_num⟩
  have h2 : τc = 1 / 2 ∧ τf = 1 / 2 := by
    have := hB.symm
    simp [List.replicate] at this
    exact ⟨by rw [this.1]; norm_num, by rw [this.2]; norm_num⟩
  have h3 : ρ = 1 / 2 := by
    have := hH.symm
    simpa using this
  obtain ⟨rfl, rfl⟩ := h1
  obtain ⟨rfl, rfl⟩ := h2
  subst h3
  have c1 : ¬ ('c' = 'f') := by decide
  have c2 : ¬ ('c' = 'h') := by decide
  have c3 : ¬ ('h' = 'f') := by decide
  have pc : payoff lockedExample 'c' 1 = 3 / 2 := by
    norm_num [payoff, lockedExample, lockNode, exampleState, freshState, initState, opp, c1, c2]
  have pf : payoff lockedExample 'f' 1 = -(1 / 2) := by
    norm_num [payoff, lockedExample, lockNode, exampleState, freshState, initState, opp]
  have ph : payoff lockedExample 'h' 1 = 1 / 2 := by
    norm_num [payoff, lockedExample, lockNode, exampleState, freshState, initState, opp, c3]
  rw [pc, pf, ph] at hval
  have hv : rootValue lockedExample 0 = -3 / 8 := by rw [hval]; norm_num
  rw [hv] at hrun
  have hex := (cfr_creates 2 lockedExample "" 0 1 1 _ hrun).2 rfl
  obtain ⟨node, hnode⟩ := Option.isSome_iff_exists.1 hex.2
  have hnode' : lookupKey state'.strat "h|1" = some node := hnode
  have hat : nodeAt state' "h|1" = node := nodeAt_of_lookup _ _ _ hnode'
  refine ⟨state', node, hrun, sR, sB, hnode', ?_, by rw [← hat]; exact sH, ?_⟩
  · have ht := traversals_locked "h|1" [1 / 2] lockedExample state'
      (Traversals.run 2 "" 0 1 1 _ Traversals.refl hrun) lh nh
    exact (ht.2 _ node hnode' rfl ht.1).1
  · rw [← hat, accH]
    simp [oldStrategySum, nh]

/-! ## One root traversal: value and accumulation -/

/-- A root traversal of the example state. -/
theorem cfr_regret_update_witness :
    ∃ (acts term : String) (utils : List ℚ),
      actionTable "" = Except.ok (acts, term) ∧ utils.length = acts.length ∧
      (∀ i : Nat, i < acts.length →
        (nodeAt (rootVisit exampleState 0 1 1).2 (getInfosetKey exampleState 0 "")).regrets[i]? =
          some (max ((oldRegrets exampleState (getInfosetKey exampleState 0 "")
              acts.length)[i]?.getD 0 +
            (if (0 : Fin 2) = 0 then (1 : ℚ) else 1) *
              (utils[i]?.getD 0 - (rootVisit exampleState 0 1 1).1)) 0)) ∧
      ∃ s1 n1 n2 σ0 σ1 sa vb sb vh sc,
        createNode exampleState (getInfosetKey exampleState 0 "") 0 "bh" = Except.ok s1 ∧
        regretMatching (nodeAt s1 (getInfosetKey exampleState 0 "")) = Except.ok n1 ∧
        accumulateAvgStrategy n1 1 = Except.ok n2 ∧
        sa = setNode s1 (getInfosetKey exampleState 0 "") n2 ∧
        n2.strategy[0]? = some σ0 ∧ n2.strategy[1]? = some σ1 ∧
        cfr 1 sa "b" 1 (1 * σ0) 1 = Except.ok (vb, sb) ∧
        cfr 1 sb "h" 1 (1 * σ1) 1 = Except.ok (vh, sc) ∧
        utils = [-vb, -vh] := by
  have hrun : cfr 2 exampleState "" 0 1 1 =
      Except.ok ((rootVisit exampleState 0 1 1).1, (rootVisit exampleState 0 1 1).2) :=
    (cfr_root 0 exampleState 0 1 1 _).2
      ⟨rootOk_of_wellFormed exampleState 0 wellFormed_exampleState (by decide), Prod.mk.eta⟩
  obtain ⟨acts, term, utils, h1, h2, h3, _, h5⟩ :=
    cfr_regret_update 2 exampleState "" 0 1 1 _ _ hrun
  obtain ⟨s1, n1, n2, σ0, σ1, sa, vb, sb, vh, sc, c1, c2, c3, c4, c5, c6, _, _, c7, c8, c9, _⟩ :=
    h5 rfl
  exact ⟨acts, term, utils, h1, h2, h3, s1, n1, n2, σ0, σ1, sa, vb, sb, vh, sc, c1, c2, c3, c4,
    c5, c6, c7, c8, c9⟩

/-- C3, as stated, fails when the check node is locked to an override other than
`[1]`: on `lockedExample` the traversal returns `-3/8`, while the stated formula,
which weights the check payoff by `sigma_check` alone, gives `-1/2`. -/
theorem cfr_root_value_locked_check :
    WellFormed lockedExample ∧ lockedExample.cards 0 ≠ lockedExample.cards 1 ∧
    ∃ state', cfr 2 lockedExample "" 0 1 1 = Except.ok (-3 / 8, state') ∧
      (nodeAt state' "|0").strategy = [1 / 2, 1 / 2] ∧
      (nodeAt state' "b|1").strategy = [1 / 2, 1 / 2] ∧
      showdown lockedExample 'c' 1 = Except.ok (3 / 2) ∧
      showdown lockedExample 'f' 1 = Except.ok (-(1 / 2)) ∧
      showdown lockedExample 'h' 1 = Except.ok (1 / 2) ∧
      (-3 / 8 : ℚ) ≠
        1 / 2 * (-(1 / 2 * (3 / 2) + 1 / 2 * (-(1 / 2)))) + 1 / 2 * (-(1 / 2)) := by
  obtain ⟨state', node, hrun, sR, sB, _⟩ := lockedExample_run
  refine ⟨wellFormed_lockedExample, by decide, state', hrun, sR, sB, ?_, ?_, ?_, by norm_num⟩
  · rw [showdown_eq_ok]
    refine ⟨by decide, by decide, ?_⟩
    norm_num [payoff, lockedExample, lockNode, exampleState, freshState, initState, opp,
      show ¬ ('c' = 'f') by decide, show ¬ ('c' = 'h') by decide]
  · rw [showdown_eq_ok]
    refine ⟨by decide, by decide, ?_⟩
    norm_num [payoff, lockedExample, lockNode, exampleState, freshState, initState, opp]
  · rw [showdown_eq_ok]
    refine ⟨by decide, by decide, ?_⟩
    norm_num [payoff, lockedExample, lockNode, exampleState, freshState, initState, opp,
      show ¬ ('h' = 'f') by decide]

/-- C3, amended: on a well-formed store with two different cards the root
traversal completes and returns
`sigma_bet * (-(tau_call * payoff1(call) + tau_fold * payoff1(fold))) +
 sigma_check * (-(rho * payoff1(check)))`,
with `sigma`, `tau` and `[rho]` the strategies of the nodes of the histories ``,
`b` and `h` after the traversal and `payoff1(a) = showdown(state, a, 1)`; `rho` is
`1` whenever the check node is not locked. -/
theorem cfr_root_value (fuel : Nat) (state : CfrState) (reachProb0 reachProb1 : ℚ)
    (hwf : WellFormed state) (hc : state.cards 0 ≠ state.cards 1) :
    ∃ v state' σb σh τc τf ρ pc pf ph,
      cfr (fuel + 2) state "" 0 reachProb0 reachProb1 = Except.ok (v, state') ∧
      (nodeAt state' (constructInfosetKey "" (state.cards 0))).strategy = [σb, σh] ∧
      (nodeAt state' (constructInfosetKey "b" (state.cards 1))).strategy = [τc, τf] ∧
      (nodeAt state' (constructInfosetKey "h" (state.cards 1))).strategy = [ρ] ∧
      showdown state 'c' 1 = Except.ok pc ∧ showdown state 'f' 1 = Except.ok pf ∧
      showdown state 'h' 1 = Except.ok ph ∧
      v = σb * (-(τc * pc + τf * pf)) + σh * (-(ρ * ph)) ∧
      ((nodeAt state' (constructInfosetKey "h" (state.cards 1))).locked = false → ρ = 1) := by
  obtain ⟨state', nR, nB, nH, σb, σh, τc, τf, ρ, hrun, _, _, _, _, _, _, sR, sB, sH,
    hval, hone, _⟩ := root_run fuel state reachProb0 reachProb1 hwf hc
  have hc1 : state.cards 1 ≠ state.cards (opp 1) := fun e => hc e.symm
  exact ⟨_, state', σb, σh, τc, τf, ρ, _, _, _, hrun, sR, sB, sH,
    showdown_of_mem state 1 'c' hc1 (by decide), showdown_of_mem state 1 'f' hc1 (by decide),
    showdown_of_mem state 1 'h' hc1 (by decide), hval, hone⟩

/-- The example state, where no node is locked. -/
theorem cfr_root_value_witness :
    ∃ v state' σb σh τc τf ρ pc pf ph,
      cfr 2 exampleState "" 0 1 1 = Except.ok (v, state') ∧
      (nodeAt state' (constructInfosetKey "" (exampleState.cards 0))).strategy = [σb, σh] ∧
      (nodeAt state' (constructInfosetKey "b" (exampleState.cards 1))).strategy = [τc, τf] ∧
      (nodeAt state' (constructInfosetKey "h" (exampleState.cards 1))).strategy = [ρ] ∧
      showdown exampleState 'c' 1 = Except.ok pc ∧ showdown exampleState 'f' 1 = Except.ok pf ∧
      showdown exampleState 'h' 1 = Except.ok ph ∧
      v = σb * (-(τc * pc + τf * pf)) + σh * (-(ρ * ph)) ∧
      ((nodeAt state' (constructInfosetKey "h" (exampleState.cards 1))).locked = false →
        ρ = 1) :=
  cfr_root_value 0 exampleState 1 1 wellFormed_exampleState (by decide)

/-- C4, as stated, fails when the check node is locked to an override other than
`[1]`: on `lockedExample`, where the key `h|1` has no node before the traversal,
the traversal with `r1 = 1` leaves `strategySum = [1/2]` there, an increase by
`r1 * 1/2` and not by `r1 * 1`. -/
theorem cfr_root_accumulate_locked_check :
    lookupKey lockedExample.strat "h|1" = none ∧
    ∃ state' node, cfr 2 lockedExample "" 0 1 1 = Except.ok (-3 / 8, state') ∧
      lookupKey state'.strat "h|1" = some node ∧ node.strategySum = [1 / 2] ∧
      node.strategySum ≠ [0 + 1 * 1] := by
  obtain ⟨state', node, hrun, _, _, hnode, _, _, hsum⟩ := lockedExample_run
  refine ⟨rfl, state', node, hrun, hnode, hsum, ?_⟩
  rw [hsum]
  norm_num

/-- C4, amended: in one root traversal on a well-formed store with two different
cards, each of the three visited nodes has its `strategySum` increased once, entry
by entry, by the acting player's own reach times the strategy `regretMatching`
computes on the node as it was before the visit: the root node by `r0 * sigma[i]`,
the node after the bet by `r1 * tau[i]`, and the check node by `r1 * rho`, where
`rho` is `1` whenever the check node is not locked. -/
theorem cfr_root_accumulate (fuel : Nat) (state : CfrState) (reachProb0 reachProb1 : ℚ)
    (hwf : WellFormed state) (hc : state.cards 0 ≠ state.cards 1) :
    ∃ v state' nR nB nH σb σh τc τf ρ,
      cfr (fuel + 2) state "" 0 reachProb0 reachProb1 = Except.ok (v, state') ∧
      regretMatching (entryNode state (constructInfosetKey "" (state.cards 0)) 0 "bh") =
        Except.ok nR ∧
      regretMatching (entryNode state (constructInfosetKey "b" (state.cards 1)) 1 "cf") =
        Except.ok nB ∧
      regretMatching (entryNode state (constructInfosetKey "h" (state.cards 1)) 1 "h") =
        Except.ok nH ∧
      nR.strategy = [σb, σh] ∧ nB.strategy = [τc, τf] ∧ nH.strategy = [ρ] ∧
      (nodeAt state' (constructInfosetKey "" (state.cards 0))).strategySum =
        List.zipWith (fun old x => old + reachProb0 * x)
          (oldStrategySum state (constructInfosetKey "" (state.cards 0)) 2) [σb, σh] ∧
      (nodeAt state' (constructInfosetKey "b" (state.cards 1))).strategySum =
        List.zipWith (fun old x => old + reachProb1 * x)
          (oldStrategySum state (constructInfosetKey "b" (state.cards 1)) 2) [τc, τf] ∧
      (nodeAt state' (constructInfosetKey "h" (state.cards 1))).strategySum =
        List.zipWith (fun old x => old + reachProb1 * x)
          (oldStrategySum state (constructInfosetKey "h" (state.cards 1)) 1) [ρ] ∧
      ((nodeAt state' (constructInfosetKey "h" (state.cards 1))).locked = false → ρ = 1) := by
  obtain ⟨state', nR, nB, nH, σb, σh, τc, τf, ρ, hrun, hnR, hnB, hnH, eR, eB, eH, _, _, _,
    _, hone, accR, accB, accH⟩ := root_run fuel state reachProb0 reachProb1 hwf hc
  exact ⟨_, state', nR, nB, nH, σb, σh, τc, τf, ρ, hrun, hnR, hnB, hnH, eR, eB, eH,
    accR, accB, accH, hone⟩

/-- The example state with reach probabilities `1` and `1`. -/
theorem cfr_root_accumulate_witness :
    ∃ v state' σb σh τc τf ρ,
      cfr 2 exampleState "" 0 1 1 = Except.ok (v, state') ∧
      (nodeAt state' (constructInfosetKey "" (exampleState.cards 0))).strategySum =
        List.zipWith (fun old x => old + 1 * x)
          (oldStrategySum exampleState (constructInfosetKey "" (exampleState.cards 0)) 2)
          [σb, σh] ∧
      (nodeAt state' (constructInfosetKey "b" (exampleState.cards 1))).strategySum =
        List.zipWith (fun old x => old + 1 * x)
          (oldStrategySum exampleState (constructInfosetKey "b" (exampleState.cards 1)) 2)
          [τc, τf] ∧
      (nodeAt state' (constructInfosetKey "h" (exampleState.cards 1))).strategySum =
        List.zipWith (fun old x => old + 1 * x)
          (oldStrategySum exampleState (constructInfosetKey "h" (exampleState.cards 1)) 1)
          [ρ] := by
  obtain ⟨v, state', _, _, _, σb, σh, τc, τf, ρ, hrun, _, _, _, _, _, _, accR, accB, accH, _⟩ :=
    cfr_root_accumulate 0 exampleState 1 1 wellFormed_exampleState (by decide)
  exact ⟨v, state', σb, σh, τc, τf, ρ, hrun, accR, accB, accH⟩

/-! ## Reachable states: examples -/

theorem reachable_lockedExample : Reachable lockedExample :=
  Reachable.lock "h" 1 [1 / 2]
    (Reachable.deal (fun p => if p = 0 then 0 else 1) (fun _ => 2 ^ 64 - 1) 1 1
      (Reachable.init
        { cards := fun _ => 0
          cardMask := fun _ => 0
          betSize := 0
          initialPotSize := 0
          strat := []
          lockedStrat := [] }))

/-- The state after one root traversal of `lockedExample`, and its check node. -/
theorem regrets_nonneg_witness :
    ∃ s node, Reachable s ∧ lookupKey s.strat "h|1" = some node ∧
      ∀ r ∈ node.regrets, 0 ≤ r := by
  obtain ⟨state', node, hrun, _, _, hnode, _⟩ := lockedExample_run
  have hreach : Reachable state' :=
    Reachable.run 2 "" 0 1 1 _ reachable_lockedExample hrun
  exact ⟨state', node, hreach, hnode, regrets_nonneg state' hreach "h|1" node hnode⟩

/-- C8, as stated, fails for a locked node: after `lockNode(state, "h", 1, {0.5})`
and one root traversal the store holds a locked node that `regretMatching` returns
unchanged, with a strategy that sums to `1/2`. -/
theorem strategy_normalized_locked_fails :
    ∃ s node node', Reachable s ∧ lookupKey s.strat "h|1" = some node ∧
      node.locked = true ∧ regretMatching node = Except.ok node' ∧
      node'.strategy = [1 / 2] ∧ node'.strategy.sum ≠ 1 := by
  obtain ⟨state', node, hrun, _, _, hnode, hl, hs, _⟩ := lockedExample_run
  have hreach : Reachable state' :=
    Reachable.run 2 "" 0 1 1 _ reachable_lockedExample hrun
  refine ⟨state', node, node, hreach, hnode, hl,
    (regretMatching_eq_ok _ _).2 (Or.inl ⟨hl, rfl⟩), hs, ?_⟩
  rw [hs]
  norm_num

/-- The root node after one root traversal of `lockedExample`; it is not locked. -/
theorem strategy_normalized_witness :
    ∃ s node node', Reachable s ∧ lookupKey s.strat "|0" = some node ∧
      regretMatching node = Except.ok node' ∧
      (node.locked = false →
        node'.strategy.sum = 1 ∧ ∀ x ∈ node'.strategy, 0 ≤ x ∧ x ≤ 1) := by
  obtain ⟨state', _, hrun, _⟩ := lockedExample_run
  have hreach : Reachable state' :=
    Reachable.run 2 "" 0 1 1 _ reachable_lockedExample hrun
  obtain ⟨node, hnode⟩ := Option.isSome_iff_exists.1
    (cfr_creates 2 lockedExample "" 0 1 1 _ hrun).1
  have hnode' : lookupKey state'.strat "|0" = some node := hnode
  obtain ⟨_, node', h1, h2, _⟩ := strategy_normalized state' hreach "|0" node hnode'
  exact ⟨state', node, node', hreach, hnode', h1, h2⟩

/-- The override `[1/2]` registered for the key `h|1` of the example state, and one
root traversal. -/
theorem locked_invariance_witness :
    ∃ state', cfr 2 (lockNode exampleState "h" 1 [1 / 2]) "" 0 1 1 =
        Except.ok (-3 / 8, state') ∧
      ∀ node, lookupKey state'.strat (constructInfosetKey "h" 1) = some node →
        node.locked = true ∧ node.strategy = [1 / 2] := by
  obtain ⟨state', _, hrun, _⟩ := lockedExample_run
  exact ⟨state', hrun,
    (locked_invariance exampleState "h" 1 [1 / 2] rfl state'
      (Traversals.run 2 "" 0 1 1 _ Traversals.refl hrun)).1⟩

/-! ## Zero-sum payoffs -/

/-- C6, as stated, fails for a fold: `showdown` gives the folding player's payoff
whichever player is passed, so both values are minus half the pot. -/
theorem showdown_fold_not_zero_sum :
    showdown exampleState 'f' 0 = Except.ok (-(1 / 2)) ∧
    showdown exampleState 'f' 1 = Except.ok (-(1 / 2)) ∧
    (-(1 / 2) : ℚ) + -(1 / 2) ≠ 0 := by
  refine ⟨?_, ?_, by norm_num⟩
  · simp [showdown, exampleState, freshState, initState, opp]
  · simp [showdown, exampleState, freshState, initState, opp]

/-- C6, amended: when the two private cards differ, the values `showdown` gives the
two players are exact negations of each other (they add up to zero) for a call and
for a check showdown; for a fold both values are minus half the pot, so they add up
to minus the pot. -/
theorem showdown_zero_sum (state : CfrState) (h : state.cards 0 ≠ state.cards 1) :
    (∀ action, action = 'c' ∨ action = 'h' →
      ∃ u0 u1, showdown state action 0 = Except.ok u0 ∧
        showdown state action 1 = Except.ok u1 ∧ u0 + u1 = 0) ∧
    (∃ u0 u1, showdown state 'f' 0 = Except.ok u0 ∧ showdown state 'f' 1 = Except.ok u1 ∧
      u0 = -(state.initialPotSize / 2) ∧ u1 = -(state.initialPotSize / 2) ∧
      u0 + u1 = -state.initialPotSize) := by
  have h0 : state.cards 0 ≠ state.cards (opp 0) := h
  have h1 : state.cards 1 ≠ state.cards (opp 1) := fun e => h e.symm
  have hf : ¬ ('h' = 'f') := by decide
  have hc1 : ¬ ('c' = 'f') := by decide
  have hc2 : ¬ ('c' = 'h') := by decide
  constructor
  · rintro action (rfl | rfl)
    · refine ⟨_, _, showdown_of_mem state 0 'c' h0 (by decide),
        showdown_of_mem state 1 'c' h1 (by decide), ?_⟩
      simp only [payoff, hc1, hc2, if_false, opp_zero, opp_one]
      rcases lt_or_gt_of_ne h with hlt | hgt
      · rw [if_neg (not_lt.2 (le_of_lt hlt)), if_pos hlt]; ring
      · rw [if_pos hgt, if_neg (not_lt.2 (le_of_lt hgt))]; ring
    · refine ⟨_, _, showdown_of_mem state 0 'h' h0 (by decide),
        showdown_of_mem state 1 'h' h1 (by decide), ?_⟩
      simp only [payoff, hf, if_false, if_true, opp_zero, opp_one]
      rcases lt_or_gt_of_ne h with hlt | hgt
      · rw [if_neg (not_lt.2 (le_of_lt hlt)), if_pos hlt]; ring
      · rw [if_pos hgt, if_neg (not_lt.2 (le_of_lt hgt))]; ring
  · refine ⟨_, _, showdown_of_mem state 0 'f' h0 (by decide),
      showdown_of_mem state 1 'f' h1 (by decide), ?_, ?_, ?_⟩ <;>
      simp only [payoff, if_true] <;> ring

/-- The example state: a call is worth `-3/2` to player 0 and `3/2` to player 1. -/
theorem showdown_zero_sum_witness :
    ∃ u0 u1, showdown exampleState 'c' 0 = Except.ok u0 ∧
      showdown exampleState 'c' 1 = Except.ok u1 ∧ u0 + u1 = 0 :=
  (showdown_zero_sum exampleState (by decide)).1 'c' (Or.inl rfl)

/-! ## Finalising the average twice -/

/-- C11: applying `regretMatchingAvgStrategy` twice in a row is the same as applying
it once, on every node: when the first application completes with a node, the
second returns exactly that node (every field, `avgStrategy` included), and when
the first application fails, so does the sequence, with the same error. -/
theorem regretMatchingAvgStrategy_idempotent (node : StrategyNode) :
    (regretMatchingAvgStrategy node >>= regretMatchingAvgStrategy) =
        regretMatchingAvgStrategy node ∧
    ∀ node', regretMatchingAvgStrategy node = Except.ok node' →
      regretMatchingAvgStrategy node' = Except.ok node' := by
  have main : ∀ node', regretMatchingAvgStrategy node = Except.ok node' →
      regretMatchingAvgStrategy node' = Except.ok node' := by
    intro node' h
    obtain ⟨h1, h2, rfl⟩ := (regretMatchingAvgStrategy_eq_ok node node').1 h
    have ht := avgTarget_length node h1
    rw [regretMatchingAvgStrategy_eq_ok]
    refine ⟨h1, ?_, ?_⟩
    · show node.regrets.length ≤ (overwrite (avgTarget node) node.avgStrategy).length
      rw [overwrite_length _ _ (by omega)]; exact h2
    · have ho := overwrite_overwrite (avgTarget node) (avgTarget node) node.avgStrategy rfl
      have ha : ∀ l, avgTarget { node with avgStrategy := l } = avgTarget node :=
        fun _ => rfl
      simp only [ha, ho]
  refine ⟨?_, main⟩
  cases h : regretMatchingAvgStrategy node with
  | error e => rfl
  | ok node' => rw [ok_bind]; exact main node' h

theorem regretMatchingAvgStrategy_idempotent_witness :
    ∃ node', regretMatchingAvgStrategy avgExample = Except.ok node' ∧
      node'.avgStrategy = [1 / 4, 3 / 4] ∧
      regretMatchingAvgStrategy node' = Except.ok node' := by
  obtain ⟨node', h⟩ : ∃ node', regretMatchingAvgStrategy avgExample = Except.ok node' :=
    ⟨_, (regretMatchingAvgStrategy_eq_ok _ _).2
      ⟨by simp [avgExample], by simp [avgExample], rfl⟩⟩
  refine ⟨node', h, ?_, (regretMatchingAvgStrategy_idempotent avgExample).2 node' h⟩
  obtain ⟨_, _, rfl⟩ := (regretMatchingAvgStrategy_eq_ok _ _).1 h
  simp only [avgExample, avgTarget, overwrite]
  norm_num

/-! ## Overrides of the wrong length -/

theorem visitOk_freshNode_locked (state : CfrState) (key : String) (player : Fin 2)
    (acts : String) (s : List ℚ) (h : lookupKey state.lockedStrat key = some s) (n : Nat) :
    VisitOk (freshNode state key player acts) n ↔ acts.length ≤ s.length ∧ n ≤ acts.length := by
  simp only [VisitOk, freshNode, h, List.length_replicate]
  constructor
  · rintro ⟨h1, _, _, h4⟩; exact ⟨h1, h4⟩
  · rintro ⟨h1, h4⟩; exact ⟨h1, le_refl _, by omega, h4⟩

theorem visitOk_freshNode_unlocked (state : CfrState) (key : String) (player : Fin 2)
    (acts : String) (h : lookupKey state.lockedStrat key = none) (n : Nat) :
    VisitOk (freshNode state key player acts) n ↔ n ≤ acts.length := by
  simp only [VisitOk, freshNode, h, List.length_replicate]
  constructor
  · rintro ⟨_, _, _, h4⟩; exact h4
  · intro h4; exact ⟨le_refl _, le_refl _, h4, h4⟩

/-- The node a completed call leaves under its own key keeps the `locked` flag of
the node the call started from, and holds the matched strategy. -/
theorem cfr_own_node (fuel : Nat) (state : CfrState) (hist : String) (player : Fin 2)
    (reachProb0 reachProb1 : ℚ) (r : ℚ × CfrState)
    (hrun : cfr fuel state hist player reachProb0 reachProb1 = Except.ok r) :
    ∃ acts term, actionTable hist = Except.ok (acts, term) ∧
      (nodeAt r.2 (getInfosetKey state player hist)).locked =
        (entryNode state (getInfosetKey state player hist) player acts).locked ∧
      (nodeAt r.2 (getInfosetKey state player hist)).strategy =
        (afterMatching (entryNode state (getInfosetKey state player hist) player acts)).strategy := by
  rcases (cfr_eq_ok _ _ _ _ _ _ _).1 hrun with ⟨acts, term, _, _, htbl, _, _, rfl⟩ | ⟨_, rfl, _, rfl⟩
  · refine ⟨acts, term, htbl, ?_, ?_⟩
    · rw [nodeAt_leafVisit, afterRegrets_locked, afterVisit_locked]
    · rw [nodeAt_leafVisit, afterRegrets_strategy, afterVisit_strategy]
  · refine ⟨"bh", "00", rfl, ?_, ?_⟩
    · rw [(rootVisit_nodes state player reachProb0 reachProb1).2.1, afterRegrets_locked,
        afterVisit_locked]
    · rw [(rootVisit_nodes state player reachProb0 reachProb1).2.1, afterRegrets_strategy,
        afterVisit_strategy]

/-- C13, as claimed, fails: the override `[1/3, 1/3, 1/3]` registered for the root
infoset of card `0` has three entries while the empty history has two actions, the
key has no node yet, and still the root traversal completes; the node it creates
is locked and holds the whole override as its strategy. -/
theorem cfr_accepts_long_override :
    lookupKey longLockExample.strat (getInfosetKey longLockExample 0 "") = none ∧
    lookupKey longLockExample.lockedStrat (getInfosetKey longLockExample 0 "") =
      some [1 / 3, 1 / 3, 1 / 3] ∧
    actionTable "" = Except.ok ("bh", "00") ∧
    ([1 / 3, 1 / 3, 1 / 3] : List ℚ).length ≠ "bh".length ∧
    ∃ r, cfr 2 longLockExample "" 0 1 1 = Except.ok r ∧
      (nodeAt r.2 (getInfosetKey longLockExample 0 "")).locked = true ∧
      (nodeAt r.2 (getInfosetKey longLockExample 0 "")).strategy = [1 / 3, 1 / 3, 1 / 3] := by
  have k0 : getInfosetKey longLockExample 0 "" = "|0" := by decide
  have kb : getInfosetKey longLockExample (opp 0) "b" = "b|1" := by decide
  have kh : getInfosetKey longLockExample (opp 0) "h" = "h|1" := by decide
  have n0 : lookupKey longLockExample.strat "|0" = none := rfl
  have nb : lookupKey longLockExample.strat "b|1" = none := rfl
  have nh : lookupKey longLockExample.strat "h|1" = none := rfl
  have l0 : lookupKey longLockExample.lockedStrat "|0" = some [1 / 3, 1 / 3, 1 / 3] := by
    simp [longLockExample, lockNode, exampleState, freshState, initState, assignKey, lookupKey]
    decide
  have lb : lookupKey longLockExample.lockedStrat "b|1" = none := by decide
  have lh : lookupKey longLockExample.lockedStrat "h|1" = none := by decide
  have l2 : "bh".length = 2 := by decide
  have l3 : "cf".length = 2 := by decide
  have l4 : "h".length = 1 := by decide
  have hok : RootOk longLockExample 0 := by
    refine ⟨by decide, ?_, ?_, ?_⟩
    · rw [k0, entryNode_of_none _ _ _ _ n0, visitOk_freshNode_locked _ _ _ _ _ l0, l2]
      exact ⟨by simp, le_refl _⟩
    · rw [kb, entryNode_of_none _ _ _ _ nb, visitOk_freshNode_unlocked _ _ _ _ lb, l3]
    · rw [kh, entryNode_of_none _ _ _ _ nh, visitOk_freshNode_unlocked _ _ _ _ lh, l4]
  have hrun := (cfr_root 0 longLockExample 0 1 1 _).2 ⟨hok, rfl⟩
  obtain ⟨acts, term, _, hl, hs⟩ := cfr_own_node _ _ _ _ _ _ _ hrun
  rw [k0] at hl hs ⊢
  rw [entryNode_of_none _ _ _ _ n0] at hl hs
  rw [(afterMatching_freshNode_locked _ _ _ _ _ l0).1,
    (afterMatching_freshNode_locked _ _ _ _ _ l0).2.1] at hs
  rw [(afterMatching_freshNode_locked _ _ _ _ _ l0).2.2] at hl
  exact ⟨n0, l0, rfl, by simp [l2], _, hrun, hl, hs⟩

/-- C13, amended: the length of an override is not checked. Let the key of a call
have no node yet and an override `s` registered that has at least as many entries
as the history has actions (more entries included). Then the override is not
rejected: at a non-empty history the call completes whenever the two cards differ,
at the empty history it completes whenever the cards differ and the two nodes below
can be visited, and the node it leaves under the key is locked with the whole of
`s` as its strategy. -/
theorem override_length_unchecked (state : CfrState) (hist : String) (player : Fin 2)
    (acts term : String) (s : List ℚ)
    (htbl : actionTable hist = Except.ok (acts, term))
    (hnone : lookupKey state.strat (getInfosetKey state player hist) = none)
    (hs : lookupKey state.lockedStrat (getInfosetKey state player hist) = some s)
    (hle : acts.length ≤ s.length)
    (hc : state.cards player ≠ state.cards (opp player))
    (hch : hist = "" →
      VisitOk (entryNode state (getInfosetKey state (opp player) "b") (opp player) "cf") 2 ∧
      VisitOk (entryNode state (getInfosetKey state (opp player) "h") (opp player) "h") 1)
    (fuel : Nat) (reachProb0 reachProb1 : ℚ) :
    ∃ r, cfr (fuel + 2) state hist player reachProb0 reachProb1 = Except.ok r ∧
      (nodeAt r.2 (getInfosetKey state player hist)).locked = true ∧
      (nodeAt r.2 (getInfosetKey state player hist)).strategy = s := by
  have hentry := entryNode_of_none state _ player acts hnone
  have hvis : ∀ n, VisitOk (entryNode state (getInfosetKey state player hist) player acts) n ↔
      acts.length ≤ s.length ∧ n ≤ acts.length := by
    intro n; rw [hentry]; exact visitOk_freshNode_locked _ _ _ _ _ hs n
  have hrun : ∃ r, cfr (fuel + 2) state hist player reachProb0 reachProb1 = Except.ok r := by
    by_cases he : hist.data = []
    · have he' := data_eq_nil hist he
      subst he'
      obtain ⟨rfl, rfl⟩ := Prod.mk.inj (Except.ok.inj htbl)
      obtain ⟨hb, hh⟩ := hch rfl
      exact ⟨_, (cfr_root fuel state player reachProb0 reachProb1 _).2
        ⟨⟨hc, (hvis 2).2 ⟨hle, le_refl _⟩, hb, hh⟩, rfl⟩⟩
    · exact ⟨_, (cfr_leaf (fuel + 1) state hist player reachProb0 reachProb1 acts term htbl he
        _).2 ⟨hc, (hvis _).2 ⟨hle, le_refl _⟩, rfl⟩⟩
  obtain ⟨r, hrun⟩ := hrun
  obtain ⟨acts', term', htbl', hl, hst⟩ := cfr_own_node _ _ _ _ _ _ _ hrun
  rw [htbl] at htbl'
  obtain ⟨rfl, rfl⟩ := Prod.mk.inj (Except.ok.inj htbl')
  rw [hentry] at hl hst
  rw [(afterMatching_freshNode_locked _ _ _ _ _ hs).1,
    (afterMatching_freshNode_locked _ _ _ _ _ hs).2.1] at hst
  rw [(afterMatching_freshNode_locked _ _ _ _ _ hs).2.2] at hl
  exact ⟨r, hrun, hl, hst⟩

/-- An override longer than the action list at the empty history, and an override
of the length of the action list at the history `h`. -/
theorem override_length_unchecked_witness :
    (∃ r, cfr 2 longLockExample "" 0 1 1 = Except.ok r ∧
      (nodeAt r.2 (getInfosetKey longLockExample 0 "")).locked = true ∧
      (nodeAt r.2 (getInfosetKey longLockExample 0 "")).strategy = [1 / 3, 1 / 3, 1 / 3]) ∧
    (∃ r, cfr 2 lockedExample "h" 1 1 1 = Except.ok r ∧
      (nodeAt r.2 (getInfosetKey lockedExample 1 "h")).locked = true ∧
      (nodeAt r.2 (getInfosetKey lockedExample 1 "h")).strategy = [1 / 2]) := by
  have ll : lookupKey longLockExample.lockedStrat (getInfosetKey longLockExample 0 "") =
      some [1 / 3, 1 / 3, 1 / 3] := by
    simp [longLockExample, lockNode, exampleState, freshState, initState, assignKey, lookupKey,
      getInfosetKey]
  have lk : lookupKey lockedExample.lockedStrat (getInfosetKey lockedExample 1 "h") =
      some [1 / 2] := by
    simp [lockedExample, lockNode, exampleState, freshState, initState, assignKey, lookupKey,
      getInfosetKey]
  have kb : getInfosetKey longLockExample (opp 0) "b" = "b|1" := by decide
  have kh : getInfosetKey longLockExample (opp 0) "h" = "h|1" := by decide
  have nb : lookupKey longLockExample.strat "b|1" = none := rfl
  have nh : lookupKey longLockExample.strat "h|1" = none := rfl
  have lb : lookupKey longLockExample.lockedStrat "b|1" = none := by decide
  have lh : lookupKey longLockExample.lockedStrat "h|1" = none := by decide
  refine ⟨override_length_unchecked longLockExample "" 0 "bh" "00" [1 / 3, 1 / 3, 1 / 3] rfl rfl
      ll (by decide) (by decide) (fun _ => ⟨?_, ?_⟩) 0 1 1,
    override_length_unchecked lockedExample "h" 1 "h" "1" [1 / 2] rfl rfl lk (by decide)
      (by decide) (fun h => absurd h (by decide)) 0 1 1⟩
  · rw [kb, entryNode_of_none _ _ _ _ nb, visitOk_freshNode_unlocked _ _ _ _ lb]; decide
  · rw [kh, entryNode_of_none _ _ _ _ nh, visitOk_freshNode_unlocked _ _ _ _ lh]; decide

/-! ## Failing calls -/

theorem forIdx_error_first {σ : Type} (n : Nat) (body : Nat → σ → Except Err σ) (init : σ)
    (e : Err) (hn : 0 < n) (h : body 0 init = Except.error e) :
    forIdx n body init = Except.error e := by
  induction n with
  | zero => omega
  | succ k ih =>
    rw [forIdx_succ]
    rcases Nat.eq_zero_or_pos k with rfl | hk
    · rw [forIdx_zero, ok_bind]; exact h
    · rw [ih hk]; rfl

/-- Lines 194-195 when the lengths suffice: the rest of the visit runs on the node
`afterVisit`. -/
theorem visit_bind_run {α : Type} (node : StrategyNode) (weight : ℚ)
    (f : StrategyNode → Except Err α)
    (h1 : node.regrets.length ≤ node.strategy.length)
    (h2 : node.regrets.length ≤ node.strategySum.length) :
    (regretMatching node >>= fun n1 => accumulateAvgStrategy n1 weight >>= f) =
      f (afterVisit node weight) := by
  have e1 := regretMatching_afterMatching node h1
  have e2 : accumulateAvgStrategy (afterMatching node) weight =
      Except.ok (afterVisit node weight) := by
    have := (visit_eq_ok node _ weight).2 ⟨h1, h2, rfl⟩
    rw [e1, ok_bind] at this
    exact this
  rw [e1, ok_bind, e2, ok_bind]

theorem showdown_equal_cards (state : CfrState) (action : Char) (player : Fin 2)
    (hc : state.cards player = state.cards (opp player)) :
    showdown state action player = Except.error Err.assertFail := by
  unfold showdown
  rw [if_pos hc]

theorem actionStep_terminal_equal_cards
    (recur : CfrState → String → Fin 2 → ℚ → ℚ → Except Err (ℚ × CfrState))
    (hist : String) (player : Fin 2) (reachProb0 reachProb1 : ℚ)
    (acts term key : String) (i : Nat) (a : Char)
    (hact : charAt acts i = Except.ok a) (hterm : charAt term i = Except.ok '1')
    (s : CfrState × List ℚ × ℚ) (hc : s.1.cards player = s.1.cards (opp player)) :
    actionStep recur hist player reachProb0 reachProb1 acts term key i s =
      Except.error Err.assertFail := by
  simp only [actionStep, hact, hterm, ok_bind, if_true, showdown_equal_cards _ _ _ hc,
    error_bind]

/-- A visit at a non-empty history with two equal cards fails in `showdown`, at the
first action, when the node has the lengths the visit needs. -/
theorem cfrBody_leaf_equal_cards
    (recur : CfrState → String → Fin 2 → ℚ → ℚ → Except Err (ℚ × CfrState))
    (state : CfrState) (hist : String) (player : Fin 2) (reachProb0 reachProb1 : ℚ)
    (acts term : String) (htbl : actionTable hist = Except.ok (acts, term))
    (hne : hist.data ≠ [])
    (hv : VisitOk (entryNode state (getInfosetKey state player hist) player acts) acts.length)
    (hc : state.cards player = state.cards (opp player)) :
    cfrBody recur state hist player reachProb0 reachProb1 = Except.error Err.assertFail := by
  have main : ∀ a : Char, 0 < acts.length → charAt acts 0 = Except.ok a →
      charAt term 0 = Except.ok '1' →
      cfrBody recur state hist player reachProb0 reachProb1 = Except.error Err.assertFail := by
    intro a hlen ha ht
    unfold cfrBody
    simp only [htbl, ok_bind, Nat.ne_of_gt hlen, if_false, createNode_eq _ _ _ _ hlen,
      nodeAt_created, setNode_created]
    rw [visit_bind_run _ _ _ hv.1 hv.2.1]
    rw [forIdx_error_first _ _ _ Err.assertFail hlen
      (actionStep_terminal_equal_cards recur hist player reachProb0 reachProb1 acts term _ 0 a
        ha ht _ hc)]
    rfl
  rcases (actionTable_eq_ok hist (acts, term)).1 htbl with ⟨h, _⟩ | ⟨_, _, h⟩ | ⟨_, _, h⟩
  · exact absurd h hne
  · obtain ⟨rfl, rfl⟩ := Prod.mk.inj h
    exact main 'c' (by decide) rfl rfl
  · obtain ⟨rfl, rfl⟩ := Prod.mk.inj h
    exact main 'h' (by decide) rfl rfl

theorem actionStep_recur_error
    (recur : CfrState → String → Fin 2 → ℚ → ℚ → Except Err (ℚ × CfrState))
    (hist : String) (player : Fin 2) (reachProb0 reachProb1 : ℚ)
    (acts term key : String) (i : Nat) (a : Char)
    (hact : charAt acts i = Except.ok a) (hterm : charAt term i = Except.ok '0')
    (s : CfrState × List ℚ × ℚ) (q : ℚ) (hq : (nodeAt s.1 key).strategy[i]? = some q) (e : Err)
    (hrec : recur s.1 (hist.push a) (opp player)
      (if player = 0 then reachProb0 * q else reachProb0)
      (if player = 0 then reachProb1 else reachProb1 * q) = Except.error e) :
    actionStep recur hist player reachProb0 reachProb1 acts term key i s = Except.error e := by
  have h01 : ¬ ('0' = '1') := by decide
  simp only [actionStep, hact, hterm, ok_bind, h01, if_false, vget, hq, hrec, error_bind]

/-- The traversal at the empty history with two equal cards fails in `showdown`,
at the call for the history `b`, when the root node and the node after the bet
have the lengths their visits need. -/
theorem cfr_root_equal_cards (fuel : Nat) (state : CfrState) (player : Fin 2)
    (reachProb0 reachProb1 : ℚ)
    (hR : VisitOk (entryNode state (getInfosetKey state player "") player "bh") 2)
    (hB : VisitOk (entryNode state (getInfosetKey state (opp player) "b") (opp player) "cf") 2)
    (hc : state.cards player = state.cards (opp player)) :
    cfr (fuel + 2) state "" player reachProb0 reachProb1 = Except.error Err.assertFail := by
  show cfrBody (cfr (fuel + 1)) state "" player reachProb0 reachProb1 = _
  have htbl : actionTable "" = Except.ok ("bh", "00") := rfl
  have hlen : 0 < "bh".length := by decide
  have k1 : ∀ t1 t2 : CfrState, getInfosetKey t1 player "" ≠ getInfosetKey t2 (opp player) "b" :=
    fun _ _ => key_root_ne_b _ _
  unfold cfrBody
  simp only [htbl, ok_bind, Nat.ne_of_gt hlen, if_false, createNode_eq _ _ _ _ hlen,
    nodeAt_created, setNode_created]
  rw [visit_bind_run _ _ _ hR.1 hR.2.1]
  obtain ⟨nd, hnd⟩ : ∃ nd, nd = afterVisit
    (entryNode state (getInfosetKey state player "") player "bh")
    (if player = 0 then reachProb0 else reachProb1) := ⟨_, rfl⟩
  rw [← hnd]
  have hl : 0 < nd.strategy.length := by
    rw [hnd, afterVisit_strategy, afterMatching_strategy_length _ hR.1]
    have := hR.2.2.1
    omega
  have hq : (nodeAt (setNode state (getInfosetKey state player "") nd, List.replicate "bh".length
      (0 : ℚ), (0 : ℚ)).1 (getInfosetKey state player "")).strategy[0]? =
      some nd.strategy[0] := by
    show (nodeAt (setNode state (getInfosetKey state player "") nd)
      (getInfosetKey state player "")).strategy[0]? = _
    rw [nodeAt_setNode]
    exact List.getElem?_eq_getElem hl
  rw [forIdx_error_first _ _ _ Err.assertFail hlen
    (actionStep_recur_error (cfr (fuel + 1)) "" player reachProb0 reachProb1 "bh" "00" _ 0 'b'
      rfl rfl _ _ hq Err.assertFail ?_)]
  · rfl
  · show cfrBody (cfr fuel) (setNode state (getInfosetKey state player "") nd) "b" (opp player)
      _ _ = _
    refine cfrBody_leaf_equal_cards _ _ "b" (opp player) _ _ "cf" "11" rfl (by decide) ?_ ?_
    · rw [getInfosetKey_setNode, entryNode_setNode_ne _ _ _ _ _ _ (k1 state state)]
      exact hB
    · rw [setNode_cards, opp_opp]
      exact hc.symm

theorem visitOk_of_wellFormed (state : CfrState) (h : WellFormed state) (hist : String)
    (player player' : Fin 2) (acts term : String)
    (htbl : actionTable hist = Except.ok (acts, term)) :
    VisitOk (entryNode state (getInfosetKey state player hist) player' acts) acts.length := by
  obtain ⟨_, r1, s1, t1⟩ := wellFormed_entryNode state h hist (state.cards player) player'
    acts term htbl
  unfold VisitOk getInfosetKey
  omega

theorem wellFormed_freshState : WellFormed freshState := by
  constructor
  · intro hist card acts term node _ hl
    simp [freshState, initState, lookupKey] at hl
  · intro hist card acts term s _ hl
    simp [freshState, initState, lookupKey] at hl

/-! ## Histories outside the action table -/

theorem actionTable_unknown (hist : String) (hne : hist.data ≠ [])
    (hb : hist.data.getLast? ≠ some 'b') (hh : hist.data.getLast? ≠ some 'h') :
    actionTable hist = Except.error Err.assertFail := by
  unfold actionTable
  rw [if_neg hne, if_neg hb, if_neg hh]

/-- C15: for a non-empty history whose last symbol is neither `b` nor `h` (so also
for one ending in `c` or `f`), `cfr` fails with the assertion of the action table,
for every state, player and reach probabilities; for the empty history and for a
history ending in `b` or `h` the action table is defined, so this assertion does
not fire. -/
theorem cfr_unknown_history (hist : String) :
    (hist.data ≠ [] → hist.data.getLast? ≠ some 'b' → hist.data.getLast? ≠ some 'h' →
      ∀ (fuel : Nat) (state : CfrState) (player : Fin 2) (reachProb0 reachProb1 : ℚ),
        cfr (fuel + 1) state hist player reachProb0 reachProb1 =
          Except.error Err.assertFail) ∧
    (hist.data = [] ∨ hist.data.getLast? = some 'b' ∨ hist.data.getLast? = some 'h' →
      ∃ tbl, actionTable hist = Except.ok tbl) := by
  constructor
  · intro hne hb hh fuel state player reachProb0 reachProb1
    show cfrBody (cfr fuel) state hist player reachProb0 reachProb1 = _
    unfold cfrBody
    rw [actionTable_unknown hist hne hb hh]
    rfl
  · intro h
    unfold actionTable
    by_cases h1 : hist.data = []
    · exact ⟨_, if_pos h1⟩
    · rcases h with h | h | h
      · exact absurd h h1
      · rw [if_neg h1, if_pos h]; exact ⟨_, rfl⟩
      · by_cases h2 : hist.data.getLast? = some 'b'
        · rw [if_neg h1, if_pos h2]; exact ⟨_, rfl⟩
        · rw [if_neg h1, if_neg h2, if_pos h]; exact ⟨_, rfl⟩

theorem cfr_unknown_history_witness :
    cfr 1 exampleState "bc" 1 1 1 = Except.error Err.assertFail ∧
    cfr 1 exampleState "bf" 1 1 1 = Except.error Err.assertFail ∧
    (∃ tbl, actionTable "" = Except.ok tbl) ∧ (∃ tbl, actionTable "hb" = Except.ok tbl) ∧
    (∃ tbl, actionTable "bh" = Except.ok tbl) :=
  ⟨(cfr_unknown_history "bc").1 (by decide) (by decide) (by decide) 0 exampleState 1 1 1,
    (cfr_unknown_history "bf").1 (by decide) (by decide) (by decide) 0 exampleState 1 1 1,
    (cfr_unknown_history "").2 (Or.inl rfl),
    (cfr_unknown_history "hb").2 (Or.inr (Or.inl (by decide))),
    (cfr_unknown_history "bh").2 (Or.inr (Or.inr (by decide)))⟩

/-! ## The frame of a traversal -/

theorem leafVisit_lookup_ne (state : CfrState) (hist : String) (player : Fin 2)
    (reachProb0 reachProb1 : ℚ) (acts : String) (key : String)
    (h : getInfosetKey state player hist ≠ key) :
    lookupKey (leafVisit state hist player reachProb0 reachProb1 acts).2.strat key =
      lookupKey state.strat key :=
  lookupKey_setNode_ne _ _ _ _ h

/-- The store after a root traversal agrees with the store before at every key
other than the three keys of the visited nodes. -/
theorem rootVisit_lookup_ne (state : CfrState) (player : Fin 2) (reachProb0 reachProb1 : ℚ)
    (key : String) (hR : getInfosetKey state player "" ≠ key)
    (hB : getInfosetKey state (opp player) "b" ≠ key)
    (hH : getInfosetKey state (opp player) "h" ≠ key) :
    lookupKey (rootVisit state player reachProb0 reachProb1).2.strat key =
      lookupKey state.strat key := by
  show lookupKey (setNode (leafVisit (leafVisit (setNode state _ _) "b" (opp player) _ _ "cf").2
    "h" (opp player) _ _ "h").2 (getInfosetKey state player "") _).strat key = _
  refine Eq.trans (lookupKey_setNode_ne _ _ _ _ hR) ?_
  refine Eq.trans (leafVisit_lookup_ne _ _ _ _ _ _ _ ?_) ?_
  · exact hH
  refine Eq.trans (leafVisit_lookup_ne _ _ _ _ _ _ _ ?_) ?_
  · exact hB
  exact lookupKey_setNode_ne _ _ _ _ hR

/-- C18: a completed root traversal `cfr(state, "", 0, r0, r1)` with the cards `c0`
and `c1` changes at most the nodes under the keys of `("", c0)`, `("b", c1)` and
`("h", c1)`: every other key holds what it held before, no key that had a node
loses it, and the cards, the card masks, the bet size, the pot size and the
override table are unchanged. -/
theorem cfr_root_frame (fuel : Nat) (state : CfrState) (reachProb0 reachProb1 v : ℚ)
    (state' : CfrState)
    (hrun : cfr fuel state "" 0 reachProb0 reachProb1 = Except.ok (v, state')) :
    (∀ key, key ≠ constructInfosetKey "" (state.cards 0) →
      key ≠ constructInfosetKey "b" (state.cards 1) →
      key ≠ constructInfosetKey "h" (state.cards 1) →
      lookupKey state'.strat key = lookupKey state.strat key) ∧
    (∀ key, (lookupKey state.strat key).isSome = true →
      (lookupKey state'.strat key).isSome = true) ∧
    state'.cards = state.cards ∧ state'.cardMask = state.cardMask ∧
    state'.betSize = state.betSize ∧ state'.initialPotSize = state.initialPotSize ∧
    state'.lockedStrat = state.lockedStrat := by
  have hframe : ∀ key, key ≠ constructInfosetKey "" (state.cards 0) →
      key ≠ constructInfosetKey "b" (state.cards 1) →
      key ≠ constructInfosetKey "h" (state.cards 1) →
      lookupKey state'.strat key = lookupKey state.strat key := by
    intro key hR hB hH
    rcases (cfr_eq_ok _ _ _ _ _ _ _).1 hrun with ⟨_, _, _, hne, _⟩ | ⟨_, _, _, hr⟩
    · exact absurd rfl hne
    · have h2 := congrArg Prod.snd hr
      simp only at h2
      rw [h2]
      exact rootVisit_lookup_ne state 0 reachProb0 reachProb1 key (Ne.symm hR) (Ne.symm hB)
        (Ne.symm hH)
  obtain ⟨hcR, hcBH⟩ := cfr_creates _ _ _ _ _ _ _ hrun
  obtain ⟨hcB, hcH⟩ := hcBH rfl
  refine ⟨hframe, ?_, ?_⟩
  · intro key hk
    by_cases hR : key = constructInfosetKey "" (state.cards 0)
    · rw [hR]; exact hcR
    · by_cases hB : key = constructInfosetKey "b" (state.cards 1)
      · rw [hB]; exact hcB
      · by_cases hH : key = constructInfosetKey "h" (state.cards 1)
        · rw [hH]; exact hcH
        · rw [hframe key hR hB hH]; exact hk
  · rcases (cfr_eq_ok _ _ _ _ _ _ _).1 hrun with ⟨_, _, _, hne, _⟩ | ⟨_, _, _, hr⟩
    · exact absurd rfl hne
    · have h2 := congrArg Prod.snd hr
      simp only at h2
      rw [h2]
      exact ⟨rfl, rfl, rfl, rfl, rfl⟩

theorem cfr_root_frame_witness :
    ∃ v state', cfr 2 exampleState "" 0 1 1 = Except.ok (v, state') ∧
      lookupKey state'.strat "b|0" = lookupKey exampleState.strat "b|0" ∧
      state'.cards = exampleState.cards ∧
      state'.lockedStrat = exampleState.lockedStrat := by
  obtain ⟨r, hr⟩ : ∃ r, cfr 2 exampleState "" 0 1 1 = Except.ok r :=
    ⟨_, (cfr_root 0 exampleState 0 1 1 _).2
      ⟨rootOk_of_wellFormed exampleState 0 wellFormed_exampleState (by decide), rfl⟩⟩
  have h := cfr_root_frame 2 exampleState 1 1 r.1 r.2 hr
  exact ⟨r.1, r.2, hr, h.1 "b|0" (by decide) (by decide) (by decide), h.2.2.1,
    h.2.2.2.2.2.2⟩

/-! ## Keys are injective -/

theorem digitValue_digitChar (d : Nat) (h : d < 10) : digitValue (Nat.digitChar d) = d := by
  interval_cases d <;> rfl

theorem isDigit_digitChar (d : Nat) (h : d < 10) : (Nat.digitChar d).isDigit = true := by
  interval_cases d <;> rfl

theorem toDigitsCore_value (fuel : Nat) : ∀ (n : Nat) (ds : List Char), n < fuel →
    (Nat.toDigitsCore 10 fuel n ds).foldl (fun acc c => acc * 10 + digitValue c) 0 =
      ds.foldl (fun acc c => acc * 10 + digitValue c) n := by
  induction fuel with
  | zero => intro n ds h; omega
  | succ fuel ih =>
    intro n ds h
    unfold Nat.toDigitsCore
    have hd : digitValue (Nat.digitChar (n % 10)) = n % 10 :=
      digitValue_digitChar _ (Nat.mod_lt _ (by decide))
    by_cases h0 : n / 10 = 0
    · simp only [h0, if_true, List.foldl_cons, hd]
      congr 1
      omega
    · simp only [h0, if_false]
      rw [ih (n / 10) _ (by omega), List.foldl_cons, hd]
      congr 1
      omega

theorem digitsValue_toDigits (n : Nat) : digitsValue (Nat.toDigits 10 n) = n := by
  unfold digitsValue Nat.toDigits
  rw [toDigitsCore_value (n + 1) n [] (by omega)]
  rfl

theorem toDigits_injective (a b : Nat) (h : Nat.toDigits 10 a = Nat.toDigits 10 b) : a = b := by
  rw [← digitsValue_toDigits a, ← digitsValue_toDigits b, h]

theorem toDigitsCore_isDigit (fuel : Nat) : ∀ (n : Nat) (ds : List Char) (c : Char),
    c ∈ Nat.toDigitsCore 10 fuel n ds → c ∈ ds ∨ c.isDigit = true := by
  induction fuel with
  | zero => intro n ds c h; exact Or.inl h
  | succ fuel ih =>
    intro n ds c h
    unfold Nat.toDigitsCore at h
    have hd : (Nat.digitChar (n % 10)).isDigit = true :=
      isDigit_digitChar _ (Nat.mod_lt _ (by decide))
    by_cases h0 : n / 10 = 0
    · simp only [h0, if_true, List.mem_cons] at h
      rcases h with rfl | h
      · exact Or.inr hd
      · exact Or.inl h
    · simp only [h0, if_false] at h
      rcases ih _ _ _ h with h | h
      · rcases List.mem_cons.1 h with rfl | h
        · exact Or.inr hd
        · exact Or.inl h
      · exact Or.inr h

theorem toDigits_isDigit (n : Nat) (c : Char) (h : c ∈ Nat.toDigits 10 n) :
    c.isDigit = true := by
  rcases toDigitsCore_isDigit _ _ _ _ h with h | h
  · simp at h
  · exact h

/-- The numeral `tostring` prints holds no separator `|`. -/
theorem tostring_no_bar (card : Int) : '|' ∉ (tostring card).data := by
  intro h
  cases card with
  | ofNat n =>
    have := toDigits_isDigit n '|' h
    revert this; decide
  | negSucc n =>
    rcases List.mem_cons.1 h with h | h
    · revert h; decide
    · have := toDigits_isDigit (n + 1) '|' h
      revert this; decide

theorem tostring_injective (c1 c2 : Int) (h : tostring c1 = tostring c2) : c1 = c2 := by
  have hd := congrArg String.data h
  cases c1 with
  | ofNat a =>
    cases c2 with
    | ofNat b =>
      have : a = b := toDigits_injective a b hd
      rw [this]
    | negSucc b =>
      exfalso
      have hm : '-' ∈ Nat.toDigits 10 a := by
        show '-' ∈ (tostring (Int.ofNat a)).data
        rw [hd]
        exact List.mem_cons_self _ _
      have := toDigits_isDigit a '-' hm
      revert this; decide
  | negSucc a =>
    cases c2 with
    | ofNat b =>
      exfalso
      have hm : '-' ∈ Nat.toDigits 10 b := by
        show '-' ∈ (tostring (Int.ofNat b)).data
        rw [← hd]
        exact List.mem_cons_self _ _
      have := toDigits_isDigit b '-' hm
      revert this; decide
    | negSucc b =>
      have h2 : Nat.toDigits 10 (a + 1) = Nat.toDigits 10 (b + 1) := (List.cons.inj hd).2
      have := toDigits_injective _ _ h2
      have e : a = b := by omega
      rw [e]

/-- Two lists that end in a separator followed by a separator-free tail are equal
only when the parts before the separator and the tails are equal. -/
theorem split_at_last {α : Type} (a : α) : ∀ (l1 l2 t1 t2 : List α), a ∉ t1 → a ∉ t2 →
    l1 ++ a :: t1 = l2 ++ a :: t2 → l1 = l2 ∧ t1 = t2 := by
  intro l1
  induction l1 with
  | nil =>
    intro l2 t1 t2 h1 h2 h
    cases l2 with
    | nil => exact ⟨rfl, (List.cons.inj h).2⟩
    | cons x l2 =>
      exfalso
      have e := (List.cons.inj h).2
      apply h1
      rw [e]
      simp
  | cons y l1 ih =>
    intro l2 t1 t2 h1 h2 h
    cases l2 with
    | nil =>
      exfalso
      have e := (List.cons.inj h).2
      apply h2
      rw [← e]
      simp
    | cons x l2 =>
      obtain ⟨e1, e2⟩ := List.cons.inj h
      obtain ⟨e3, e4⟩ := ih l2 t1 t2 h1 h2 e2
      exact ⟨by rw [e1, e3], e4⟩

theorem key_injective (h1 h2 : String) (c1 c2 : Int)
    (h : constructInfosetKey h1 c1 = constructInfosetKey h2 c2) : h1 = h2 ∧ c1 = c2 := by
  have hd := congrArg String.data h
  rw [key_data, key_data] at hd
  obtain ⟨e1, e2⟩ := split_at_last '|' _ _ _ _ (tostring_no_bar c1) (tostring_no_bar c2) hd
  exact ⟨String.ext e1, tostring_injective c1 c2 (String.ext e2)⟩

/-- C19: `constructInfosetKey` is injective: two keys are equal exactly when the
histories (arbitrary strings, `|` and digits included) and the cards (arbitrary
integers) are equal; so a node stored for one (history, card) pair is never the
node of another pair. -/
theorem constructInfosetKey_injective (h1 h2 : String) (c1 c2 : Int) :
    (constructInfosetKey h1 c1 = constructInfosetKey h2 c2 ↔ h1 = h2 ∧ c1 = c2) ∧
    ∀ (state : CfrState) (node : StrategyNode), ¬ (h1 = h2 ∧ c1 = c2) →
      lookupKey (setNode state (constructInfosetKey h1 c1) node).strat
        (constructInfosetKey h2 c2) = lookupKey state.strat (constructInfosetKey h2 c2) := by
  refine ⟨⟨key_injective h1 h2 c1 c2, ?_⟩, ?_⟩
  · rintro ⟨rfl, rfl⟩; rfl
  · intro state node hne
    exact lookupKey_setNode_ne _ _ _ _ (fun e => hne (key_injective h1 h2 c1 c2 e))

/-! ## Overrides registered for keys that have a node -/

theorem agree_symm (s t : CfrState) (h : AgreeOffStore s t) : AgreeOffStore t s := by
  obtain ⟨h1, h2, h3, h4, h5⟩ := h
  exact ⟨h1.symm, h2.symm, h3.symm, h4.symm, fun key hk => (h5 key (by rw [h1]; exact hk)).symm⟩

theorem agree_key (s t : CfrState) (h : AgreeOffStore s t) (player : Fin 2) (hist : String) :
    getInfosetKey s player hist = getInfosetKey t player hist := by
  unfold getInfosetKey
  rw [h.2.1]

theorem agree_entryNode (s t : CfrState) (h : AgreeOffStore s t) (key : String)
    (player : Fin 2) (acts : String) :
    entryNode s key player acts = entryNode t key player acts := by
  obtain ⟨h1, h2, _, _, h5⟩ := h
  unfold entryNode
  rw [← h1]
  cases hl : lookupKey s.strat key with
  | some node => rfl
  | none =>
    show freshNode s key player acts = freshNode t key player acts
    unfold freshNode
    rw [h5 key hl, h2]

theorem agree_setNode (s t : CfrState) (h : AgreeOffStore s t) (key : String)
    (node : StrategyNode) : AgreeOffStore (setNode s key node) (setNode t key node) := by
  obtain ⟨h1, h2, h3, h4, h5⟩ := h
  refine ⟨?_, h2, h3, h4, ?_⟩
  · show assignKey s.strat key node = assignKey t.strat key node
    rw [h1]
  · intro k hk
    by_cases e : key = k
    · subst e
      rw [lookupKey_setNode] at hk
      cases hk
    · rw [lookupKey_setNode_ne _ _ _ _ e] at hk
      exact h5 k hk

theorem agree_payoff (s t : CfrState) (h : AgreeOffStore s t) (action : Char)
    (player : Fin 2) : payoff s action player = payoff t action player := by
  obtain ⟨_, h2, h3, h4, _⟩ := h
  unfold payoff
  rw [h2, h3, h4]

theorem agree_leafVisit (s t : CfrState) (h : AgreeOffStore s t) (hist : String)
    (player : Fin 2) (reachProb0 reachProb1 : ℚ) (acts : String) :
    (leafVisit s hist player reachProb0 reachProb1 acts).1 =
      (leafVisit t hist player reachProb0 reachProb1 acts).1 ∧
    AgreeOffStore (leafVisit s hist player reachProb0 reachProb1 acts).2
      (leafVisit t hist player reachProb0 reachProb1 acts).2 := by
  have hp : (fun a => payoff s a player) = (fun a => payoff t a player) :=
    funext (fun a => agree_payoff s t h a player)
  unfold leafVisit
  simp only [agree_key s t h, agree_entryNode s t h, hp]
  exact ⟨trivial, agree_setNode s t h _ _⟩

theorem agree_rootVisit (s t : CfrState) (h : AgreeOffStore s t) (player : Fin 2)
    (reachProb0 reachProb1 : ℚ) :
    (rootVisit s player reachProb0 reachProb1).1 =
      (rootVisit t player reachProb0 reachProb1).1 ∧
    AgreeOffStore (rootVisit s player reachProb0 reachProb1).2
      (rootVisit t player reachProb0 reachProb1).2 := by
  obtain ⟨nd, hnd⟩ : ∃ nd, nd = afterVisit
    (entryNode s (getInfosetKey s player "") player "bh")
    (ownReach player reachProb0 reachProb1) := ⟨_, rfl⟩
  have hnd' : nd = afterVisit (entryNode t (getInfosetKey t player "") player "bh")
      (ownReach player reachProb0 reachProb1) := by
    rw [hnd, agree_key s t h, agree_entryNode s t h]
  have a2 := agree_setNode s t h (getInfosetKey s player "") nd
  obtain ⟨rb, hrb⟩ : ∃ rb, rb = childReach player reachProb0 reachProb1
    (nd.strategy[0]?.getD 0) := ⟨_, rfl⟩
  obtain ⟨rh, hrh⟩ : ∃ rh, rh = childReach player reachProb0 reachProb1
    (nd.strategy[1]?.getD 0) := ⟨_, rfl⟩
  have ab := agree_leafVisit _ _ a2 "b" (opp player) rb.1 rb.2 "cf"
  have ah := agree_leafVisit _ _ ab.2 "h" (opp player) rh.1 rh.2 "h"
  have es : rootVisit s player reachProb0 reachProb1 =
      (weightedSum [-(leafVisit (setNode s (getInfosetKey s player "") nd) "b" (opp player)
          rb.1 rb.2 "cf").1,
        -(leafVisit (leafVisit (setNode s (getInfosetKey s player "") nd) "b" (opp player)
          rb.1 rb.2 "cf").2 "h" (opp player) rh.1 rh.2 "h").1] nd.strategy,
       setNode (leafVisit (leafVisit (setNode s (getInfosetKey s player "") nd) "b"
          (opp player) rb.1 rb.2 "cf").2 "h" (opp player) rh.1 rh.2 "h").2
        (getInfosetKey s player "")
        (afterRegrets nd
          [-(leafVisit (setNode s (getInfosetKey s player "") nd) "b" (opp player)
            rb.1 rb.2 "cf").1,
          -(leafVisit (leafVisit (setNode s (getInfosetKey s player "") nd) "b" (opp player)
            rb.1 rb.2 "cf").2 "h" (opp player) rh.1 rh.2 "h").1]
          (oppReach player reachProb0 reachProb1)
          (weightedSum [-(leafVisit (setNode s (getInfosetKey s player "") nd) "b"
              (opp player) rb.1 rb.2 "cf").1,
            -(leafVisit (leafVisit (setNode s (getInfosetKey s player "") nd) "b"
              (opp player) rb.1 rb.2 "cf").2 "h" (opp player) rh.1 rh.2 "h").1]
            nd.strategy) 2)) := by
    rw [hnd, hrb, hrh, hnd]
    rfl
  have et : rootVisit t player reachProb0 reachProb1 =
      (weightedSum [-(leafVisit (setNode t (getInfosetKey s player "") nd) "b" (opp player)
          rb.1 rb.2 "cf").1,
        -(leafVisit (leafVisit (setNode t (getInfosetKey s player "") nd) "b" (opp player)
          rb.1 rb.2 "cf").2 "h" (opp player) rh.1 rh.2 "h").1] nd.strategy,
       setNode (leafVisit (leafVisit (setNode t (getInfosetKey s player "") nd) "b"
          (opp player) rb.1 rb.2 "cf").2 "h" (opp player) rh.1 rh.2 "h").2
        (getInfosetKey s player "")
        (afterRegrets nd
          [-(leafVisit (setNode t (getInfosetKey s player "") nd) "b" (opp player)
            rb.1 rb.2 "cf").1,
          -(leafVisit (leafVisit (setNode t (getInfosetKey s player "") nd) "b" (opp player)
            rb.1 rb.2 "cf").2 "h" (opp player) rh.1 rh.2 "h").1]
          (oppReach player reachProb0 reachProb1)
          (weightedSum [-(leafVisit (setNode t (getInfosetKey s player "") nd) "b"
              (opp player) rb.1 rb.2 "cf").1,
            -(leafVisit (leafVisit (setNode t (getInfosetKey s player "") nd) "b"
              (opp player) rb.1 rb.2 "cf").2 "h" (opp player) rh.1 rh.2 "h").1]
            nd.strategy) 2)) := by
    rw [hrb, hrh, hnd', agree_key s t h]
    rfl
  rw [es, et]
  simp only [ab.1, ah.1]
  exact ⟨trivial, agree_setNode _ _ ah.2 _ _⟩

theorem agree_rootOk (s t : CfrState) (h : AgreeOffStore s t) (player : Fin 2)
    (hok : RootOk s player) : RootOk t player := by
  unfold RootOk at hok ⊢
  rw [← agree_key s t h, ← agree_key s t h, ← agree_key s t h, ← agree_entryNode s t h,
    ← agree_entryNode s t h, ← agree_entryNode s t h, ← h.2.1]
  exact hok

/-- A call on two states that agree off the store completes on both or on neither,
with the same value, and leaves states that agree off the store. -/
theorem agree_cfr (s t : CfrState) (h : AgreeOffStore s t) (fuel : Nat) (hist : String)
    (player : Fin 2) (reachProb0 reachProb1 : ℚ) (r : ℚ × CfrState)
    (hrun : cfr fuel s hist player reachProb0 reachProb1 = Except.ok r) :
    ∃ r', cfr fuel t hist player reachProb0 reachProb1 = Except.ok r' ∧ r'.1 = r.1 ∧
      AgreeOffStore r.2 r'.2 := by
  rcases (cfr_eq_ok _ _ _ _ _ _ _).1 hrun with
    ⟨acts, term, hf, hne, htbl, hc, hv, rfl⟩ | ⟨hf, rfl, hok, rfl⟩
  · refine ⟨leafVisit t hist player reachProb0 reachProb1 acts, ?_, ?_, ?_⟩
    · refine (cfr_eq_ok _ _ _ _ _ _ _).2 (Or.inl ⟨acts, term, hf, hne, htbl, ?_, ?_, rfl⟩)
      · rw [← h.2.1]; exact hc
      · rw [← agree_key s t h, ← agree_entryNode s t h]; exact hv
    · exact (agree_leafVisit s t h hist player reachProb0 reachProb1 acts).1.symm
    · exact (agree_leafVisit s t h hist player reachProb0 reachProb1 acts).2
  · refine ⟨rootVisit t player reachProb0 reachProb1, ?_, ?_, ?_⟩
    · exact (cfr_eq_ok _ _ _ _ _ _ _).2 (Or.inr ⟨hf, rfl, agree_rootOk s t h player hok, rfl⟩)
    · exact (agree_rootVisit s t h player reachProb0 reachProb1).1.symm
    · exact (agree_rootVisit s t h player reachProb0 reachProb1).2

theorem agree_deal (s t : CfrState) (h : AgreeOffStore s t) (cards : Fin 2 → Int) :
    AgreeOffStore { s with cards := cards } { t with cards := cards } :=
  ⟨h.1, rfl, h.2.2.1, h.2.2.2.1, h.2.2.2.2⟩

theorem agree_runCalls (calls : List Call) : ∀ (s t : CfrState), AgreeOffStore s t →
    ∀ (vs : List ℚ) (s' : CfrState), runCalls calls s = Except.ok (vs, s') →
    ∃ t', runCalls calls t = Except.ok (vs, t') ∧ AgreeOffStore s' t' := by
  induction calls with
  | nil =>
    intro s t h vs s' hrun
    obtain ⟨rfl, rfl⟩ := Prod.mk.inj (Except.ok.inj hrun)
    exact ⟨t, rfl, h⟩
  | cons c rest ih =>
    intro s t h vs s' hrun
    simp only [runCalls, bind_eq_ok, pure_eq_ok, Except.ok.injEq, Prod.mk.injEq] at hrun ⊢
    obtain ⟨r, hr, q, hq, rfl, rfl⟩ := hrun
    obtain ⟨r', hr', hv, ha⟩ := agree_cfr _ _ (agree_deal s t h c.cards) _ _ _ _ _ _ hr
    obtain ⟨t', ht', ha'⟩ := ih r.2 r'.2 ha q.1 q.2 hq
    exact ⟨t', ⟨r', hr', (q.1, t'), ht', by rw [hv], rfl⟩, ha'⟩

/-- After `lockNode` on a key that has a node, the state agrees with the state
before off the store. -/
theorem agree_lockNode (state : CfrState) (hist : String) (card : Int) (strategy : List ℚ)
    (node : StrategyNode)
    (hnode : lookupKey state.strat (constructInfosetKey hist card) = some node) :
    AgreeOffStore state (lockNode state hist card strategy) := by
  refine ⟨rfl, rfl, rfl, rfl, ?_⟩
  intro key hk
  show _ = lookupKey (assignKey state.lockedStrat (constructInfosetKey hist card) strategy) key
  rw [lookupKey_assignKey]
  by_cases e : constructInfosetKey hist card = key
  · rw [e, hk] at hnode
    cases hnode
  · rw [if_neg e]

theorem setNode_keeps_flag (s : CfrState) (key : String) (node : StrategyNode) (k : String)
    (n : StrategyNode) (hl : lookupKey s.strat k = some n)
    (hX : key = k → node.locked = n.locked) :
    ∃ n', lookupKey (setNode s key node).strat k = some n' ∧ n'.locked = n.locked := by
  by_cases e : key = k
  · subst e
    exact ⟨node, lookupKey_setNode _ _ _, hX rfl⟩
  · exact ⟨n, by rw [lookupKey_setNode_ne _ _ _ _ e]; exact hl, rfl⟩

theorem entryNode_of_some (state : CfrState) (key : String) (player : Fin 2) (acts : String)
    (node : StrategyNode) (h : lookupKey state.strat key = some node) :
    entryNode state key player acts = node := by
  unfold entryNode
  rw [h]

theorem leafVisit_keeps_flag (state : CfrState) (hist : String) (player : Fin 2)
    (reachProb0 reachProb1 : ℚ) (acts : String) (k : String) (n : StrategyNode)
    (hl : lookupKey state.strat k = some n) :
    ∃ n', lookupKey (leafVisit state hist player reachProb0 reachProb1 acts).2.strat k =
      some n' ∧ n'.locked = n.locked := by
  refine setNode_keeps_flag state _ _ k n hl ?_
  intro e
  rw [afterRegrets_locked, afterVisit_locked, e, entryNode_of_some _ _ _ _ _ hl]

theorem rootVisit_keeps_flag (state : CfrState) (player : Fin 2)
    (reachProb0 reachProb1 : ℚ) (k : String) (n : StrategyNode)
    (hl : lookupKey state.strat k = some n) :
    ∃ n', lookupKey (rootVisit state player reachProb0 reachProb1).2.strat k = some n' ∧
      n'.locked = n.locked := by
  have hX : getInfosetKey state player "" = k →
      (entryNode state (getInfosetKey state player "") player "bh").locked = n.locked := by
    intro e
    rw [e, entryNode_of_some _ _ _ _ _ hl]
  obtain ⟨n2, h2, e2⟩ := setNode_keeps_flag state (getInfosetKey state player "")
    (afterVisit (entryNode state (getInfosetKey state player "") player "bh")
      (ownReach player reachProb0 reachProb1)) k n hl
    (fun e => by rw [afterVisit_locked]; exact hX e)
  obtain ⟨n3, h3, e3⟩ := leafVisit_keeps_flag _ "b" (opp player)
    (childReach player reachProb0 reachProb1
      ((afterVisit (entryNode state (getInfosetKey state player "") player "bh")
        (ownReach player reachProb0 reachProb1)).strategy[0]?.getD 0)).1
    (childReach player reachProb0 reachProb1
      ((afterVisit (entryNode state (getInfosetKey state player "") player "bh")
        (ownReach player reachProb0 reachProb1)).strategy[0]?.getD 0)).2 "cf" k n2 h2
  obtain ⟨n4, h4, e4⟩ := leafVisit_keeps_flag _ "h" (opp player)
    (childReach player reachProb0 reachProb1
      ((afterVisit (entryNode state (getInfosetKey state player "") player "bh")
        (ownReach player reachProb0 reachProb1)).strategy[1]?.getD 0)).1
    (childReach player reachProb0 reachProb1
      ((afterVisit (entryNode state (getInfosetKey state player "") player "bh")
        (ownReach player reachProb0 reachProb1)).strategy[1]?.getD 0)).2 "h" k n3 h3
  obtain ⟨n5, h5, e5⟩ := setNode_keeps_flag _ (getInfosetKey state player "")
    (afterRegrets (afterVisit (entryNode state (getInfosetKey state player "") player "bh")
      (ownReach player reachProb0 reachProb1))
      [-(leafVisit (setNode state (getInfosetKey state player "")
          (afterVisit (entryNode state (getInfosetKey state player "") player "bh")
            (ownReach player reachProb0 reachProb1))) "b" (opp player)
          (childReach player reachProb0 reachProb1
            ((afterVisit (entryNode state (getInfosetKey state player "") player "bh")
              (ownReach player reachProb0 reachProb1)).strategy[0]?.getD 0)).1
          (childReach player reachProb0 reachProb1
            ((afterVisit (entryNode state (getInfosetKey state player "") player "bh")
              (ownReach player reachProb0 reachProb1)).strategy[0]?.getD 0)).2 "cf").1,
       -(leafVisit (leafVisit (setNode state (getInfosetKey state player "")
          (afterVisit (entryNode state (getInfosetKey state player "") player "bh")
            (ownReach player reachProb0 reachProb1))) "b" (opp player)
          (childReach player reachProb0 reachProb1
            ((afterVisit (entryNode state (getInfosetKey state player "") player "bh")
              (ownReach player reachProb0 reachProb1)).strategy[0]?.getD 0)).1
          (childReach player reachProb0 reachProb1
            ((afterVisit (entryNode state (getInfosetKey state player "") player "bh")
              (ownReach player reachProb0 reachProb1)).strategy[0]?.getD 0)).2 "cf").2
          "h" (opp player)
          (childReach player reachProb0 reachProb1
            ((afterVisit (entryNode state (getInfosetKey state player "") player "bh")
              (ownReach player reachProb0 reachProb1)).strategy[1]?.getD 0)).1
          (childReach player reachProb0 reachProb1
            ((afterVisit (entryNode state (getInfosetKey state player "") player "bh")
              (ownReach player reachProb0 reachProb1)).strategy[1]?.getD 0)).2 "h").1]
      (oppReach player reachProb0 reachProb1)
      (rootVisit state player reachProb0 reachProb1).1 2) k n4 h4
    (fun e => by
      rw [afterRegrets_locked, afterVisit_locked, hX e, e4, e3, e2])
  exact ⟨n5, h5, by rw [e5, e4, e3, e2]⟩

/-- A completed call keeps every node that exists, with its `locked` flag. -/
theorem cfr_keeps_flag (fuel : Nat) (state : CfrState) (hist : String) (player : Fin 2)
    (reachProb0 reachProb1 : ℚ) (r : ℚ × CfrState)
    (hrun : cfr fuel state hist player reachProb0 reachProb1 = Except.ok r)
    (k : String) (n : StrategyNode) (hl : lookupKey state.strat k = some n) :
    ∃ n', lookupKey r.2.strat k = some n' ∧ n'.locked = n.locked := by
  rcases (cfr_eq_ok _ _ _ _ _ _ _).1 hrun with ⟨acts, _, _, _, _, _, _, rfl⟩ | ⟨_, rfl, _, rfl⟩
  · exact leafVisit_keeps_flag state hist player reachProb0 reachProb1 acts k n hl
  · exact rootVisit_keeps_flag state player reachProb0 reachProb1 k n hl

theorem runCalls_keeps_flag (calls : List Call) : ∀ (s : CfrState) (vs : List ℚ)
    (s' : CfrState), runCalls calls s = Except.ok (vs, s') →
    ∀ (k : String) (n : StrategyNode), lookupKey s.strat k = some n →
    ∃ n', lookupKey s'.strat k = some n' ∧ n'.locked = n.locked := by
  induction calls with
  | nil =>
    intro s vs s' hrun k n hl
    obtain ⟨_, rfl⟩ := Prod.mk.inj (Except.ok.inj hrun)
    exact ⟨n, hl, rfl⟩
  | cons c rest ih =>
    intro s vs s' hrun k n hl
    simp only [runCalls, bind_eq_ok, pure_eq_ok, Except.ok.injEq, Prod.mk.injEq] at hrun
    obtain ⟨r, hr, q, hq, _, rfl⟩ := hrun
    obtain ⟨n1, h1, e1⟩ := cfr_keeps_flag _ _ _ _ _ _ _ hr k n hl
    obtain ⟨n2, h2, e2⟩ := ih r.2 q.1 q.2 hq k n1 h1
    exact ⟨n2, h2, by rw [e2, e1]⟩

/-- C16: `lockNode` on a key whose node exists changes only the override table (at
that key): the store, and so the node with its flag `locked`, its regrets, its
strategy and its `strategySum`, is the same, as are the cards, the bet size and
the pot size. Every later sequence of deals and calls of `cfr` completes with the
override exactly when it completes without, with the same values and the same
store of nodes, and the node keeps the flag it had (an unlocked node stays
unlocked). -/
theorem lockNode_existing_node (state : CfrState) (hist : String) (card : Int)
    (strategy : List ℚ) (node : StrategyNode)
    (hnode : lookupKey state.strat (constructInfosetKey hist card) = some node) :
    (lockNode state hist card strategy).strat = state.strat ∧
    lookupKey (lockNode state hist card strategy).strat (constructInfosetKey hist card) =
      some node ∧
    (lockNode state hist card strategy).cards = state.cards ∧
    (lockNode state hist card strategy).betSize = state.betSize ∧
    (lockNode state hist card strategy).initialPotSize = state.initialPotSize ∧
    (∀ key, key ≠ constructInfosetKey hist card →
      lookupKey (lockNode state hist card strategy).lockedStrat key =
        lookupKey state.lockedStrat key) ∧
    (∀ (calls : List Call) (vs : List ℚ) (strat' : List (String × StrategyNode)),
      (∃ t', runCalls calls (lockNode state hist card strategy) = Except.ok (vs, t') ∧
        t'.strat = strat') ↔
      (∃ s', runCalls calls state = Except.ok (vs, s') ∧ s'.strat = strat')) ∧
    (∀ (calls : List Call) (vs : List ℚ) (t' : CfrState),
      runCalls calls (lockNode state hist card strategy) = Except.ok (vs, t') →
      ∃ node', lookupKey t'.strat (constructInfosetKey hist card) = some node' ∧
        node'.locked = node.locked) := by
  have ha := agree_lockNode state hist card strategy node hnode
  refine ⟨rfl, hnode, rfl, rfl, rfl, ?_, ?_, ?_⟩
  · intro key hk
    show lookupKey (assignKey state.lockedStrat (constructInfosetKey hist card) strategy) key = _
    rw [lookupKey_assignKey, if_neg (Ne.symm hk)]
  · intro calls vs strat'
    constructor
    · rintro ⟨t', ht, rfl⟩
      obtain ⟨s', hs, hag⟩ := agree_runCalls calls _ _ (agree_symm _ _ ha) vs t' ht
      exact ⟨s', hs, hag.1.symm⟩
    · rintro ⟨s', hs, rfl⟩
      obtain ⟨t', ht, hag⟩ := agree_runCalls calls _ _ ha vs s' hs
      exact ⟨t', ht, hag.1.symm⟩
  · intro calls vs t' ht
    exact runCalls_keeps_flag calls _ vs t' ht _ node hnode

theorem wellFormed_seededExample : WellFormed seededExample := by
  constructor
  · intro hist card acts term node htbl hl
    have hk : lookupKey seededExample.strat (constructInfosetKey hist card) =
        if "|0" = constructInfosetKey hist card then
          some { locked := false, cards := "0", actionLabels := "bh", regrets := [0, 0],
                 strategy := [1 / 2, 1 / 2], strategySum := [0, 0],
                 avgStrategy := [1 / 2, 1 / 2] }
        else none := by
      simp [seededExample, setNode, exampleState, freshState, initState, assignKey, lookupKey]
    rw [hk] at hl
    split at hl
    · rename_i heq
      have h0 : constructInfosetKey "" 0 = "|0" := by decide
      rw [← h0] at heq
      obtain ⟨rfl, rfl⟩ := key_injective _ _ _ _ heq
      obtain ⟨rfl, rfl⟩ := Prod.mk.inj (Except.ok.inj htbl)
      simp only [Option.some.injEq] at hl
      subst hl
      exact ⟨rfl, rfl, rfl, rfl⟩
    · cases hl
  · intro hist card acts term s _ hl
    simp [seededExample, setNode, exampleState, freshState, initState, lookupKey] at hl

theorem lockNode_existing_node_witness :
    ∃ vs s' t', runCalls [rootCall] seededExample = Except.ok (vs, s') ∧
      runCalls [rootCall] (lockNode seededExample "" 0 [1, 0]) = Except.ok (vs, t') ∧
      t'.strat = s'.strat ∧
      ∃ node', lookupKey t'.strat (constructInfosetKey "" 0) = some node' ∧
        node'.locked = false := by
  have hnode : lookupKey seededExample.strat (constructInfosetKey "" 0) =
      some { locked := false, cards := "0", actionLabels := "bh", regrets := [0, 0],
             strategy := [1 / 2, 1 / 2], strategySum := [0, 0],
             avgStrategy := [1 / 2, 1 / 2] } := by
    have h0 : constructInfosetKey "" 0 = "|0" := by decide
    rw [h0]
    simp [seededExample, setNode, exampleState, freshState, initState, assignKey, lookupKey]
  have h := lockNode_existing_node seededExample "" 0 [1, 0] _ hnode
  have hd : ({ seededExample with cards := rootCall.cards } : CfrState) = seededExample := rfl
  obtain ⟨r, hr⟩ : ∃ r, cfr 2 seededExample "" 0 1 1 = Except.ok r :=
    ⟨_, (cfr_root 0 seededExample 0 1 1 _).2
      ⟨rootOk_of_wellFormed seededExample 0 wellFormed_seededExample (by decide), rfl⟩⟩
  have hs : runCalls [rootCall] seededExample = Except.ok ([r.1], r.2) := by
    simp only [runCalls, hd]
    show (cfr 2 seededExample "" 0 1 1 >>= _) = _
    rw [hr]
    rfl
  obtain ⟨t', ht, he⟩ := (h.2.2.2.2.2.2.1 [rootCall] [r.1] r.2.strat).2 ⟨r.2, hs, rfl⟩
  exact ⟨[r.1], r.2, t', hs, ht, he, h.2.2.2.2.2.2.2 [rootCall] [r.1] t' ht⟩

/-! ## The action list of a stored node -/

theorem storeKeyed_setNode (Q : String → StrategyNode → Prop) (state : CfrState)
    (h : StoreKeyed Q state) (hist : String) (card : Int) (node : StrategyNode)
    (hn : Q hist node) : StoreKeyed Q (setNode state (constructInfosetKey hist card) node) := by
  intro hist' card' node' hl
  by_cases e : constructInfosetKey hist card = constructInfosetKey hist' card'
  · obtain ⟨rfl, rfl⟩ := key_injective _ _ _ _ e
    rw [lookupKey_setNode] at hl
    obtain rfl := Option.some.inj hl
    exact hn
  · rw [lookupKey_setNode_ne _ _ _ _ e] at hl
    exact h hist' card' node' hl

theorem storeKeyed_entryNode (Q : String → StrategyNode → Prop) (state : CfrState)
    (h : StoreKeyed Q state) (hist : String) (card : Int) (player : Fin 2) (acts : String)
    (hfresh : Q hist (freshNode state (constructInfosetKey hist card) player acts)) :
    Q hist (entryNode state (constructInfosetKey hist card) player acts) := by
  cases hl : lookupKey state.strat (constructInfosetKey hist card) with
  | some node => rw [entryNode_of_some _ _ _ _ _ hl]; exact h hist card node hl
  | none => rw [entryNode_of_none _ _ _ _ hl]; exact hfresh

/-- A property of the nodes of a history that holds for the fresh node of a visit
and is kept by the two updates of a visit is kept by every completed call. -/
theorem storeKeyed_cfr (Q : String → StrategyNode → Prop)
    (hfresh : ∀ (st : CfrState) (hist : String) (card : Int) (p : Fin 2) (acts term : String),
      actionTable hist = Except.ok (acts, term) →
      Q hist (freshNode st (constructInfosetKey hist card) p acts))
    (hvisit : ∀ hist (node : StrategyNode) w, Q hist node → Q hist (afterVisit node w))
    (hreg : ∀ hist node u w v n, Q hist node → Q hist (afterRegrets node u w v n))
    (fuel : Nat) (state : CfrState) (hist : String) (player : Fin 2)
    (reachProb0 reachProb1 : ℚ) (r : ℚ × CfrState)
    (hrun : cfr fuel state hist player reachProb0 reachProb1 = Except.ok r)
    (h : StoreKeyed Q state) : StoreKeyed Q r.2 := by
  have hleaf : ∀ (st : CfrState) (hs : String) (p : Fin 2) (a b : ℚ) (acts term : String),
      actionTable hs = Except.ok (acts, term) → StoreKeyed Q st →
      StoreKeyed Q (leafVisit st hs p a b acts).2 := by
    intro st hs p a b acts term htbl hst
    exact storeKeyed_setNode Q st hst hs (st.cards p) _
      (hreg _ _ _ _ _ _ (hvisit _ _ _
        (storeKeyed_entryNode Q st hst hs (st.cards p) p acts
          (hfresh st hs (st.cards p) p acts term htbl))))
  rcases (cfr_eq_ok _ _ _ _ _ _ _).1 hrun with
    ⟨acts, term, _, _, htbl, _, _, rfl⟩ | ⟨_, rfl, _, rfl⟩
  · exact hleaf state hist player reachProb0 reachProb1 acts term htbl h
  · have hnd : Q "" (afterVisit (entryNode state (getInfosetKey state player "") player "bh")
        (ownReach player reachProb0 reachProb1)) :=
      hvisit _ _ _ (storeKeyed_entryNode Q state h "" (state.cards player) player "bh"
        (hfresh state "" (state.cards player) player "bh" "00" rfl))
    have h2 := storeKeyed_setNode Q state h "" (state.cards player) _ hnd
    have h3 := hleaf _ "b" (opp player)
      (childReach player reachProb0 reachProb1
        ((afterVisit (entryNode state (getInfosetKey state player "") player "bh")
          (ownReach player reachProb0 reachProb1)).strategy[0]?.getD 0)).1
      (childReach player reachProb0 reachProb1
        ((afterVisit (entryNode state (getInfosetKey state player "") player "bh")
          (ownReach player reachProb0 reachProb1)).strategy[0]?.getD 0)).2 "cf" "11" rfl h2
    have h4 := hleaf _ "h" (opp player)
      (childReach player reachProb0 reachProb1
        ((afterVisit (entryNode state (getInfosetKey state player "") player "bh")
          (ownReach player reachProb0 reachProb1)).strategy[1]?.getD 0)).1
      (childReach player reachProb0 reachProb1
        ((afterVisit (entryNode state (getInfosetKey state player "") player "bh")
          (ownReach player reachProb0 reachProb1)).strategy[1]?.getD 0)).2 "h" "1" rfl h3
    exact storeKeyed_setNode Q _ h4 "" (state.cards player) _ (hreg _ _ _ _ _ _ hnd)

theorem freshNode_actionLabels (state : CfrState) (key : String) (player : Fin 2)
    (acts : String) : (freshNode state key player acts).actionLabels = acts := by
  unfold freshNode
  cases lookupKey state.lockedStrat key <;> rfl

/-- In every state the program reaches, the node stored under the key of a history
has the actions of that history as its action list. -/
theorem reachable_actionLabels (s : CfrState) (h : Reachable s) :
    StoreKeyed (fun hist node => ∀ acts term, actionTable hist = Except.ok (acts, term) →
      node.actionLabels = acts) s := by
  induction h with
  | init s => intro hist card node hl; simp [initState, lookupKey] at hl
  | lock hist card strategy _ ih => exact ih
  | deal cards cardMask betSize pot _ ih => exact ih
  | run fuel hist player reachProb0 reachProb1 v _ hrun ih =>
    refine storeKeyed_cfr _ ?_ ?_ ?_ fuel _ hist player reachProb0 reachProb1 _ hrun ih
    · intro st hs card p acts term htbl acts' term' htbl'
      rw [htbl] at htbl'
      rw [freshNode_actionLabels]
      exact (Prod.mk.inj (Except.ok.inj htbl')).1
    · intro hs node w hn acts term htbl
      show (afterMatching node).actionLabels = acts
      rw [afterMatching_actionLabels]
      exact hn acts term htbl
    · intro hs node u w v n hn acts term htbl
      exact hn acts term htbl

/-- On the states the program reaches, a store whose nodes have vectors of the
length of their own action list is well-formed. -/
theorem wellFormed_of_reachable (s : CfrState) (hr : Reachable s) (hl : WellFormedNodes s) :
    WellFormed s := by
  refine ⟨?_, hl.2⟩
  intro hist card acts term node htbl hnode
  have hlab := reachable_actionLabels s hr hist card node hnode acts term htbl
  obtain ⟨h1, h2, h3⟩ := hl.1 _ node hnode
  rw [hlab] at h1 h2 h3
  exact ⟨by rw [hlab], h1, h2, h3⟩

theorem keyedLengths_freshNode (st : CfrState) (key : String) (p : Fin 2) (acts : String) :
    (freshNode st key p acts).actionLabels.length = acts.length ∧
    (freshNode st key p acts).regrets.length = acts.length ∧
    (freshNode st key p acts).strategySum.length = acts.length ∧
    ((freshNode st key p acts).locked = false →
      (freshNode st key p acts).strategy.length = acts.length) := by
  unfold freshNode
  cases lookupKey st.lockedStrat key with
  | none => simp
  | some s => simp

/-- In every state the program reaches, the node stored under the key of a history
has the number of actions of that history as the length of its action list, of
`regrets` and of `strategySum`, and, unless it is locked, of `strategy`. -/
theorem reachable_lengths (s : CfrState) (h : Reachable s) :
    StoreKeyed (fun hist node => ∀ acts term, actionTable hist = Except.ok (acts, term) →
      node.actionLabels.length = acts.length ∧ node.regrets.length = acts.length ∧
      node.strategySum.length = acts.length ∧
      (node.locked = false → node.strategy.length = acts.length)) s := by
  induction h with
  | init s => intro hist card node hl; simp [initState, lookupKey] at hl
  | lock hist card strategy _ ih => exact ih
  | deal cards cardMask betSize pot _ ih => exact ih
  | run fuel hist player reachProb0 reachProb1 v _ hrun ih =>
    refine storeKeyed_cfr _ ?_ ?_ ?_ fuel _ hist player reachProb0 reachProb1 _ hrun ih
    · intro st hs card p acts term htbl acts' term' htbl'
      rw [htbl] at htbl'
      obtain ⟨rfl, _⟩ := Prod.mk.inj (Except.ok.inj htbl')
      exact keyedLengths_freshNode st _ p acts
    · intro hs node w hn acts term htbl
      obtain ⟨h1, h2, h3, h4⟩ := hn acts term htbl
      refine ⟨?_, ?_, ?_, ?_⟩
      · show (afterMatching node).actionLabels.length = _
        rw [afterMatching_actionLabels]; exact h1
      · rw [afterVisit_regrets]; exact h2
      · show (overwrite (accTarget (afterMatching node) w)
          (afterMatching node).strategySum).length = _
        rw [overwrite_length, afterMatching_strategySum]
        · exact h3
        · simp only [accTarget, List.length_take, List.length_zipWith]
          omega
      · intro hl
        rw [afterVisit_locked] at hl
        rw [afterVisit_strategy, afterMatching_strategy_length _ (by rw [h2, h4 hl])]
        exact h4 hl
    · intro hs node u w v n hn acts term htbl
      obtain ⟨h1, h2, h3, h4⟩ := hn acts term htbl
      refine ⟨h1, ?_, h3, h4⟩
      show (overwrite _ node.regrets).length = _
      rw [overwrite_length]
      · exact h2
      · simp only [regretTarget, List.length_take, List.length_zipWith]
        omega

/-- In every state the program reaches, an unlocked node a visit works on, stored or
fresh, has vectors of the right lengths. -/
theorem reachable_entry_lengths (s : CfrState) (h : Reachable s) (hist : String) (card : Int)
    (player : Fin 2) (acts term : String) (htbl : actionTable hist = Except.ok (acts, term))
    (hu : (entryNode s (constructInfosetKey hist card) player acts).locked = false) :
    NodeLengths (entryNode s (constructInfosetKey hist card) player acts) acts.length := by
  have hq := storeKeyed_entryNode _ s (reachable_lengths s h) hist card player acts
    (fun acts' term' htbl' => by
      rw [htbl] at htbl'
      obtain ⟨rfl, _⟩ := Prod.mk.inj (Except.ok.inj htbl')
      exact keyedLengths_freshNode s _ player acts)
  obtain ⟨h1, h2, h3, h4⟩ := hq acts term htbl
  exact ⟨h1, h2, h4 hu, h3⟩

/-! ## The check regret of a root infoset that always wins -/

theorem payoff_loser (state : CfrState) (player : Fin 2)
    (h : state.cards player < state.cards (opp player)) :
    payoff state 'c' player = -(state.betSize + state.initialPotSize * (1 / 2)) ∧
    payoff state 'f' player = -(state.initialPotSize * (1 / 2)) ∧
    payoff state 'h' player = -(state.initialPotSize * (1 / 2)) := by
  have hn : ¬ (state.cards player > state.cards (opp player)) := by
    intro h'
    exact absurd h (not_lt_of_gt h')
  have c1 : ¬ ('c' = 'f') := by decide
  have c2 : ¬ ('c' = 'h') := by decide
  have c3 : ¬ ('h' = 'f') := by decide
  refine ⟨?_, ?_, ?_⟩
  · simp only [payoff, hn, c1, c2, if_false]; ring
  · simp only [payoff, if_true]
  · simp only [payoff, hn, c3, if_false, if_true]; ring

/-- One root traversal for player 0 holding the higher card, all three visited
nodes unlocked and with vectors of the right lengths: the new check regret of the root node is the old one minus
`r1 * σ_bet * τ_call * betSize`, clamped at `0`. -/
theorem root_check_regret (fuel : Nat) (state : CfrState) (reachProb0 reachProb1 : ℚ)
    (hN1 : NodeLengths (entryNode state (constructInfosetKey "" (state.cards 0)) 0 "bh") 2)
    (hN2 : NodeLengths (entryNode state (constructInfosetKey "b" (state.cards 1)) 1 "cf") 2)
    (hN3 : NodeLengths (entryNode state (constructInfosetKey "h" (state.cards 1)) 1 "h") 1)
    (hhi : state.cards 1 < state.cards 0)
    (hR : (entryNode state (constructInfosetKey "" (state.cards 0)) 0 "bh").locked = false)
    (hB : (entryNode state (constructInfosetKey "b" (state.cards 1)) 1 "cf").locked = false)
    (hH : (entryNode state (constructInfosetKey "h" (state.cards 1)) 1 "h").locked = false) :
    ∃ state' nR nB σb σh τc τf,
      cfr (fuel + 2) state "" 0 reachProb0 reachProb1 =
        Except.ok (rootValue state 0, state') ∧
      regretMatching (entryNode state (constructInfosetKey "" (state.cards 0)) 0 "bh") =
        Except.ok nR ∧
      regretMatching (entryNode state (constructInfosetKey "b" (state.cards 1)) 1 "cf") =
        Except.ok nB ∧
      nR.strategy = [σb, σh] ∧ nB.strategy = [τc, τf] ∧
      0 ≤ σb ∧ 0 ≤ τc ∧
      (nodeAt state' (constructInfosetKey "" (state.cards 0))).strategy = [σb, σh] ∧
      (nodeAt state' (constructInfosetKey "" (state.cards 0))).regrets[1]? =
        some (max ((oldRegrets state (constructInfosetKey "" (state.cards 0)) 2)[1]?.getD 0 -
          reachProb1 * σb * τc * state.betSize) 0) := by
  have hc : state.cards 0 ≠ state.cards 1 := fun e => by rw [e] at hhi; exact lt_irrefl _ hhi
  obtain ⟨state', nR, nB, nH, σb, σh, τc, τf, ρ, hrun, hnR, hnB, hnH, eR, eB, eH, sR, _, _,
    hval, _, _, _, _⟩ := root_run_lengths fuel state reachProb0 reachProb1 hN1 hN2 hN3 hc
  obtain ⟨a1, r1, s1, t1⟩ := hN1
  obtain ⟨a2, r2, s2, t2⟩ := hN2
  obtain ⟨a3, r3, s3, t3⟩ := hN3
  have l2 : "bh".length = 2 := by decide
  -- the matched strategies are those of `rmTarget`
  rw [regretMatching_afterMatching _ (by omega)] at hnR hnB hnH
  have mR := (afterMatching_strategy_full _ 2 r1 s1).2 hR
  have mB := (afterMatching_strategy_full _ 2 r2 s2).2 hB
  have mH := (afterMatching_strategy_full _ 1 r3 s3).2 hH
  rw [Except.ok.inj hnR, eR] at mR
  rw [Except.ok.inj hnB, eB] at mB
  rw [Except.ok.inj hnH, eH, rmTarget_single _ r3 a3] at mH
  have hρ : ρ = 1 := (List.cons.inj mH).1
  have sumR := rmTarget_sum _ (by rw [r1, a1]) (by rw [a1]; decide : 0 < (entryNode state
    (constructInfosetKey "" (state.cards 0)) 0 "bh").actionLabels.length)
  have sumB := rmTarget_sum _ (by rw [r2, a2]) (by rw [a2]; decide : 0 < (entryNode state
    (constructInfosetKey "b" (state.cards 1)) 1 "cf").actionLabels.length)
  rw [← mR] at sumR
  rw [← mB] at sumB
  have hσ : σb + σh = 1 := by simpa using sumR
  have hτ : τc + τf = 1 := by simpa using sumB
  have pσ : 0 ≤ σb := (rmTarget_mem _ (by rw [a1]; decide) σb (by rw [← mR]; simp)).1
  have pτ : 0 ≤ τc := (rmTarget_mem _ (by rw [a2]; decide) τc (by rw [← mB]; simp)).1
  -- the state after the traversal
  have hst := (cfr_root fuel state 0 reachProb0 reachProb1 _).1 hrun
  have hst2 : state' = (rootVisit state 0 reachProb0 reachProb1).2 := congrArg Prod.snd hst.2
  have hnode := (rootVisit_nodes state 0 reachProb0 reachProb1).2.1
  have k0 : getInfosetKey state 0 "" = constructInfosetKey "" (state.cards 0) := rfl
  have kh : getInfosetKey state 1 "h" = constructInfosetKey "h" (state.cards 1) := rfl
  rw [k0, ← hst2] at hnode
  -- the value of the check history
  have hlh : leafValue state "h" (opp 0) "h" = payoff state 'h' 1 * ρ := by
    unfold leafValue
    rw [opp_zero, kh, Except.ok.inj hnH, eH]
    simp [weightedSum]
  obtain ⟨pc, pf, ph⟩ := payoff_loser state 1 (by rw [opp_one]; exact hhi)
  refine ⟨state', nR, nB, σb, σh, τc, τf, hrun, by rw [regretMatching_afterMatching _ (by omega),
    Except.ok.inj hnR], by rw [regretMatching_afterMatching _ (by omega), Except.ok.inj hnB],
    eR, eB, pσ, pτ, sR, ?_⟩
  rw [hnode, afterRegrets_getElem? _ _ _ _ 2 1 (by omega)
    (by rw [afterVisit_regrets, r1]) (by simp)]
  rw [afterVisit_regrets, entryNode_regrets, l2]
  congr 2
  simp only [List.getElem?_cons_succ, List.getElem?_cons_zero, Option.getD_some, oppReach,
    if_true]
  rw [hlh, hval, pc, pf, ph, hρ]
  have hσh : σh = 1 - σb := by linarith
  have hτf : τf = 1 - τc := by linarith
  rw [hσh, hτf]
  ring

/-! ## Well-formed stores stay well-formed -/

theorem nodeLengths_afterVisit (node : StrategyNode) (weight : ℚ) (n : Nat)
    (h : NodeLengths node n) : NodeLengths (afterVisit node weight) n := by
  obtain ⟨h1, h2, h3, h4⟩ := h
  refine ⟨?_, ?_, ?_, ?_⟩
  · show (afterMatching node).actionLabels.length = n
    rw [afterMatching_actionLabels]; exact h1
  · rw [afterVisit_regrets]; exact h2
  · rw [afterVisit_strategy, afterMatching_strategy_length _ (by omega)]; exact h3
  · show (overwrite (accTarget (afterMatching node) weight)
      (afterMatching node).strategySum).length = n
    rw [overwrite_length, afterMatching_strategySum]
    · exact h4
    · simp only [accTarget, List.length_take, List.length_zipWith]
      omega

theorem nodeLengths_afterRegrets (node : StrategyNode) (utilArr : List ℚ)
    (weight avgUtil : ℚ) (k n : Nat) (h : NodeLengths node n) :
    NodeLengths (afterRegrets node utilArr weight avgUtil k) n := by
  obtain ⟨h1, h2, h3, h4⟩ := h
  refine ⟨h1, ?_, h3, h4⟩
  show (overwrite _ node.regrets).length = n
  rw [overwrite_length]
  · exact h2
  · simp only [regretTarget, List.length_take, List.length_zipWith]
    omega

theorem nodeLengths_entryNode (state : CfrState) (h : WellFormed state) (hist : String)
    (card : Int) (player : Fin 2) (acts term : String)
    (htbl : actionTable hist = Except.ok (acts, term)) :
    NodeLengths (entryNode state (constructInfosetKey hist card) player acts) acts.length :=
  wellFormed_entryNode state h hist card player acts term htbl

/-- Storing a node of the right lengths under the key of a history keeps the store
well-formed. -/
theorem wellFormed_setNode (state : CfrState) (h : WellFormed state) (hist : String)
    (card : Int) (acts term : String) (htbl : actionTable hist = Except.ok (acts, term))
    (node : StrategyNode) (hn : NodeLengths node acts.length) :
    WellFormed (setNode state (constructInfosetKey hist card) node) := by
  obtain ⟨w1, w2⟩ := h
  constructor
  · intro hist' card' acts' term' node' htbl' hl
    by_cases e : constructInfosetKey hist card = constructInfosetKey hist' card'
    · obtain ⟨rfl, rfl⟩ := key_injective _ _ _ _ e
      rw [htbl] at htbl'
      obtain ⟨rfl, rfl⟩ := Prod.mk.inj (Except.ok.inj htbl')
      rw [lookupKey_setNode] at hl
      obtain rfl := Option.some.inj hl
      exact hn
    · rw [lookupKey_setNode_ne _ _ _ _ e] at hl
      exact w1 hist' card' acts' term' node' htbl' hl
  · exact w2

theorem wellFormed_leafVisit (state : CfrState) (h : WellFormed state) (hist : String)
    (player : Fin 2) (reachProb0 reachProb1 : ℚ) (acts term : String)
    (htbl : actionTable hist = Except.ok (acts, term)) :
    WellFormed (leafVisit state hist player reachProb0 reachProb1 acts).2 :=
  wellFormed_setNode state h hist (state.cards player) acts term htbl _
    (nodeLengths_afterRegrets _ _ _ _ _ _
      (nodeLengths_afterVisit _ _ _
        (nodeLengths_entryNode state h hist (state.cards player) player acts term htbl)))

theorem wellFormed_rootVisit (state : CfrState) (h : WellFormed state) (player : Fin 2)
    (reachProb0 reachProb1 : ℚ) :
    WellFormed (rootVisit state player reachProb0 reachProb1).2 := by
  have hnd := nodeLengths_afterVisit _ (ownReach player reachProb0 reachProb1) _
    (nodeLengths_entryNode state h "" (state.cards player) player "bh" "00" rfl)
  have h2 := wellFormed_setNode state h "" (state.cards player) "bh" "00" rfl _ hnd
  have h3 := wellFormed_leafVisit _ h2 "b" (opp player)
    (childReach player reachProb0 reachProb1
      ((afterVisit (entryNode state (getInfosetKey state player "") player "bh")
        (ownReach player reachProb0 reachProb1)).strategy[0]?.getD 0)).1
    (childReach player reachProb0 reachProb1
      ((afterVisit (entryNode state (getInfosetKey state player "") player "bh")
        (ownReach player reachProb0 reachProb1)).strategy[0]?.getD 0)).2 "cf" "11" rfl
  have h4 := wellFormed_leafVisit _ h3 "h" (opp player)
    (childReach player reachProb0 reachProb1
      ((afterVisit (entryNode state (getInfosetKey state player "") player "bh")
        (ownReach player reachProb0 reachProb1)).strategy[1]?.getD 0)).1
    (childReach player reachProb0 reachProb1
      ((afterVisit (entryNode state (getInfosetKey state player "") player "bh")
        (ownReach player reachProb0 reachProb1)).strategy[1]?.getD 0)).2 "h" "1" rfl
  exact wellFormed_setNode _ h4 "" (state.cards player) "bh" "00" rfl _
    (nodeLengths_afterRegrets _ _ _ _ _ _ hnd)

/-- A completed call leaves a well-formed store well-formed. -/
theorem wellFormed_cfr (fuel : Nat) (state : CfrState) (hist : String) (player : Fin 2)
    (reachProb0 reachProb1 : ℚ) (r : ℚ × CfrState)
    (hrun : cfr fuel state hist player reachProb0 reachProb1 = Except.ok r)
    (h : WellFormed state) : WellFormed r.2 := by
  rcases (cfr_eq_ok _ _ _ _ _ _ _).1 hrun with
    ⟨acts, term, _, _, htbl, _, _, rfl⟩ | ⟨_, rfl, _, rfl⟩
  · exact wellFormed_leafVisit state h hist player reachProb0 reachProb1 acts term htbl
  · exact wellFormed_rootVisit state h player reachProb0 reachProb1

/-- Deals and completed calls keep a well-formed store well-formed. -/
theorem traversals_wellFormed (s t : CfrState) (h : Traversals s t) (hwf : WellFormed s) :
    WellFormed t := by
  induction h with
  | refl => exact hwf
  | deal cards cardMask betSize pot _ ih => exact ih
  | run fuel hist player reachProb0 reachProb1 v _ hrun ih =>
    exact wellFormed_cfr _ _ _ _ _ _ _ hrun ih

/-- With a zero check regret the matched strategy of a two-action node bets with
probability `1` or `1/2`. -/
theorem rmTarget_check_zero (node : StrategyNode) (hr : node.regrets.length = 2)
    (hz : node.regrets[1]? = some 0) (ha : node.actionLabels.length = 2) :
    ∃ x y, rmTarget node = [x, y] ∧ 1 / 2 ≤ x := by
  obtain ⟨a, b, hab⟩ := length_eq_two_cases _ hr
  rw [hab] at hz
  simp only [List.getElem?_cons_succ, List.getElem?_cons_zero, Option.some.injEq] at hz
  subst hz
  unfold rmTarget posRegrets
  rw [hab, ha]
  by_cases hpos : a > 0
  · have hs : ([a, 0].map (fun r : ℚ => if r > 0 then r else 0)).sum = a := by
      simp [hpos]
    rw [hs, if_pos hpos]
    refine ⟨_, _, rfl, ?_⟩
    simp only [hpos, if_true]
    rw [div_self (ne_of_gt hpos)]
    norm_num
  · have hs : ([a, 0].map (fun r : ℚ => if r > 0 then r else 0)).sum = 0 := by
      simp [hpos]
    rw [hs, if_neg (lt_irrefl _)]
    exact ⟨_, _, rfl, by norm_num⟩

theorem freshNode_unlocked (state : CfrState) (key : String) (player : Fin 2) (acts : String)
    (h : state.lockedStrat = []) : (freshNode state key player acts).locked = false := by
  unfold freshNode
  rw [h]
  rfl

theorem entryNode_unlocked (state : CfrState) (key : String) (player : Fin 2) (acts : String)
    (h : state.lockedStrat = [])
    (hu : ∀ key node, lookupKey state.strat key = some node → node.locked = false) :
    (entryNode state key player acts).locked = false := by
  cases hl : lookupKey state.strat key with
  | some node => rw [entryNode_of_some _ _ _ _ _ hl]; exact hu key node hl
  | none => rw [entryNode_of_none _ _ _ _ hl]; exact freshNode_unlocked _ _ _ _ h

/-- Without overrides no call creates a locked node. -/
theorem cfr_unlocked (fuel : Nat) (state : CfrState) (hist : String) (player : Fin 2)
    (reachProb0 reachProb1 : ℚ) (r : ℚ × CfrState)
    (hrun : cfr fuel state hist player reachProb0 reachProb1 = Except.ok r)
    (h : state.lockedStrat = [])
    (hu : ∀ key node, lookupKey state.strat key = some node → node.locked = false) :
    r.2.lockedStrat = [] ∧
    ∀ key node, lookupKey r.2.strat key = some node → node.locked = false := by
  obtain ⟨h1, h2, _⟩ := cfr_preserves (fun tbl _ node => tbl = [] → node.locked = false)
    (fun st key p acts _ he => freshNode_unlocked st key p acts he)
    (fun t key node w hn _ he => by rw [afterVisit_locked]; exact hn he)
    (fun t key node u w v n hn he => by rw [afterRegrets_locked]; exact hn he)
    fuel state hist player reachProb0 reachProb1 r hrun (fun key node hl _ => hu key node hl)
  have h3 : r.2.lockedStrat = [] := by rw [h2]; exact h
  exact ⟨h3, fun key node hl => h1 key node hl h3⟩

theorem oldRegrets_check_zero (state : CfrState) (key : String)
    (h : ∀ node, lookupKey state.strat key = some node → node.regrets[1]? = some 0) :
    (oldRegrets state key 2)[1]? = some 0 := by
  unfold oldRegrets
  cases hl : lookupKey state.strat key with
  | some node => exact h node hl
  | none => rfl

/-- Along a training run in which card `c` always wins at the root, the store stays
well-formed and free of locked nodes, and the root node of card `c`, once it
exists, has check regret `0` and a stored strategy that bets with probability at
least `1/2`. -/
theorem trained_inv (c : Int) (s : CfrState) (h : Trained c s) :
    WellFormed s ∧ s.lockedStrat = [] ∧
    (∀ key node, lookupKey s.strat key = some node → node.locked = false) ∧
    ∀ node, lookupKey s.strat (constructInfosetKey "" c) = some node →
      node.regrets[1]? = some 0 ∧ ∃ x y, node.strategy = [x, y] ∧ 1 / 2 ≤ x := by
  induction h with
  | start s hwf hl hu hnone =>
    refine ⟨hwf, hl, hu, ?_⟩
    intro node hn
    rw [hnone] at hn
    cases hn
  | deal cards cardMask betSize pot _ ih => exact ih
  | @run s s' fuel reachProb0 reachProb1 v _ hwin hbet hr1 hrun ih =>
    obtain ⟨hwf, hl, hu, hq⟩ := ih
    have hwf' := wellFormed_cfr _ _ _ _ _ _ _ hrun hwf
    obtain ⟨hl', hu'⟩ := cfr_unlocked _ _ _ _ _ _ _ hrun hl hu
    refine ⟨hwf', hl', hu', ?_⟩
    intro node hn
    rcases (cfr_eq_ok _ _ _ _ _ _ _).1 hrun with ⟨_, _, _, hne, _⟩ | ⟨hf, _, _, hr⟩
    · exact absurd rfl hne
    · by_cases hc : s.cards 0 = c
      · obtain ⟨f, rfl⟩ : ∃ f, fuel = f + 2 := ⟨fuel - 2, by omega⟩
        have hlt : s.cards 1 < s.cards 0 := by rw [hc]; exact hwin hc
        obtain ⟨state', nR, nB, σb, σh, τc, τf, hrun', hnR, _, eR, _, pσ, pτ, sR, hreg⟩ :=
          root_check_regret f s reachProb0 reachProb1
            (nodeLengths_entryNode s hwf "" (s.cards 0) 0 "bh" "00" rfl)
            (nodeLengths_entryNode s hwf "b" (s.cards 1) 1 "cf" "11" rfl)
            (nodeLengths_entryNode s hwf "h" (s.cards 1) 1 "h" "1" rfl) hlt
            (entryNode_unlocked _ _ _ _ hl hu) (entryNode_unlocked _ _ _ _ hl hu)
            (entryNode_unlocked _ _ _ _ hl hu)
        rw [hrun] at hrun'
        have hs' : s' = state' := congrArg Prod.snd (Except.ok.inj hrun')
        subst hs'
        rw [hc] at hnR sR hreg
        rw [nodeAt_of_lookup _ _ _ hn] at sR hreg
        constructor
        · rw [hreg, oldRegrets_check_zero s _ (fun node hnode => (hq node hnode).1)]
          simp only [Option.getD_some, zero_sub, Option.some.injEq]
          apply max_eq_right
          have : 0 ≤ reachProb1 * σb * τc * s.betSize :=
            mul_nonneg (mul_nonneg (mul_nonneg hr1 pσ) pτ) hbet
          linarith
        · obtain ⟨a1, r1, s1, _⟩ := wellFormed_entryNode s hwf "" c 0 "bh" "00" rfl
          have l2 : "bh".length = 2 := by decide
          rw [l2] at a1 r1 s1
          have hz : (entryNode s (constructInfosetKey "" c) 0 "bh").regrets[1]? = some 0 := by
            rw [entryNode_regrets, l2]
            exact oldRegrets_check_zero s _ (fun node hnode => (hq node hnode).1)
          obtain ⟨x, y, hxy, hx⟩ := rmTarget_check_zero _ r1 hz a1
          have hm := (afterMatching_strategy_full _ 2 r1 s1).2
            (entryNode_unlocked s (constructInfosetKey "" c) 0 "bh" hl hu)
          rw [regretMatching_afterMatching _ (by omega)] at hnR
          rw [Except.ok.inj hnR, eR, hxy] at hm
          rw [sR, hm]
          exact ⟨x, y, rfl, hx⟩
      · have h2 : s' = (rootVisit s 0 reachProb0 reachProb1).2 := congrArg Prod.snd hr
        have hsame : lookupKey s'.strat (constructInfosetKey "" c) =
            lookupKey s.strat (constructInfosetKey "" c) := by
          rw [h2]
          exact rootVisit_lookup_ne s 0 reachProb0 reachProb1 _
            (fun e => hc (key_injective _ _ _ _ e).2)
            (fun e => key_root_ne_b _ _ e.symm) (fun e => key_root_ne_h _ _ e.symm)
        rw [hsame] at hn
        exact hq node hn

theorem wellFormed_winningExample : WellFormed winningExample := by
  constructor
  · intro hist card acts term node _ hl
    simp [winningExample, freshState, initState, lookupKey] at hl
  · intro hist card acts term s _ hl
    simp [winningExample, freshState, initState, lookupKey] at hl

/-- C20: let player 0 hold the higher card, `betSize ≥ 0`, `r1 ≥ 0`, the three
visited nodes be unlocked and the regrets of the root node non-negative, in a state
the program reaches or on a well-formed store. Then the root traversal `cfr(state, "", 0, r0, r1)` completes and the
new check regret of the root node is `max(old - r1 * σ_bet * τ_call * betSize, 0)`,
which is at most the old one. Hence along a training run that starts without a node
for the root infoset of a card `c` that always beats the opponent's card, that
node, once it exists, has check regret `0`, its stored strategy bets with
probability at least `1/2`, and so does the strategy `regretMatching` computes from
its regrets. -/
theorem check_regret_never_grows :
    (∀ (fuel : Nat) (state : CfrState) (reachProb0 reachProb1 : ℚ),
      WellFormed state ∨ Reachable state →
      state.cards 1 < state.cards 0 → 0 ≤ state.betSize → 0 ≤ reachProb1 →
      (entryNode state (constructInfosetKey "" (state.cards 0)) 0 "bh").locked = false →
      (entryNode state (constructInfosetKey "b" (state.cards 1)) 1 "cf").locked = false →
      (entryNode state (constructInfosetKey "h" (state.cards 1)) 1 "h").locked = false →
      (∀ x ∈ oldRegrets state (constructInfosetKey "" (state.cards 0)) 2, 0 ≤ x) →
      ∃ state' nR nB σb σh τc τf old new,
        cfr (fuel + 2) state "" 0 reachProb0 reachProb1 =
          Except.ok (rootValue state 0, state') ∧
        regretMatching (entryNode state (constructInfosetKey "" (state.cards 0)) 0 "bh") =
          Except.ok nR ∧
        regretMatching (entryNode state (constructInfosetKey "b" (state.cards 1)) 1 "cf") =
          Except.ok nB ∧
        nR.strategy = [σb, σh] ∧ nB.strategy = [τc, τf] ∧
        (oldRegrets state (constructInfosetKey "" (state.cards 0)) 2)[1]? = some old ∧
        (nodeAt state' (constructInfosetKey "" (state.cards 0))).regrets[1]? = some new ∧
        new = max (old - reachProb1 * σb * τc * state.betSize) 0 ∧ new ≤ old) ∧
    (∀ (c : Int) (s : CfrState), Trained c s →
      ∀ node, lookupKey s.strat (constructInfosetKey "" c) = some node →
        node.regrets[1]? = some 0 ∧
        (∃ x y, node.strategy = [x, y] ∧ 1 / 2 ≤ x) ∧
        ∃ node' x y, regretMatching node = Except.ok node' ∧ node'.strategy = [x, y] ∧
          1 / 2 ≤ x) := by
  constructor
  · intro fuel state reachProb0 reachProb1 hst hhi hbet hr1 hR hB hH hreg
    have hN1 : NodeLengths (entryNode state (constructInfosetKey "" (state.cards 0)) 0 "bh")
        2 :=
      hst.elim (fun hwf => nodeLengths_entryNode state hwf "" _ 0 "bh" "00" rfl)
        (fun hr => reachable_entry_lengths state hr "" _ 0 "bh" "00" rfl hR)
    have hN2 : NodeLengths (entryNode state (constructInfosetKey "b" (state.cards 1)) 1 "cf")
        2 :=
      hst.elim (fun hwf => nodeLengths_entryNode state hwf "b" _ 1 "cf" "11" rfl)
        (fun hr => reachable_entry_lengths state hr "b" _ 1 "cf" "11" rfl hB)
    have hN3 : NodeLengths (entryNode state (constructInfosetKey "h" (state.cards 1)) 1 "h")
        1 :=
      hst.elim (fun hwf => nodeLengths_entryNode state hwf "h" _ 1 "h" "1" rfl)
        (fun hr => reachable_entry_lengths state hr "h" _ 1 "h" "1" rfl hH)
    obtain ⟨state', nR, nB, σb, σh, τc, τf, hrun, hnR, hnB, eR, eB, pσ, pτ, _, hnew⟩ :=
      root_check_regret fuel state reachProb0 reachProb1 hN1 hN2 hN3 hhi hR hB hH
    have r1 := hN1.2.1
    have l2 : "bh".length = 2 := by decide
    rw [entryNode_regrets, l2] at r1
    obtain ⟨a, old, hab⟩ := length_eq_two_cases _ r1
    have hold : 0 ≤ old := hreg old (by rw [hab]; simp)
    have ho : (oldRegrets state (constructInfosetKey "" (state.cards 0)) 2)[1]? = some old := by
      rw [hab]; rfl
    rw [ho] at hnew
    refine ⟨state', nR, nB, σb, σh, τc, τf, old, _, hrun, hnR, hnB, eR, eB, ho, hnew, rfl, ?_⟩
    have : 0 ≤ reachProb1 * σb * τc * state.betSize :=
      mul_nonneg (mul_nonneg (mul_nonneg hr1 pσ) pτ) hbet
    exact max_le (by simp only [Option.getD_some]; linarith) hold
  · intro c s htr node hn
    obtain ⟨hwf, hl, hu, hq⟩ := trained_inv c s htr
    obtain ⟨hz, hst⟩ := hq node hn
    refine ⟨hz, hst, ?_⟩
    obtain ⟨a1, r1, s1, _⟩ := hwf.1 "" c "bh" "00" node rfl hn
    have l2 : "bh".length = 2 := by decide
    rw [l2] at a1 r1 s1
    obtain ⟨x, y, hxy, hx⟩ := rmTarget_check_zero node r1 hz a1
    refine ⟨afterMatching node, x, y, regretMatching_afterMatching _ (by omega), ?_, hx⟩
    rw [(afterMatching_strategy_full node 2 r1 s1).2 (hu _ node hn), hxy]

theorem check_regret_never_grows_witness :
    ∃ state' node, cfr 2 winningExample "" 0 1 1 = Except.ok (rootValue winningExample 0, state') ∧
      lookupKey state'.strat (constructInfosetKey "" 2) = some node ∧
      node.regrets[1]? = some 0 ∧ ∃ x y, node.strategy = [x, y] ∧ 1 / 2 ≤ x := by
  have hl : winningExample.lockedStrat = [] := rfl
  have hu : ∀ key node, lookupKey winningExample.strat key = some node →
      node.locked = false := by
    intro key node h
    simp [winningExample, freshState, initState, lookupKey] at h
  have hb : (0 : ℚ) ≤ winningExample.betSize := by
    norm_num [winningExample, freshState, initState]
  obtain ⟨state', _, _, _, _, _, _, _, _, hrun, _⟩ :=
    check_regret_never_grows.1 0 winningExample 1 1 (Or.inl wellFormed_winningExample)
      (by decide) hb
      (by norm_num) (entryNode_unlocked _ _ _ _ hl hu) (entryNode_unlocked _ _ _ _ hl hu)
      (entryNode_unlocked _ _ _ _ hl hu)
      (by
        intro x hx
        simp [oldRegrets, winningExample, freshState, initState, lookupKey] at hx
        rw [hx])
  have htr : Trained 2 state' :=
    Trained.run 2 1 1 _ (Trained.start winningExample wellFormed_winningExample hl hu rfl)
      (fun _ => by decide) hb (by norm_num) hrun
  obtain ⟨node, hnode⟩ := Option.isSome_iff_exists.1
    (cfr_creates 2 winningExample "" 0 1 1 _ hrun).1
  have hnode' : lookupKey state'.strat (constructInfosetKey "" 2) = some node := hnode
  obtain ⟨h1, h2, _⟩ := check_regret_never_grows.2 2 state' htr node hnode'
  exact ⟨state', node, hrun, hnode', h1, h2⟩

/-! ## Termination and the shape of the recursion -/

theorem map_eq_ok {α β : Type} (f : α → β) (x : Except Err α) (b : β) :
    x.map f = Except.ok b ↔ ∃ a, x = Except.ok a ∧ f a = b := by
  cases x with
  | error e => simp [Except.map]
  | ok a => simp [Except.map]

/-- A loop on a state with a ghost component computes what the loop on the plain
state computes. -/
theorem forIdx_erase {σ τ : Type} (f : τ → σ) (body : Nat → σ → Except Err σ)
    (body' : Nat → τ → Except Err τ)
    (h : ∀ i t, (body' i t).map f = body i (f t)) :
    ∀ (n : Nat) (t : τ), (forIdx n body' t).map f = forIdx n body (f t) := by
  intro n
  induction n with
  | zero => intro t; rfl
  | succ n ih =>
    intro t
    rw [forIdx_succ, forIdx_succ, ← ih t]
    cases forIdx n body' t with
    | error e => rfl
    | ok t' => exact h n t'

theorem actionStepLog_erase
    (recur : CfrState → String → Fin 2 → ℚ → ℚ → Except Err (ℚ × CfrState))
    (recurL : CfrState → String → Fin 2 → ℚ → ℚ → Except Err ((ℚ × CfrState) × List Event))
    (hrec : ∀ s h p a b, (recurL s h p a b).map Prod.fst = recur s h p a b)
    (hist : String) (player : Fin 2) (reachProb0 reachProb1 : ℚ)
    (acts term key : String) (i : Nat) (s : (CfrState × List ℚ × ℚ) × List Event) :
    (actionStepLog recurL hist player reachProb0 reachProb1 acts term key i s).map Prod.fst =
      actionStep recur hist player reachProb0 reachProb1 acts term key i s.1 := by
  unfold actionStepLog actionStep
  cases charAt acts i with
  | error e => rfl
  | ok action =>
    cases charAt term i with
    | error e => rfl
    | ok t =>
      simp only [ok_bind]
      by_cases ht : t = '1'
      · simp only [ht, if_true]
        cases showdown s.1.1 action player with
        | error e => rfl
        | ok u =>
          simp only [ok_bind, pure_eq_ok]
          cases vset s.1.2.1 i u with
          | error e => rfl
          | ok utilArr =>
            simp only [ok_bind]
            cases vget (nodeAt s.1.1 key).strategy i with
            | error e => rfl
            | ok p => rfl
      · simp only [ht, if_false]
        cases vget (nodeAt s.1.1 key).strategy i with
        | error e => rfl
        | ok q =>
          simp only [ok_bind]
          rw [← hrec]
          cases recurL s.1.1 (hist.push action) (opp player)
            (if player = 0 then reachProb0 * q else reachProb0)
            (if player = 0 then reachProb1 else reachProb1 * q) with
          | error e => rfl
          | ok c =>
            simp only [Except.map, ok_bind, pure_eq_ok]
            cases vset s.1.2.1 i (-c.1.1) with
            | error e => rfl
            | ok utilArr =>
              simp only [ok_bind]
              cases vget (nodeAt c.1.2 key).strategy i with
              | error e => rfl
              | ok p => rfl

theorem cfrBodyLog_erase
    (recur : CfrState → String → Fin 2 → ℚ → ℚ → Except Err (ℚ × CfrState))
    (recurL : CfrState → String → Fin 2 → ℚ → ℚ → Except Err ((ℚ × CfrState) × List Event))
    (hrec : ∀ s h p a b, (recurL s h p a b).map Prod.fst = recur s h p a b)
    (state : CfrState) (hist : String) (player : Fin 2) (reachProb0 reachProb1 : ℚ) :
    (cfrBodyLog recurL state hist player reachProb0 reachProb1).map Prod.fst =
      cfrBody recur state hist player reachProb0 reachProb1 := by
  unfold cfrBodyLog cfrBody
  cases actionTable hist with
  | error e => rfl
  | ok tbl =>
    simp only [ok_bind]
    by_cases hlen : tbl.1.length = 0
    · simp only [hlen, if_true]; rfl
    · simp only [hlen, if_false]
      cases createNode state (getInfosetKey state player hist) player tbl.1 with
      | error e => rfl
      | ok st1 =>
        simp only [ok_bind]
        cases regretMatching (nodeAt st1 (getInfosetKey state player hist)) with
        | error e => rfl
        | ok n1 =>
          simp only [ok_bind]
          cases accumulateAvgStrategy n1 (if player = 0 then reachProb0 else reachProb1) with
          | error e => rfl
          | ok n2 =>
            simp only [ok_bind]
            have hloop := forIdx_erase Prod.fst
              (actionStep recur hist player reachProb0 reachProb1 tbl.1 tbl.2
                (getInfosetKey state player hist))
              (actionStepLog recurL hist player reachProb0 reachProb1 tbl.1 tbl.2
                (getInfosetKey state player hist))
              (fun i t => actionStepLog_erase recur recurL hrec hist player reachProb0
                reachProb1 tbl.1 tbl.2 (getInfosetKey state player hist) i t)
              tbl.1.length
              ((setNode st1 (getInfosetKey state player hist) n2,
                List.replicate tbl.1.length 0, 0),
                [Event.visit (getInfosetKey state player hist)])
            simp only at hloop
            rw [← hloop]
            cases forIdx tbl.1.length
              (actionStepLog recurL hist player reachProb0 reachProb1 tbl.1 tbl.2
                (getInfosetKey state player hist))
              ((setNode st1 (getInfosetKey state player hist) n2,
                List.replicate tbl.1.length 0, 0),
                [Event.visit (getInfosetKey state player hist)]) with
            | error e => rfl
            | ok sL =>
              simp only [Except.map, ok_bind]
              cases forIdx tbl.1.length
                (regretStep player reachProb0 reachProb1 sL.1.2.1 sL.1.2.2
                  (getInfosetKey state player hist)) sL.1.1 with
              | error e => rfl
              | ok st2 => rfl

/-- The traversal with the log computes what `cfr` computes: the same value and
state when it completes, the same error when it fails. -/
theorem cfrLog_erase (fuel : Nat) : ∀ (state : CfrState) (hist : String) (player : Fin 2)
    (reachProb0 reachProb1 : ℚ),
    (cfrLog fuel state hist player reachProb0 reachProb1).map Prod.fst =
      cfr fuel state hist player reachProb0 reachProb1 := by
  induction fuel with
  | zero => intro state hist player reachProb0 reachProb1; rfl
  | succ fuel ih =>
    intro state hist player reachProb0 reachProb1
    exact cfrBodyLog_erase (cfr fuel) (cfrLog fuel) ih state hist player reachProb0 reachProb1

theorem actionStepLog_terminal_log
    (recurL : CfrState → String → Fin 2 → ℚ → ℚ → Except Err ((ℚ × CfrState) × List Event))
    (hist : String) (player : Fin 2) (reachProb0 reachProb1 : ℚ)
    (acts term key : String) (i : Nat) (a : Char)
    (hact : charAt acts i = Except.ok a) (hterm : charAt term i = Except.ok '1')
    (s r : (CfrState × List ℚ × ℚ) × List Event)
    (h : actionStepLog recurL hist player reachProb0 reachProb1 acts term key i s =
      Except.ok r) :
    r.2 = s.2 ++ [Event.payoff hist a player] ∧ r.1.1 = s.1.1 := by
  simp only [actionStepLog, hact, hterm, ok_bind, if_true, pure_eq_ok] at h
  obtain ⟨u, _, h⟩ := (bind_eq_ok _ _ _).1 h
  obtain ⟨utilArr, _, h⟩ := (bind_eq_ok _ _ _).1 h
  obtain ⟨p, _, h⟩ := (bind_eq_ok _ _ _).1 h
  have hr' := Except.ok.inj h
  subst hr'
  exact ⟨rfl, rfl⟩

theorem actionStepLog_recur_log
    (recurL : CfrState → String → Fin 2 → ℚ → ℚ → Except Err ((ℚ × CfrState) × List Event))
    (hist : String) (player : Fin 2) (reachProb0 reachProb1 : ℚ)
    (acts term key : String) (i : Nat) (a : Char)
    (hact : charAt acts i = Except.ok a) (hterm : charAt term i = Except.ok '0')
    (s r : (CfrState × List ℚ × ℚ) × List Event)
    (h : actionStepLog recurL hist player reachProb0 reachProb1 acts term key i s =
      Except.ok r) :
    ∃ x y c, recurL s.1.1 (hist.push a) (opp player) x y = Except.ok c ∧
      r.2 = s.2 ++ Event.call (hist.push a) (opp player) :: c.2 ∧ r.1.1 = c.1.2 := by
  have h01 : ¬ ('0' = '1') := by decide
  simp only [actionStepLog, hact, hterm, ok_bind, h01, if_false, pure_eq_ok] at h
  obtain ⟨q, _, h⟩ := (bind_eq_ok _ _ _).1 h
  obtain ⟨c, hc, h⟩ := (bind_eq_ok _ _ _).1 h
  obtain ⟨utilArr, _, h⟩ := (bind_eq_ok _ _ _).1 h
  obtain ⟨p, _, h⟩ := (bind_eq_ok _ _ _).1 h
  have hr' := Except.ok.inj h
  subst hr'
  exact ⟨_, _, c, hc, rfl, rfl⟩

/-- The parts of a completed `cfrBodyLog`: the state in which the loop over the
actions starts has the cards of the state of the call, and the log is the log at
the end of that loop, which starts from the visit of the node. -/
theorem cfrBodyLog_parts
    (recurL : CfrState → String → Fin 2 → ℚ → ℚ → Except Err ((ℚ × CfrState) × List Event))
    (state : CfrState) (hist : String) (player : Fin 2) (reachProb0 reachProb1 : ℚ)
    (acts term : String) (htbl : actionTable hist = Except.ok (acts, term))
    (hlen : 0 < acts.length) (r : (ℚ × CfrState) × List Event)
    (h : cfrBodyLog recurL state hist player reachProb0 reachProb1 = Except.ok r) :
    ∃ s0 sL, s0.cards = state.cards ∧
      forIdx acts.length
        (actionStepLog recurL hist player reachProb0 reachProb1 acts term
          (getInfosetKey state player hist))
        ((s0, List.replicate acts.length 0, 0), [Event.visit (getInfosetKey state player hist)]) =
        Except.ok sL ∧ r.2 = sL.2 := by
  unfold cfrBodyLog at h
  simp only [htbl, ok_bind, Nat.ne_of_gt hlen, if_false, createNode_eq _ _ _ _ hlen] at h
  obtain ⟨n1, _, h⟩ := (bind_eq_ok _ _ _).1 h
  obtain ⟨n2, _, h⟩ := (bind_eq_ok _ _ _).1 h
  obtain ⟨sL, hs, h⟩ := (bind_eq_ok _ _ _).1 h
  obtain ⟨st2, _, h⟩ := (bind_eq_ok _ _ _).1 h
  have hr := Except.ok.inj h
  subst hr
  refine ⟨_, sL, ?_, hs, rfl⟩
  rw [setNode_cards]
  split <;> rfl

/-- The log of a completed visit at a non-empty history: the visit of its node,
then one payoff evaluation for every action, in the order of the actions. -/
theorem cfrBodyLog_leaf_log
    (recurL : CfrState → String → Fin 2 → ℚ → ℚ → Except Err ((ℚ × CfrState) × List Event))
    (state : CfrState) (hist : String) (player : Fin 2) (reachProb0 reachProb1 : ℚ)
    (hne : hist.data ≠ []) (r : (ℚ × CfrState) × List Event)
    (h : cfrBodyLog recurL state hist player reachProb0 reachProb1 = Except.ok r) :
    ∃ acts term, actionTable hist = Except.ok (acts, term) ∧
      r.2 = Event.visit (getInfosetKey state player hist) ::
        acts.data.map (fun a => Event.payoff hist a player) := by
  cases htbl : actionTable hist with
  | error e =>
    unfold cfrBodyLog at h
    rw [htbl] at h
    cases h
  | ok tbl =>
    rcases (actionTable_eq_ok hist tbl).1 htbl with ⟨he, _⟩ | ⟨_, _, e⟩ | ⟨_, _, e⟩
    · exact absurd he hne
    · subst e
      refine ⟨"cf", "11", rfl, ?_⟩
      obtain ⟨s0, sL, _, hs, hr⟩ := cfrBodyLog_parts recurL state hist player reachProb0
        reachProb1 "cf" "11" htbl (by decide) r h
      have hl2 : "cf".length = 2 := by decide
      rw [hl2, forIdx_two] at hs
      obtain ⟨s1, hs1, hs2⟩ := (bind_eq_ok _ _ _).1 hs
      have e1 := actionStepLog_terminal_log recurL hist player reachProb0 reachProb1 "cf" "11"
        _ 0 'c' rfl rfl _ _ hs1
      have e2 := actionStepLog_terminal_log recurL hist player reachProb0 reachProb1 "cf" "11"
        _ 1 'f' rfl rfl _ _ hs2
      rw [hr, e2.1, e1.1]
      rfl
    · subst e
      refine ⟨"h", "1", rfl, ?_⟩
      obtain ⟨s0, sL, _, hs, hr⟩ := cfrBodyLog_parts recurL state hist player reachProb0
        reachProb1 "h" "1" htbl (by decide) r h
      have hl1 : "h".length = 1 := by decide
      rw [hl1, forIdx_one] at hs
      have e1 := actionStepLog_terminal_log recurL hist player reachProb0 reachProb1 "h" "1"
        _ 0 'h' rfl rfl _ _ hs
      rw [hr, e1.1]
      rfl

theorem cfrLog_cards (fuel : Nat) (state : CfrState) (hist : String) (player : Fin 2)
    (reachProb0 reachProb1 : ℚ) (c : (ℚ × CfrState) × List Event)
    (h : cfrLog fuel state hist player reachProb0 reachProb1 = Except.ok c) :
    c.1.2.cards = state.cards := by
  have he := cfrLog_erase fuel state hist player reachProb0 reachProb1
  rw [h] at he
  exact (cfr_preserves (fun _ _ _ => True) (fun _ _ _ _ _ => trivial)
    (fun _ _ _ _ _ _ => trivial) (fun _ _ _ _ _ _ _ _ => trivial) fuel state hist player
    reachProb0 reachProb1 c.1 he.symm (fun _ _ _ => trivial)).2.2.1

theorem getInfosetKey_congr (s t : CfrState) (h : s.cards = t.cards) (player : Fin 2)
    (hist : String) : getInfosetKey s player hist = getInfosetKey t player hist := by
  unfold getInfosetKey
  rw [h]

/-- The log of a completed traversal at the empty history is `rootLog`: the visit of
the root node, the call for the history `b` with its visit and its two payoff
evaluations, the call for the history `h` with its visit and its one payoff
evaluation. -/
theorem cfrLog_root_log (fuel : Nat) (state : CfrState) (player : Fin 2)
    (reachProb0 reachProb1 : ℚ) (r : (ℚ × CfrState) × List Event)
    (h : cfrLog fuel state "" player reachProb0 reachProb1 = Except.ok r) :
    r.2 = rootLog state player := by
  cases fuel with
  | zero => cases h
  | succ fuel =>
    obtain ⟨s0, sL, hc0, hs, hr⟩ := cfrBodyLog_parts (cfrLog fuel) state "" player reachProb0
      reachProb1 "bh" "00" rfl (by decide) r h
    have hl2 : "bh".length = 2 := by decide
    rw [hl2, forIdx_two] at hs
    obtain ⟨s1, hs1, hs2⟩ := (bind_eq_ok _ _ _).1 hs
    obtain ⟨x, y, c, hcall, hlog1, hst1⟩ := actionStepLog_recur_log (cfrLog fuel) "" player
      reachProb0 reachProb1 "bh" "00" _ 0 'b' rfl rfl _ _ hs1
    obtain ⟨x', y', c', hcall', hlog2, _⟩ := actionStepLog_recur_log (cfrLog fuel) "" player
      reachProb0 reachProb1 "bh" "00" _ 1 'h' rfl rfl _ _ hs2
    cases fuel with
    | zero => cases hcall
    | succ fuel =>
      have hcb := cfrLog_cards _ _ _ _ _ _ _ hcall
      obtain ⟨acts, term, htbl, hcl⟩ := cfrBodyLog_leaf_log (cfrLog fuel) _ _ _ _ _
        (by decide) c hcall
      obtain ⟨acts', term', htbl', hcl'⟩ := cfrBodyLog_leaf_log (cfrLog fuel) _ _ _ _ _
        (by decide) c' hcall'
      have e1 : actionTable ("".push 'b') = Except.ok ("cf", "11") := rfl
      have e2 : actionTable ("".push 'h') = Except.ok ("h", "1") := rfl
      rw [e1] at htbl
      rw [e2] at htbl'
      obtain ⟨rfl, rfl⟩ := Prod.mk.inj (Except.ok.inj htbl)
      obtain ⟨rfl, rfl⟩ := Prod.mk.inj (Except.ok.inj htbl')
      have k1 : getInfosetKey s0 (opp player) ("".push 'b') =
          getInfosetKey state (opp player) "b" := getInfosetKey_congr _ _ hc0 _ _
      have k2 : getInfosetKey s1.1.1 (opp player) ("".push 'h') =
          getInfosetKey state (opp player) "h" :=
        getInfosetKey_congr _ _ (by rw [hst1, hcb]; exact hc0) _ _
      rw [hr, hlog2, hcl', hlog1, hcl, k1, k2]
      rfl

/-! ## No call runs out of fuel -/

theorem bind_ne_fuel {α β : Type} (x : Except Err α) (f : α → Except Err β)
    (hx : x ≠ Except.error Err.outOfFuel) (hf : ∀ a, f a ≠ Except.error Err.outOfFuel) :
    (x >>= f) ≠ Except.error Err.outOfFuel := by
  cases x with
  | error e =>
    rw [error_bind]
    intro h
    apply hx
    cases h
    rfl
  | ok a => exact hf a

theorem ok_ne_fuel {α : Type} (a : α) :
    (Except.ok a : Except Err α) ≠ Except.error Err.outOfFuel := by
  intro h; cases h

theorem forIdx_ne_fuel {σ : Type} (n : Nat) (body : Nat → σ → Except Err σ) (init : σ)
    (h : ∀ i s, body i s ≠ Except.error Err.outOfFuel) :
    forIdx n body init ≠ Except.error Err.outOfFuel := by
  induction n with
  | zero => exact ok_ne_fuel _
  | succ n ih =>
    rw [forIdx_succ]
    exact bind_ne_fuel _ _ ih (h n)

theorem vget_ne_fuel (v : List ℚ) (i : Nat) : vget v i ≠ Except.error Err.outOfFuel := by
  unfold vget
  split <;> (intro h; cases h)

theorem vset_ne_fuel (v : List ℚ) (i : Nat) (x : ℚ) :
    vset v i x ≠ Except.error Err.outOfFuel := by
  unfold vset
  split <;> (intro h; cases h)

theorem charAt_ne_fuel (s : String) (i : Nat) : charAt s i ≠ Except.error Err.outOfFuel := by
  unfold charAt
  split <;> (intro h; cases h)

theorem regretMatching_ne_fuel (node : StrategyNode) :
    regretMatching node ≠ Except.error Err.outOfFuel := by
  unfold regretMatching
  split
  · exact ok_ne_fuel _
  · refine bind_ne_fuel _ _ (forIdx_ne_fuel _ _ _ (fun i s => ?_))
      (fun s => forIdx_ne_fuel _ _ _ (fun i nd => ?_))
    · unfold regretMatchingStep1
      exact bind_ne_fuel _ _ (vget_ne_fuel _ _) (fun _ =>
        bind_ne_fuel _ _ (vset_ne_fuel _ _ _) (fun _ =>
          bind_ne_fuel _ _ (vget_ne_fuel _ _) (fun _ => ok_ne_fuel _)))
    · unfold regretMatchingStep2
      split
      · exact bind_ne_fuel _ _ (vget_ne_fuel _ _) (fun _ =>
          bind_ne_fuel _ _ (vset_ne_fuel _ _ _) (fun _ => ok_ne_fuel _))
      · exact bind_ne_fuel _ _ (vset_ne_fuel _ _ _) (fun _ => ok_ne_fuel _)

theorem accumulateAvgStrategy_ne_fuel (node : StrategyNode) (weight : ℚ) :
    accumulateAvgStrategy node weight ≠ Except.error Err.outOfFuel := by
  unfold accumulateAvgStrategy
  refine forIdx_ne_fuel _ _ _ (fun i nd => ?_)
  unfold accumulateAvgStrategyStep
  exact bind_ne_fuel _ _ (vget_ne_fuel _ _) (fun _ =>
    bind_ne_fuel _ _ (vget_ne_fuel _ _) (fun _ =>
      bind_ne_fuel _ _ (vset_ne_fuel _ _ _) (fun _ => ok_ne_fuel _)))

theorem showdown_ne_fuel (state : CfrState) (action : Char) (player : Fin 2) :
    showdown state action player ≠ Except.error Err.outOfFuel := by
  unfold showdown
  simp only
  repeat' split
  all_goals (intro h; cases h)

theorem actionTable_ne_fuel (hist : String) :
    actionTable hist ≠ Except.error Err.outOfFuel := by
  unfold actionTable
  repeat' split
  all_goals (intro h; cases h)

theorem createNode_ne_fuel (state : CfrState) (key : String) (player : Fin 2)
    (acts : String) : createNode state key player acts ≠ Except.error Err.outOfFuel := by
  unfold createNode
  split
  · refine bind_ne_fuel _ _ ?_ (fun snode => ?_)
    · unfold initStrategy
      simp only
      split <;> (intro h; cases h)
    · split <;> exact ok_ne_fuel _
  · exact ok_ne_fuel _

theorem regretStep_ne_fuel (player : Fin 2) (reachProb0 reachProb1 : ℚ) (utilArr : List ℚ)
    (avgUtil : ℚ) (key : String) (i : Nat) (state : CfrState) :
    regretStep player reachProb0 reachProb1 utilArr avgUtil key i state ≠
      Except.error Err.outOfFuel := by
  unfold regretStep
  exact bind_ne_fuel _ _ (vget_ne_fuel _ _) (fun _ =>
    bind_ne_fuel _ _ (vget_ne_fuel _ _) (fun _ =>
      bind_ne_fuel _ _ (vset_ne_fuel _ _ _) (fun _ =>
        bind_ne_fuel _ _ (vget_ne_fuel _ _) (fun _ =>
          bind_ne_fuel _ _ (vset_ne_fuel _ _ _) (fun _ => ok_ne_fuel _)))))

theorem actionStep_ne_fuel
    (recur : CfrState → String → Fin 2 → ℚ → ℚ → Except Err (ℚ × CfrState))
    (hist : String) (player : Fin 2) (reachProb0 reachProb1 : ℚ)
    (acts term key : String) (i : Nat) (s : CfrState × List ℚ × ℚ)
    (hrec : ∀ s a p x y, recur s (hist.push a) p x y ≠ Except.error Err.outOfFuel) :
    actionStep recur hist player reachProb0 reachProb1 acts term key i s ≠
      Except.error Err.outOfFuel := by
  unfold actionStep
  refine bind_ne_fuel _ _ (charAt_ne_fuel _ _) (fun action => ?_)
  refine bind_ne_fuel _ _ (charAt_ne_fuel _ _) (fun t => ?_)
  have hjp : ∀ r : ℚ × CfrState,
      (do
        let utilArr ← vset s.2.1 i r.1
        let p ← vget (nodeAt r.2 key).strategy i
        pure (r.2, utilArr, s.2.2 + r.1 * p) : Except Err (CfrState × List ℚ × ℚ)) ≠
        Except.error Err.outOfFuel :=
    fun r => bind_ne_fuel _ _ (vset_ne_fuel _ _ _) (fun _ =>
      bind_ne_fuel _ _ (vget_ne_fuel _ _) (fun _ => ok_ne_fuel _))
  dsimp only
  split
  · exact bind_ne_fuel _ _ (showdown_ne_fuel _ _ _) (fun _ =>
      bind_ne_fuel _ _ (ok_ne_fuel _) (fun r => hjp r))
  · exact bind_ne_fuel _ _ (vget_ne_fuel _ _) (fun _ =>
      bind_ne_fuel _ _ (hrec _ _ _ _ _) (fun _ =>
        bind_ne_fuel _ _ (ok_ne_fuel _) (fun r => hjp r)))

/-- A visit runs out of fuel only if a recursive call does. -/
theorem cfrBody_ne_fuel
    (recur : CfrState → String → Fin 2 → ℚ → ℚ → Except Err (ℚ × CfrState))
    (state : CfrState) (hist : String) (player : Fin 2) (reachProb0 reachProb1 : ℚ)
    (hrec : ∀ s a p x y, recur s (hist.push a) p x y ≠ Except.error Err.outOfFuel) :
    cfrBody recur state hist player reachProb0 reachProb1 ≠ Except.error Err.outOfFuel := by
  unfold cfrBody
  refine bind_ne_fuel _ _ (actionTable_ne_fuel _) (fun tbl => ?_)
  simp only
  split
  · intro h; cases h
  · refine bind_ne_fuel _ _ (createNode_ne_fuel _ _ _ _) (fun st1 => ?_)
    refine bind_ne_fuel _ _ (regretMatching_ne_fuel _) (fun n1 => ?_)
    refine bind_ne_fuel _ _ (accumulateAvgStrategy_ne_fuel _ _) (fun n2 => ?_)
    refine bind_ne_fuel _ _ (forIdx_ne_fuel _ _ _ (fun i s =>
      actionStep_ne_fuel recur hist player reachProb0 reachProb1 _ _ _ i s hrec)) (fun s => ?_)
    exact bind_ne_fuel _ _ (forIdx_ne_fuel _ _ _ (fun i st => regretStep_ne_fuel _ _ _ _ _ _ i st))
      (fun _ => ok_ne_fuel _)

theorem push_data_ne_nil (hist : String) (a : Char) : (hist.push a).data ≠ [] := by
  show hist.data ++ [a] ≠ []
  simp

/-- At a non-empty history every action is terminal, so a step of the loop does
not use the recursive call. -/
theorem actionStep_leaf_congr
    (recur recur' : CfrState → String → Fin 2 → ℚ → ℚ → Except Err (ℚ × CfrState))
    (hist : String) (player : Fin 2) (reachProb0 reachProb1 : ℚ)
    (acts term key : String) (hterm : ∀ i c, charAt term i = Except.ok c → c = '1')
    (i : Nat) (s : CfrState × List ℚ × ℚ) :
    actionStep recur hist player reachProb0 reachProb1 acts term key i s =
      actionStep recur' hist player reachProb0 reachProb1 acts term key i s := by
  unfold actionStep
  cases charAt acts i with
  | error e => rfl
  | ok action =>
    cases ht : charAt term i with
    | error e => rfl
    | ok t =>
      have := hterm i t ht
      subst this
      simp only [ok_bind, if_true]

theorem charAt_ones (i : Nat) (c : Char) :
    (charAt "11" i = Except.ok c → c = '1') ∧ (charAt "1" i = Except.ok c → c = '1') := by
  match i with
  | 0 => exact ⟨fun h => (Except.ok.inj h).symm, fun h => (Except.ok.inj h).symm⟩
  | 1 => exact ⟨fun h => (Except.ok.inj h).symm, fun h => (by cases h)⟩
  | n + 2 => exact ⟨fun h => (by cases h), fun h => (by cases h)⟩

/-- At a non-empty history the visit does not depend on the recursive call: it
makes none. -/
theorem cfrBody_leaf_congr
    (recur recur' : CfrState → String → Fin 2 → ℚ → ℚ → Except Err (ℚ × CfrState))
    (state : CfrState) (hist : String) (player : Fin 2) (reachProb0 reachProb1 : ℚ)
    (hne : hist.data ≠ []) :
    cfrBody recur state hist player reachProb0 reachProb1 =
      cfrBody recur' state hist player reachProb0 reachProb1 := by
  unfold cfrBody
  cases htbl : actionTable hist with
  | error e => rfl
  | ok tbl =>
    have hterm : ∀ i c, charAt tbl.2 i = Except.ok c → c = '1' := by
      rcases (actionTable_eq_ok hist tbl).1 htbl with ⟨he, _⟩ | ⟨_, _, e⟩ | ⟨_, _, e⟩
      · exact absurd he hne
      · subst e; exact fun i c => (charAt_ones i c).1
      · subst e; exact fun i c => (charAt_ones i c).2
    have hstep : ∀ key,
        actionStep recur hist player reachProb0 reachProb1 tbl.1 tbl.2 key =
          actionStep recur' hist player reachProb0 reachProb1 tbl.1 tbl.2 key :=
      fun key => funext (fun i => funext (fun s =>
        actionStep_leaf_congr recur recur' hist player reachProb0 reachProb1 tbl.1 tbl.2 key
          hterm i s))
    simp only [ok_bind, hstep]

/-- A visit depends on the recursive call only through its values at non-empty
histories. -/
theorem cfrBody_congr
    (recur recur' : CfrState → String → Fin 2 → ℚ → ℚ → Except Err (ℚ × CfrState))
    (h : ∀ s hist p x y, hist.data ≠ [] → recur s hist p x y = recur' s hist p x y)
    (state : CfrState) (hist : String) (player : Fin 2) (reachProb0 reachProb1 : ℚ) :
    cfrBody recur state hist player reachProb0 reachProb1 =
      cfrBody recur' state hist player reachProb0 reachProb1 := by
  have hr : ∀ s a p x y, recur s (hist.push a) p x y = recur' s (hist.push a) p x y :=
    fun s a p x y => h s _ p x y (push_data_ne_nil hist a)
  have hstep : ∀ acts term key,
      actionStep recur hist player reachProb0 reachProb1 acts term key =
        actionStep recur' hist player reachProb0 reachProb1 acts term key := by
    intro acts term key
    funext i s
    unfold actionStep
    simp only [hr]
  unfold cfrBody
  simp only [hstep]

/-- Fuel for two nested calls is enough on every input: more fuel changes
nothing. -/
theorem cfr_fuel_two (fuel : Nat) (state : CfrState) (hist : String) (player : Fin 2)
    (reachProb0 reachProb1 : ℚ) :
    cfr (fuel + 2) state hist player reachProb0 reachProb1 =
      cfr 2 state hist player reachProb0 reachProb1 := by
  show cfrBody (cfr (fuel + 1)) state hist player reachProb0 reachProb1 =
    cfrBody (cfr 1) state hist player reachProb0 reachProb1
  apply cfrBody_congr
  intro s h p x y hne
  exact cfrBody_leaf_congr (cfr fuel) (cfr 0) s h p x y hne

/-- With fuel for two nested calls no call runs out of fuel. -/
theorem cfr_two_ne_fuel (state : CfrState) (hist : String) (player : Fin 2)
    (reachProb0 reachProb1 : ℚ) :
    cfr 2 state hist player reachProb0 reachProb1 ≠ Except.error Err.outOfFuel := by
  show cfrBody (cfr 1) state hist player reachProb0 reachProb1 ≠ _
  apply cfrBody_ne_fuel
  intro s a p x y
  show cfrBody (cfr 0) s (hist.push a) p x y ≠ _
  rw [cfrBody_leaf_congr (cfr 0) (fun _ _ _ _ _ => Except.error Err.assertFail) s _ p x y
    (push_data_ne_nil hist a)]
  apply cfrBody_ne_fuel
  intro _ _ _ _ _ h
  cases h

/-- C17: `cfr` terminates on every input, with recursion depth at most 2: fuel for
two nested calls never runs out, and more fuel changes nothing; one level is not
enough to complete a traversal at the empty history. A visit at a non-empty
history makes no recursive call (it does not depend on the recursive call, and its
log holds its visit and one payoff evaluation per action). The traversal with the
log computes what `cfr` computes, and the log of a completed traversal at the
empty history is: the visit of the root node, the call for `b` with the other
player acting, its visit and the payoff evaluations for call and fold, the call for
`h` with the other player acting, its visit and the payoff evaluation for check;
so two calls, three visits under three different keys, and one payoff evaluation
for each of bet-call, bet-fold and check-check. For the traversal of player 0 the
other player is player 1. -/
theorem cfr_recursion_shape :
    (∀ (fuel : Nat) (state : CfrState) (hist : String) (player : Fin 2)
      (reachProb0 reachProb1 : ℚ),
      cfr (fuel + 2) state hist player reachProb0 reachProb1 =
        cfr 2 state hist player reachProb0 reachProb1 ∧
      cfr 2 state hist player reachProb0 reachProb1 ≠ Except.error Err.outOfFuel) ∧
    (∀ (state : CfrState) (player : Fin 2) (reachProb0 reachProb1 : ℚ) (r : ℚ × CfrState),
      cfr 1 state "" player reachProb0 reachProb1 ≠ Except.ok r) ∧
    (∀ (recur recur' : CfrState → String → Fin 2 → ℚ → ℚ → Except Err (ℚ × CfrState))
      (state : CfrState) (hist : String) (player : Fin 2) (reachProb0 reachProb1 : ℚ),
      hist.data ≠ [] →
      cfrBody recur state hist player reachProb0 reachProb1 =
        cfrBody recur' state hist player reachProb0 reachProb1) ∧
    (∀ (fuel : Nat) (state : CfrState) (hist : String) (player : Fin 2)
      (reachProb0 reachProb1 : ℚ),
      (cfrLog fuel state hist player reachProb0 reachProb1).map Prod.fst =
        cfr fuel state hist player reachProb0 reachProb1) ∧
    (∀ (fuel : Nat) (state : CfrState) (hist : String) (player : Fin 2)
      (reachProb0 reachProb1 : ℚ) (r : ℚ × CfrState) (log : List Event),
      hist.data ≠ [] →
      cfrLog fuel state hist player reachProb0 reachProb1 = Except.ok (r, log) →
      ∃ acts term, actionTable hist = Except.ok (acts, term) ∧
        log = Event.visit (getInfosetKey state player hist) ::
          acts.data.map (fun a => Event.payoff hist a player)) ∧
    (∀ (fuel : Nat) (state : CfrState) (player : Fin 2) (reachProb0 reachProb1 : ℚ)
      (r : ℚ × CfrState) (log : List Event),
      cfrLog fuel state "" player reachProb0 reachProb1 = Except.ok (r, log) →
      log = rootLog state player) ∧
    (∀ state : CfrState, rootLog state 0 =
      [ Event.visit (constructInfosetKey "" (state.cards 0)),
        Event.call "b" 1,
        Event.visit (constructInfosetKey "b" (state.cards 1)),
        Event.payoff "b" 'c' 1,
        Event.payoff "b" 'f' 1,
        Event.call "h" 1,
        Event.visit (constructInfosetKey "h" (state.cards 1)),
        Event.payoff "h" 'h' 1 ]) ∧
    (∀ (state : CfrState) (player : Fin 2),
      getInfosetKey state player "" ≠ getInfosetKey state (opp player) "b" ∧
      getInfosetKey state player "" ≠ getInfosetKey state (opp player) "h" ∧
      getInfosetKey state (opp player) "b" ≠ getInfosetKey state (opp player) "h") := by
  refine ⟨fun fuel state hist player reachProb0 reachProb1 =>
      ⟨cfr_fuel_two fuel state hist player reachProb0 reachProb1,
        cfr_two_ne_fuel state hist player reachProb0 reachProb1⟩,
    cfr_one_root, cfrBody_leaf_congr, cfrLog_erase, ?_, ?_, fun _ => rfl,
    fun state player => ⟨key_root_ne_b _ _, key_root_ne_h _ _, key_b_ne_h _ _⟩⟩
  · intro fuel state hist player reachProb0 reachProb1 r log hne h
    cases fuel with
    | zero => cases h
    | succ fuel =>
      exact cfrBodyLog_leaf_log (cfrLog fuel) state hist player reachProb0 reachProb1 hne _ h
  · intro fuel state player reachProb0 reachProb1 r log h
    exact cfrLog_root_log fuel state player reachProb0 reachProb1 _ h

theorem cfr_recursion_shape_witness :
    ∃ r, cfrLog 2 exampleState "" 0 1 1 =
      Except.ok (r,
        [ Event.visit "|0", Event.call "b" 1, Event.visit "b|1", Event.payoff "b" 'c' 1,
          Event.payoff "b" 'f' 1, Event.call "h" 1, Event.visit "h|1",
          Event.payoff "h" 'h' 1 ]) := by
  obtain ⟨r, hr⟩ : ∃ r, cfr 2 exampleState "" 0 1 1 = Except.ok r :=
    ⟨_, (cfr_root 0 exampleState 0 1 1 _).2
      ⟨rootOk_of_wellFormed exampleState 0 wellFormed_exampleState (by decide), rfl⟩⟩
  have he := cfr_recursion_shape.2.2.2.1 2 exampleState "" 0 1 1
  rw [hr] at he
  obtain ⟨c, hc, hcr⟩ := (map_eq_ok _ _ _).1 he
  have hlog := cfr_recursion_shape.2.2.2.2.2.1 2 exampleState 0 1 1 c.1 c.2 hc
  refine ⟨c.1, ?_⟩
  rw [hc]
  have : c.2 = [ Event.visit "|0", Event.call "b" 1, Event.visit "b|1",
      Event.payoff "b" 'c' 1, Event.payoff "b" 'f' 1, Event.call "h" 1, Event.visit "h|1",
      Event.payoff "h" 'h' 1 ] := by
    rw [hlog]
    decide
  rw [← this]

theorem reachable_exampleState : Reachable exampleState :=
  Reachable.deal (fun p => if p = 0 then 0 else 1) (fun _ => 2 ^ 64 - 1) 1 1
    (Reachable.init
      { cards := fun _ => 0
        cardMask := fun _ => 0
        betSize := 0
        initialPotSize := 0
        strat := []
        lockedStrat := [] })

/-- C14: let the store be well-formed: the state is one the program reaches, the
vectors `regrets`, `strategy` and `strategySum` of every node have the length of
the action list of the node, and every override has the number of actions of the
history of its key as length; or, for an arbitrary state, the store is well-formed
in the sense of `WellFormed`. Then the root traversal `cfr(state, "", 0, r0, r1)`
fails exactly when the two private cards are equal, and then with the assertion of
`showdown`; with distinct cards it completes (no assertion fails, no index is out
of range). -/
theorem cfr_root_fails_iff (fuel : Nat) (state : CfrState) (reachProb0 reachProb1 : ℚ)
    (hwf : WellFormed state ∨ (Reachable state ∧ WellFormedNodes state)) :
    ((∃ e, cfr (fuel + 2) state "" 0 reachProb0 reachProb1 = Except.error e) ↔
      state.cards 0 = state.cards 1) ∧
    (state.cards 0 = state.cards 1 →
      cfr (fuel + 2) state "" 0 reachProb0 reachProb1 = Except.error Err.assertFail) ∧
    (state.cards 0 ≠ state.cards 1 →
      ∃ r, cfr (fuel + 2) state "" 0 reachProb0 reachProb1 = Except.ok r) := by
  have hwf' : WellFormed state :=
    hwf.elim id (fun h => wellFormed_of_reachable state h.1 h.2)
  have hfail : state.cards 0 = state.cards 1 →
      cfr (fuel + 2) state "" 0 reachProb0 reachProb1 = Except.error Err.assertFail := by
    intro hc
    exact cfr_root_equal_cards fuel state 0 reachProb0 reachProb1
      (visitOk_of_wellFormed state hwf' "" 0 0 "bh" "00" rfl)
      (visitOk_of_wellFormed state hwf' "b" (opp 0) (opp 0) "cf" "11" rfl) hc
  have hok : state.cards 0 ≠ state.cards 1 →
      ∃ r, cfr (fuel + 2) state "" 0 reachProb0 reachProb1 = Except.ok r := by
    intro hc
    exact ⟨_, (cfr_root fuel state 0 reachProb0 reachProb1 _).2
      ⟨rootOk_of_wellFormed state 0 hwf' hc, rfl⟩⟩
  refine ⟨⟨?_, fun hc => ⟨_, hfail hc⟩⟩, hfail, hok⟩
  rintro ⟨e, he⟩
  by_contra hc
  obtain ⟨r, hr⟩ := hok hc
  rw [hr] at he
  cases he

theorem cfr_root_fails_iff_witness :
    cfr 2 freshState "" 0 1 1 = Except.error Err.assertFail ∧
    ∃ r, cfr 2 exampleState "" 0 1 1 = Except.ok r := by
  have hn : WellFormedNodes exampleState := by
    constructor
    · intro key node hl
      simp [exampleState, freshState, initState, lookupKey] at hl
    · intro hist card acts term s _ hl
      simp [exampleState, freshState, initState, lookupKey] at hl
  exact ⟨(cfr_root_fails_iff 0 freshState 1 1 (Or.inl wellFormed_freshState)).2.1 (by decide),
    (cfr_root_fails_iff 0 exampleState 1 1 (Or.inr ⟨reachable_exampleState, hn⟩)).2.2
      (by decide)⟩

end Cfr
